import Mathlib

/-!
WAPI wireless control client (apps/wireless/wapi/src/wireless.c)

A shallow embedding of the scan subsystem and of the frequency/ESSID helpers
of `wireless.c`, with the properties of its specification stated over it.

Conventions of the embedding

* A `wapi_list_t` of scan cells is a Lean list: the head of the list is
  `list->head.scan`, the tail is reached through `next`.
* Pointers into a byte buffer are offsets; bytes are natural numbers.
* A `double` is a finite value (a rational: every finite double is one), an
  infinity or a NaN.  The operations whose result depends on rounding or on
  the mathematical library (`floor(log10(x))`, `pow(10, n)`, product,
  quotient) are a parameter `fp`; `exact_fp` is exact arithmetic, `ieee_fp`
  the binary64 arithmetic rounded to nearest with the logarithm as a
  parameter, and `host_fp` the binary64 instance used in the examples.
* An execution that dereferences `NULL` or copies outside an array has no
  defined result: it is the outcome `Exec.undefined`.  A loop is run with
  fuel; `Exec.out_of_fuel` means it had not finished when the fuel ran out.
* Everything the environment decides (the kernel answers to `ioctl`, whether
  `malloc`/`realloc` return a block, the event extractor of the wireless
  extensions library, constants of headers outside this file) is a parameter.
-/

namespace Wapi

/-! ## Execution outcomes -/

/-- Outcome of running a piece of the C code. -/
inductive Exec (α : Type) where
  | val (a : α)
  | undefined
  | out_of_fuel
  deriving DecidableEq, Repr

/-! ## Constants of headers that are not part of wireless.c -/

/-- Value of `E2BIG` in `errno.h`. -/
def E2BIG : Int := 7

/-- Value of `EAGAIN` in `errno.h`. -/
def EAGAIN : Int := 11

/-- Modelled from the spec: the enumeration `wapi_essid_flag_t` of `wapi.h` is
missing; its two values are numbered in the order of `g_wapi_essid_flags`. -/
def WAPI_ESSID_ON : Int := 0

/-- Modelled from the spec: second value of `wapi_essid_flag_t`, see `WAPI_ESSID_ON`. -/
def WAPI_ESSID_OFF : Int := 1

/-- Modelled from the spec: the enumeration `wapi_mode_t` of `wapi.h` is missing;
the seven operating modes {auto, ad-hoc, managed, master, repeater, secondary,
monitor} are the values 0..6, in the order of `g_wapi_modes`. -/
def WAPI_MODE_AUTO : Int := 0

/-- Modelled from the spec: operating mode 1 of `wapi_mode_t`, see `WAPI_MODE_AUTO`. -/
def WAPI_MODE_ADHOC : Int := 1

/-- Modelled from the spec: operating mode 2 of `wapi_mode_t`, see `WAPI_MODE_AUTO`. -/
def WAPI_MODE_MANAGED : Int := 2

/-- Modelled from the spec: operating mode 3 of `wapi_mode_t`, see `WAPI_MODE_AUTO`. -/
def WAPI_MODE_MASTER : Int := 3

/-- Modelled from the spec: operating mode 4 of `wapi_mode_t`, see `WAPI_MODE_AUTO`. -/
def WAPI_MODE_REPEAT : Int := 4

/-- Modelled from the spec: operating mode 5 of `wapi_mode_t`, see `WAPI_MODE_AUTO`. -/
def WAPI_MODE_SECOND : Int := 5

/-- Modelled from the spec: operating mode 6 of `wapi_mode_t`, see `WAPI_MODE_AUTO`. -/
def WAPI_MODE_MONITOR : Int := 6

/-- Number of bytes of a `struct ether_addr`. -/
def ETHER_ADDR_LEN : Nat := 6

/-! ## Data model -/

/-- Operation code of a wireless event.  The `switch` of `wapi_scan_event`
tells five codes apart; every other code is `other`. -/
inductive iw_cmd where
  | SIOCGIWAP
  | SIOCGIWFREQ
  | SIOCGIWMODE
  | SIOCGIWESSID
  | SIOCGIWRATE
  | other (code : Nat)
  deriving DecidableEq, Repr

/-- A value of type `double`: a finite value, an infinity or a NaN. -/
inductive double where
  | finite (q : ℚ)
  | inf (negative : Bool)
  | nan
  deriving DecidableEq, Repr

/-- Wire form of a frequency: `m * 10^e`. -/
structure iw_freq where
  m : Int
  e : Int
  deriving DecidableEq, Repr

/-- A `struct iw_point`: `pointer` is `none` for `NULL`, otherwise the bytes
that can be read from the pointed block. -/
structure iw_point where
  pointer : Option (List Nat)
  length : Nat
  flags : Nat
  deriving DecidableEq, Repr

/-- A `struct iw_param`, of which only `value` is used here. -/
structure iw_param where
  value : Int
  deriving DecidableEq, Repr

/-- The payload `union iwreq_data`, one field per member that `wireless.c` reads.
The members `essid` and `data` are the same `iw_point`. -/
structure iwreq_data where
  ap_addr : List Nat
  freq : iw_freq
  mode : Int
  essid : iw_point
  bitrate : iw_param
  deriving DecidableEq, Repr

/-- The member `u.data`, which is the storage of `u.essid`. -/
def iwreq_data.data (u : iwreq_data) : iw_point := u.essid

/-- A `struct iw_event`. -/
structure iw_event where
  len : Nat
  cmd : iw_cmd
  u : iwreq_data
  deriving DecidableEq, Repr

/-- Modelled from the spec: the declaration of `wapi_scan_info_t` in `wapi.h` is
missing.  One record per access point: the hardware address, and each of
frequency, mode, network name (with its on/off flag) and bitrate carried next
to a boolean "is this field present" flag.  The `next` pointer is the tail of
the Lean list that holds the record. -/
structure wapi_scan_info_t where
  ap : List Nat
  has_essid : Bool
  essid : List Nat
  essid_flag : Int
  has_freq : Bool
  freq : double
  has_mode : Bool
  mode : Int
  has_bitrate : Bool
  bitrate : Int
  deriving DecidableEq, Repr

/-- The list `wapi_list_t`, seen through `head.scan`. -/
abbrev wapi_list_t := List wapi_scan_info_t

/-- The decode cursor `struct iw_event_stream_s`: offsets into the buffer. -/
structure iw_event_stream_s where
  end_ : Nat
  current : Nat
  value : Option Nat
  deriving DecidableEq, Repr

/-! ## Library functions -/

/-- The call `memcpy(dst, src, n)` into an array `dst`: defined only when `n`
bytes fit in `dst` and can be read from `src`. -/
def memcpy (dst src : List Nat) (n : Nat) : Option (List Nat) :=
  if n ≤ dst.length ∧ n ≤ src.length then some (src.take n ++ dst.drop n) else none

/-- The call `snprintf(buf, size, "%s", s)` of C99 for `size > 0`, where `s` is
the string without its terminating NUL: the buffer receives at most `size - 1`
characters and a NUL; the value returned is the length of `s`, the number of
characters that a large enough buffer would have received. -/
def snprintf_s (size : Nat) (s : List Nat) : List Nat × Int :=
  (s.take (size - 1) ++ [0], (s.length : Int))

/-- Truncation toward zero of a finite value, as a conversion of a `double` to an
integer type does it. -/
def double_to_long (x : ℚ) : Int :=
  if 0 ≤ x then ⌊x⌋ else ⌈x⌉

/-- Two-complement wrap of an integer to a 32 bit `int`. -/
def wrap_int32 (x : Int) : Int :=
  (x + 2147483648) % 4294967296 - 2147483648

/-! ## Double arithmetic -/

/-- The operations on `double` whose result depends on rounding or on the
mathematical library: `floor_log10 x` is the double that `floor(log10(x))`
evaluates to, `pow10 n` the double that `pow(10, n)` evaluates to for an
integer `n`, `mul` and `div` the product and the quotient of two doubles. -/
structure fp_ops where
  floor_log10 : double → double
  pow10 : Int → double
  mul : double → double → double
  div : double → double → double

/-- The call `floor(x)`: exact on a finite value. -/
def double_floor : double → double
  | double.finite q => double.finite ((⌊q⌋ : Int) : ℚ)
  | double.inf negative => double.inf negative
  | double.nan => double.nan

/-- The conversion `(short)x`: truncation toward zero, with no defined result
when `x` is not finite or the truncated value is outside -32768..32767. -/
def double_to_short : double → Option Int
  | double.finite q =>
    if -32768 ≤ double_to_long q ∧ double_to_long q ≤ 32767 then some (double_to_long q)
    else none
  | double.inf _ => none
  | double.nan => none

/-- The conversion `(long)x` for a `long` of 32 bits: truncation toward zero, with
no defined result when `x` is not finite or the truncated value is outside the
range of the type. -/
def double_to_long32 : double → Option Int
  | double.finite q =>
    if -2147483648 ≤ double_to_long q ∧ double_to_long q ≤ 2147483647 then
      some (double_to_long q)
    else none
  | double.inf _ => none
  | double.nan => none

/-- Exact arithmetic: every operation returns the exact value, and
`floor(log10(x))` is the integer `l` with `10^l <= x < 10^(l+1)`. -/
def exact_fp : fp_ops :=
  { floor_log10 := fun x =>
      match x with
      | double.finite q =>
        if 0 < q then double.finite ((Int.log 10 q : Int) : ℚ)
        else if q = 0 then double.inf true
        else double.nan
      | double.inf false => double.inf false
      | _ => double.nan
    pow10 := fun n => double.finite ((10 : ℚ) ^ n)
    mul := fun x y =>
      match x, y with
      | double.finite a, double.finite b => double.finite (a * b)
      | _, _ => double.nan
    div := fun x y =>
      match x, y with
      | double.finite a, double.finite b => if b = 0 then double.nan else double.finite (a / b)
      | _, _ => double.nan }

/-- Rounding of a rational to the nearest integer, ties to the even one. -/
def round_half_even (x : ℚ) : Int :=
  if x - (⌊x⌋ : ℚ) < 1 / 2 then ⌊x⌋
  else if 1 / 2 < x - (⌊x⌋ : ℚ) then ⌊x⌋ + 1
  else if ⌊x⌋ % 2 = 0 then ⌊x⌋
  else ⌊x⌋ + 1

/-- The binary exponent used to round `q` to binary64: the `e` with
`2^e <= |q| < 2^(e+1)`, and -1022 for the subnormal range. -/
def double_exponent (q : ℚ) : Int :=
  max (Int.log 2 |q|) (-1022)

/-- The magnitude of the binary64 value nearest to `q` (ties to even): a
significand of 53 bits at the exponent of `q`. -/
def round_magnitude (q : ℚ) : ℚ :=
  (round_half_even (|q| * (2 : ℚ) ^ (52 - double_exponent q)) : ℚ)
    * (2 : ℚ) ^ (double_exponent q - 52)

/-- Rounding of a rational to binary64, to nearest with ties to even; a
magnitude of 2^1024 or more overflows to an infinity. -/
def round_double (q : ℚ) : double :=
  if q = 0 then double.finite 0
  else if (2 : ℚ) ^ (1024 : Nat) ≤ round_magnitude q then double.inf (decide (q < 0))
  else if q < 0 then double.finite (-round_magnitude q)
  else double.finite (round_magnitude q)

/-- Binary64 product: the exact product rounded; an infinity times zero and any
NaN give a NaN. -/
def ieee_mul : double → double → double
  | double.finite a, double.finite b => round_double (a * b)
  | double.finite a, double.inf s =>
    if a = 0 then double.nan else double.inf (xor s (decide (a < 0)))
  | double.inf s, double.finite b =>
    if b = 0 then double.nan else double.inf (xor s (decide (b < 0)))
  | double.inf s, double.inf t => double.inf (xor s t)
  | _, _ => double.nan

/-- Binary64 quotient: the exact quotient rounded; division of a non-zero value by
zero gives an infinity, zero by zero and infinity by infinity a NaN. -/
def ieee_div : double → double → double
  | double.finite a, double.finite b =>
    if b = 0 then (if a = 0 then double.nan else double.inf (decide (a < 0)))
    else round_double (a / b)
  | double.finite _, double.inf _ => double.finite 0
  | double.inf s, double.finite b => double.inf (xor s (decide (b < 0)))
  | _, _ => double.nan

/-- Binary64 arithmetic rounded to nearest, with a correctly rounded `pow`; the
value of `floor(log10(x))`, which the mathematical library decides, is the
parameter. -/
def ieee_fp (floor_log10 : double → double) : fp_ops :=
  { floor_log10 := floor_log10
    pow10 := fun n => round_double ((10 : ℚ) ^ n)
    mul := ieee_mul
    div := ieee_div }

/-- A model of `floor(log10(x))` as a mathematical library computes it in
`double`.  For a positive `x` with `10^l <= x < 10^(l+1)` the exact floor is
`l`; but `log10(x)` is itself rounded to a double, and from `x >= 10^8` on a
value within a relative `10^-15` below the power of ten `10^(l+1)` has its
logarithm closer to `l + 1` than half the spacing of the doubles there, so the
logarithm comes out as `l + 1` and so does its floor.  (A library may return
`l + 1` somewhat further below the power of ten as well.)  At 0 the logarithm
is minus infinity, below 0 a NaN. -/
def rounded_floor_log10 : double → double
  | double.finite q =>
    if 0 < q then
      if 8 ≤ Int.log 10 q
          ∧ (10 : ℚ) ^ (Int.log 10 q + 1) * (1 - 1 / 1000000000000000) ≤ q then
        double.finite (((Int.log 10 q + 1 : Int)) : ℚ)
      else double.finite ((Int.log 10 q : Int) : ℚ)
    else if q = 0 then double.inf true
    else double.nan
  | double.inf false => double.inf false
  | _ => double.nan

/-- The double arithmetic used in the examples: binary64 rounded to nearest with the
model `rounded_floor_log10` of the logarithm. -/
def host_fp : fp_ops :=
  ieee_fp rounded_floor_log10

/-! ## Numeric codec -/

/-- The function `wapi_freq2float`: `((double)freq->m) * pow(10, freq->e)`.  The
conversion of the integer `m` is exact. -/
def wapi_freq2float (fp : fp_ops) (freq : iw_freq) : double :=
  fp.mul (double.finite (freq.m : ℚ)) (fp.pow10 freq.e)

/-- The function `wapi_float2freq`.  There is no result when a conversion to an
integer type has none: the exponent does not fit the `short`, or a mantissa
does not fit the `long` or the 32 bit field `m`. -/
def wapi_float2freq (fp : fp_ops) (floatfreq : double) : Option iw_freq :=
  match double_to_short (fp.floor_log10 floatfreq) with
  | none => none
  | some e =>
    if e > 8 then
      match double_to_long32 (double_floor (fp.div floatfreq (fp.pow10 (e - 6)))) with
      | none => none
      | some l =>
        if -2147483648 ≤ l * 100 ∧ l * 100 ≤ 2147483647 then some { m := l * 100, e := e - 8 }
        else none
    else
      match double_to_long32 floatfreq with
      | none => none
      | some l => some { m := l, e := 0 }

/-! ## Scan record aggregation -/

/-- The function `wapi_parse_mode`: the value returned, and the content of
`*wapi_mode` afterwards (`old` is its content before the call). -/
def wapi_parse_mode (iw_mode : Int) (old : Int) : Int × Int :=
  if iw_mode = WAPI_MODE_AUTO ∨ iw_mode = WAPI_MODE_ADHOC ∨ iw_mode = WAPI_MODE_MANAGED
      ∨ iw_mode = WAPI_MODE_MASTER ∨ iw_mode = WAPI_MODE_REPEAT
      ∨ iw_mode = WAPI_MODE_SECOND ∨ iw_mode = WAPI_MODE_MONITOR then
    (0, iw_mode)
  else
    (-1, old)

/-- The cell of the `SIOCGIWAP` case: a block cleared by `bzero`, then the first
`sizeof(struct ether_addr)` bytes of `sa_data` copied into `ap`. -/
def new_cell (WAPI_ESSID_MAX_SIZE : Nat) (event : iw_event) : wapi_scan_info_t :=
  { ap := event.u.ap_addr.take ETHER_ADDR_LEN
    has_essid := false
    essid := List.replicate (WAPI_ESSID_MAX_SIZE + 1) 0
    essid_flag := 0
    has_freq := false
    freq := double.finite 0
    has_mode := false
    mode := 0
    has_bitrate := false
    bitrate := 0 }

/-- The function `wapi_scan_event`.  `fp` is the double arithmetic of the
platform.  `malloc_ok` tells whether the `malloc` of
the `SIOCGIWAP` case returns a block.  The result is the value returned and the
list afterwards.  With an empty list `info` is `NULL`, and a case that writes
through `info` has no defined result. -/
def wapi_scan_event (fp : fp_ops) (WAPI_ESSID_MAX_SIZE : Nat) (malloc_ok : Bool)
    (event : iw_event) (list : wapi_list_t) : Exec (Int × wapi_list_t) :=
  match event.cmd with
  | iw_cmd.SIOCGIWAP =>
    if malloc_ok then
      Exec.val (0, new_cell WAPI_ESSID_MAX_SIZE event :: list)
    else
      Exec.val (-1, list)
  | iw_cmd.SIOCGIWFREQ =>
    match list with
    | [] => Exec.undefined
    | info :: next =>
      Exec.val (0,
        { info with has_freq := true, freq := wapi_freq2float fp event.u.freq } :: next)
  | iw_cmd.SIOCGIWMODE =>
    match list with
    | [] =>
      if (wapi_parse_mode event.u.mode 0).1 ≥ 0 then Exec.undefined
      else Exec.val ((wapi_parse_mode event.u.mode 0).1, [])
    | info :: next =>
      let r := wapi_parse_mode event.u.mode info.mode
      if r.1 ≥ 0 then
        Exec.val (0, { info with mode := r.2, has_mode := true } :: next)
      else
        Exec.val (r.1, { info with mode := r.2 } :: next)
  | iw_cmd.SIOCGIWESSID =>
    match list with
    | [] => Exec.undefined
    | info :: next =>
      let flag := if event.u.data.flags ≠ 0 then WAPI_ESSID_ON else WAPI_ESSID_OFF
      let cleared := List.replicate (WAPI_ESSID_MAX_SIZE + 1) 0
      match event.u.essid.pointer with
      | none =>
        Exec.val (0, { info with has_essid := true, essid_flag := flag, essid := cleared } :: next)
      | some bytes =>
        if event.u.essid.length ≠ 0 then
          match memcpy cleared bytes event.u.essid.length with
          | none => Exec.undefined
          | some name =>
            Exec.val (0, { info with has_essid := true, essid_flag := flag, essid := name } :: next)
        else
          Exec.val (0, { info with has_essid := true, essid_flag := flag, essid := cleared } :: next)
  | iw_cmd.SIOCGIWRATE =>
    match list with
    | [] => Exec.undefined
    | info :: next =>
      if info.has_bitrate = false ∨ event.u.bitrate.value > info.bitrate then
        Exec.val (0, { info with has_bitrate := true, bitrate := event.u.bitrate.value } :: next)
      else
        Exec.val (0, info :: next)
  | iw_cmd.other _ => Exec.val (0, list)

/-- Successive calls of `wapi_scan_event`, one per event and in order, each on the
list left by the previous call: the values returned and the final list.  The
i-th call finds `malloc i` as the answer of the allocator. -/
def scan_events (fp : fp_ops) (WAPI_ESSID_MAX_SIZE : Nat) (malloc : Nat → Bool) :
    List iw_event → Nat → wapi_list_t → Exec (List Int × wapi_list_t)
  | [], _, list => Exec.val ([], list)
  | event :: rest, i, list =>
    match wapi_scan_event fp WAPI_ESSID_MAX_SIZE (malloc i) event list with
    | Exec.val (ret, list1) =>
      match scan_events fp WAPI_ESSID_MAX_SIZE malloc rest (i + 1) list1 with
      | Exec.val (rets, list2) => Exec.val (ret :: rets, list2)
      | Exec.undefined => Exec.undefined
      | Exec.out_of_fuel => Exec.out_of_fuel
    | Exec.undefined => Exec.undefined
    | Exec.out_of_fuel => Exec.out_of_fuel

/-! ## Aggregation as the specification words it -/

/-- An event that the aggregation accepts: a mode event carries one of the seven
operating modes, and a network-name event with a name carries at most
`WAPI_ESSID_MAX_SIZE` bytes, all of them readable. -/
def valid_event (WAPI_ESSID_MAX_SIZE : Nat) (event : iw_event) : Prop :=
  match event.cmd with
  | iw_cmd.SIOCGIWMODE => 0 ≤ event.u.mode ∧ event.u.mode ≤ 6
  | iw_cmd.SIOCGIWESSID =>
    match event.u.essid.pointer with
    | none => True
    | some bytes =>
      event.u.essid.length ≤ WAPI_ESSID_MAX_SIZE ∧ event.u.essid.length ≤ bytes.length
  | _ => True

/-- Specification side: the record started by an address event.  It carries the
address and no other field (all presence flags clear). -/
def spec_new_record (WAPI_ESSID_MAX_SIZE : Nat) (event : iw_event) : wapi_scan_info_t :=
  { ap := event.u.ap_addr.take ETHER_ADDR_LEN
    has_essid := false
    essid := List.replicate (WAPI_ESSID_MAX_SIZE + 1) 0
    essid_flag := 0
    has_freq := false
    freq := double.finite 0
    has_mode := false
    mode := 0
    has_bitrate := false
    bitrate := 0 }

/-- Specification side: the name field after a network-name event, the field
cleared first and then at most `WAPI_ESSID_MAX_SIZE` name bytes copied. -/
def spec_name (WAPI_ESSID_MAX_SIZE : Nat) (p : iw_point) : List Nat :=
  match p.pointer with
  | none => List.replicate (WAPI_ESSID_MAX_SIZE + 1) 0
  | some bytes =>
    bytes.take (min p.length WAPI_ESSID_MAX_SIZE)
      ++ List.replicate (WAPI_ESSID_MAX_SIZE + 1 - min p.length WAPI_ESSID_MAX_SIZE) 0

/-- Specification side (section 4.5): what one event that is not an address
event sets in the current record.  Frequency: the value that the numeric codec
decodes, the product of the mantissa and of ten to the exponent in the double
arithmetic `fp`, marked present.  Mode: the mode, marked present.  Network name: presence, the on/off
flag from the kernel flags, the name.  Bitrate: the maximum seen so far.
Any other event: nothing. -/
def spec_apply (fp : fp_ops) (WAPI_ESSID_MAX_SIZE : Nat) (r : wapi_scan_info_t)
    (event : iw_event) : wapi_scan_info_t :=
  match event.cmd with
  | iw_cmd.SIOCGIWFREQ =>
    { r with
      has_freq := true
      freq := fp.mul (double.finite (event.u.freq.m : ℚ)) (fp.pow10 event.u.freq.e) }
  | iw_cmd.SIOCGIWMODE => { r with has_mode := true, mode := event.u.mode }
  | iw_cmd.SIOCGIWESSID =>
    { r with
      has_essid := true
      essid_flag := if event.u.essid.flags = 0 then WAPI_ESSID_OFF else WAPI_ESSID_ON
      essid := spec_name WAPI_ESSID_MAX_SIZE event.u.essid }
  | iw_cmd.SIOCGIWRATE =>
    { r with
      has_bitrate := true
      bitrate := if r.has_bitrate then max r.bitrate event.u.bitrate.value
                 else event.u.bitrate.value }
  | _ => r

/-- Specification side: the events that follow, up to the next address event. -/
def spec_run (events : List iw_event) : List iw_event :=
  events.takeWhile (fun event => decide (event.cmd ≠ iw_cmd.SIOCGIWAP))

/-- Specification side: the records of an event sequence in discovery order, one
per address event, each the fold of the run of events that follows its address
event. -/
def spec_records (fp : fp_ops) (WAPI_ESSID_MAX_SIZE : Nat) :
    List iw_event → List wapi_scan_info_t
  | [] => []
  | event :: rest =>
    if event.cmd = iw_cmd.SIOCGIWAP then
      (spec_run rest).foldl (spec_apply fp WAPI_ESSID_MAX_SIZE)
          (spec_new_record WAPI_ESSID_MAX_SIZE event)
        :: spec_records fp WAPI_ESSID_MAX_SIZE rest
    else
      spec_records fp WAPI_ESSID_MAX_SIZE rest

/-- Specification side: the result list, in head-insertion order (the reverse of
the discovery order). -/
def spec_aggregate (fp : fp_ops) (WAPI_ESSID_MAX_SIZE : Nat) (events : List iw_event) :
    wapi_list_t :=
  (spec_records fp WAPI_ESSID_MAX_SIZE events).reverse

/-! ## Events used in examples -/

/-- A payload with every member zero. -/
def zero_data : iwreq_data :=
  { ap_addr := List.replicate 14 0
    freq := { m := 0, e := 0 }
    mode := 0
    essid := { pointer := none, length := 0, flags := 0 }
    bitrate := { value := 0 } }

/-- An access-point-address event for the address `a`. -/
def ev_ap (a : List Nat) : iw_event :=
  { len := 0, cmd := iw_cmd.SIOCGIWAP, u := { zero_data with ap_addr := a } }

/-- A frequency event for `m * 10^e`. -/
def ev_freq (m e : Int) : iw_event :=
  { len := 0, cmd := iw_cmd.SIOCGIWFREQ, u := { zero_data with freq := { m := m, e := e } } }

/-- A mode event. -/
def ev_mode (mode : Int) : iw_event :=
  { len := 0, cmd := iw_cmd.SIOCGIWMODE, u := { zero_data with mode := mode } }

/-- A network-name event. -/
def ev_essid (bytes : List Nat) (length flags : Nat) : iw_event :=
  { len := 0, cmd := iw_cmd.SIOCGIWESSID,
    u := { zero_data with essid := { pointer := some bytes, length := length, flags := flags } } }

/-- An event with an operation code that `wapi_scan_event` does not know. -/
def ev_other (code : Nat) : iw_event :=
  { len := 0, cmd := iw_cmd.other code, u := zero_data }

/-- A bitrate event. -/
def ev_rate (value : Int) : iw_event :=
  { len := 0, cmd := iw_cmd.SIOCGIWRATE, u := { zero_data with bitrate := { value := value } } }


/-! ## Scan driver and collection -/

/-- The function `wapi_scan_stat`, as a function of what the zero-length
`SIOCGIWSCAN` request gives: the value `ret` returned by `ioctl` and `errno`. -/
def wapi_scan_stat (ret errno : Int) : Int :=
  if ret < 0 then
    if errno = E2BIG then 0
    else if errno = EAGAIN then 1
    else ret
  else ret

/-- The function `wapi_get_we_version`, as a function of what the `SIOCGIWRANGE`
request gives: the value returned, and the content of `*we_version` afterwards
(`old` is its content before the call). -/
def wapi_get_we_version (ret we_version_compiled old : Int) : Int × Int :=
  if ret ≥ 0 then (ret, we_version_compiled) else (ret, old)

/-- Answer of the kernel to one `SIOCGIWSCAN` request: the value returned by
`ioctl`, `errno`, and what it left in `wrq.u.data.length` and in the buffer. -/
structure scan_reply where
  ret : Int
  errno : Int
  length : Nat
  buf : List Nat
  deriving DecidableEq, Repr

/-- What surrounds one call of `wapi_scan_coll`.  `fp` is the double arithmetic.
`IW_SCAN_MAX_DATA` and `WAPI_ESSID_MAX_SIZE` are constants of missing headers.
`ioctl_scan k buflen` is the answer to the retrieve request number `k` (from 0),
issued with a buffer of `buflen` bytes; `realloc_ok k buflen` tells whether the
`realloc` to `buflen` bytes that follows request `k` returns a block;
`cell_malloc i` whether the `malloc` of the call number `i` of `wapi_scan_event`
does.  `iw_extract_event_stream buf stream iwe we_version` is the extractor of
the wireless extensions library: the value returned, the cursor and the event
afterwards.  `iwe0` is the content of the local `iwe` before the first
extraction. -/
structure scan_env where
  fp : fp_ops
  IW_SCAN_MAX_DATA : Int
  WAPI_ESSID_MAX_SIZE : Nat
  range_ret : Int
  range_we_version_compiled : Int
  buf_malloc : Bool
  ioctl_scan : Nat → Int → scan_reply
  realloc_ok : Nat → Int → Bool
  cell_malloc : Nat → Bool
  iw_extract_event_stream :
    List Nat → iw_event_stream_s → iw_event → Int → Int × iw_event_stream_s × iw_event
  iwe0 : iw_event

/-- The function `iw_event_stream_init` on a buffer of `len` bytes: the cursor at
offset 0, the end at offset `len`, no current value. -/
def iw_event_stream_init (len : Nat) : iw_event_stream_s :=
  { end_ := len, current := 0, value := none }

/-- The function `iw_event_stream_pop`: a call of the library extractor. -/
def iw_event_stream_pop (env : scan_env) (buf : List Nat) (stream : iw_event_stream_s)
    (iwe : iw_event) (we_version : Int) : Int × iw_event_stream_s × iw_event :=
  env.iw_extract_event_stream buf stream iwe we_version

/-- How the retrieve loop of `wapi_scan_coll` (label `alloc`) ends: with the
answer of the last request, or with a `realloc` that returned `NULL`.
`doublings` counts the reallocations that succeeded before. -/
inductive retrieve_end where
  | answered (reply : scan_reply) (buflen : Int) (doublings : Nat)
  | realloc_failed (doublings : Nat)
  deriving DecidableEq, Repr

/-- The retrieve loop of `wapi_scan_coll`: request number `k` with a buffer of
`buflen` bytes; on `E2BIG` the size is doubled (in `int` arithmetic), the
buffer reallocated and the request issued again. -/
def retrieve (env : scan_env) : Nat → Nat → Int → Exec retrieve_end
  | 0, _, _ => Exec.out_of_fuel
  | fuel + 1, k, buflen =>
    let reply := env.ioctl_scan k buflen
    if reply.ret < 0 ∧ reply.errno = E2BIG then
      if env.realloc_ok k (wrap_int32 (buflen * 2)) then
        retrieve env fuel (k + 1) (wrap_int32 (buflen * 2))
      else
        Exec.val (retrieve_end.realloc_failed k)
    else
      Exec.val (retrieve_end.answered reply buflen k)

/-- The number of reallocations that succeeded before the retrieve loop ended. -/
def doublings_of : retrieve_end → Nat
  | retrieve_end.answered _ _ doublings => doublings
  | retrieve_end.realloc_failed doublings => doublings

/-- The variables of the decoding loop of `wapi_scan_coll`: the cursor, the local
event, the list of the caller, `ret`, and the number of calls of
`wapi_scan_event` made so far. -/
structure coll_state where
  stream : iw_event_stream_s
  iwe : iw_event
  aps : wapi_list_t
  ret : Int
  calls : Nat
  deriving DecidableEq, Repr

/-- The body of the `do ... while` loop of `wapi_scan_coll`. -/
def scan_body (env : scan_env) (buf : List Nat) (we_version : Int) (s : coll_state) :
    Exec coll_state :=
  let popped := iw_event_stream_pop env buf s.stream s.iwe we_version
  if popped.1 ≥ 0 then
    match wapi_scan_event env.fp env.WAPI_ESSID_MAX_SIZE (env.cell_malloc s.calls) popped.2.2
        s.aps with
    | Exec.val (eventret, aps1) =>
      Exec.val
        { stream := popped.2.1, iwe := popped.2.2, aps := aps1,
          ret := if eventret < 0 then eventret else popped.1, calls := s.calls + 1 }
    | Exec.undefined => Exec.undefined
    | Exec.out_of_fuel => Exec.out_of_fuel
  else
    Exec.val { s with stream := popped.2.1, iwe := popped.2.2, ret := popped.1 }

/-- The `do ... while (ret > 0)` loop of `wapi_scan_coll`. -/
def scan_loop (env : scan_env) (buf : List Nat) (we_version : Int) :
    Nat → coll_state → Exec coll_state
  | 0, _ => Exec.out_of_fuel
  | fuel + 1, s =>
    match scan_body env buf we_version s with
    | Exec.val s1 => if s1.ret > 0 then scan_loop env buf we_version fuel s1 else Exec.val s1
    | Exec.undefined => Exec.undefined
    | Exec.out_of_fuel => Exec.out_of_fuel

/-- The function `wapi_scan_coll` on a valid `aps`: the value returned and the
list of the caller afterwards.  The two loops have their own fuel. -/
def wapi_scan_coll (env : scan_env) (fuel_retrieve fuel_decode : Nat) (aps : wapi_list_t) :
    Exec (Int × wapi_list_t) :=
  let version := wapi_get_we_version env.range_ret env.range_we_version_compiled 0
  if version.1 < 0 then Exec.val (version.1, aps)
  else if env.buf_malloc = false then Exec.val (-1, aps)
  else
    match retrieve env fuel_retrieve 0 env.IW_SCAN_MAX_DATA with
    | Exec.out_of_fuel => Exec.out_of_fuel
    | Exec.undefined => Exec.undefined
    | Exec.val (retrieve_end.realloc_failed _) => Exec.val (-1, aps)
    | Exec.val (retrieve_end.answered reply _ _) =>
      if reply.ret < 0 then Exec.val (reply.ret, aps)
      else if reply.length ≠ 0 then
        match scan_loop env reply.buf version.2 fuel_decode
            { stream := iw_event_stream_init reply.length, iwe := env.iwe0, aps := aps,
              ret := reply.ret, calls := 0 } with
        | Exec.val s => Exec.val (s.ret, s.aps)
        | Exec.undefined => Exec.undefined
        | Exec.out_of_fuel => Exec.out_of_fuel
      else Exec.val (reply.ret, aps)

/-- The state after `n` more turns of the decoding loop, when each of them ends
with `ret > 0` (the loop goes on); `none` otherwise. -/
def after_iterations (env : scan_env) (buf : List Nat) (we_version : Int) :
    Nat → coll_state → Option coll_state
  | 0, s => some s
  | n + 1, s =>
    match scan_body env buf we_version s with
    | Exec.val s1 => if s1.ret > 0 then after_iterations env buf we_version n s1 else none
    | Exec.undefined => none
    | Exec.out_of_fuel => none

/-- The value of `buflen` at retrieve request number `k`: the initial size doubled
`k` times in `int` arithmetic. -/
def buflen_at (start : Int) : Nat → Int
  | 0 => start
  | k + 1 => wrap_int32 (buflen_at start k * 2)

/-! ## Outgoing ESSID -/

/-- The request prepared by `wapi_set_essid`: `pointer` is the local buffer of
`WAPI_ESSID_MAX_SIZE + 1` bytes as `snprintf` leaves it, `length` the value
returned by `snprintf` stored in the 16 bit field, `flags` the comparison
`flag == WAPI_ESSID_ON`.  The string `essid` is given without its NUL. -/
def wapi_set_essid_wrq (WAPI_ESSID_MAX_SIZE : Nat) (essid : List Nat) (flag : Int) : iw_point :=
  let printed := snprintf_s (WAPI_ESSID_MAX_SIZE + 1) essid
  { pointer := some printed.1
    length := (printed.2 % 65536).toNat
    flags := if flag = WAPI_ESSID_ON then 1 else 0 }

/-- The function `wapi_set_essid`: the value returned by the `SIOCSIWESSID`
request that it issues. -/
def wapi_set_essid (WAPI_ESSID_MAX_SIZE : Nat) (ioctl : iw_point → Int) (essid : List Nat)
    (flag : Int) : Int :=
  ioctl (wapi_set_essid_wrq WAPI_ESSID_MAX_SIZE essid flag)

/-! ## Environments used in examples -/

/-- An extractor that plays a script: the cursor offset counts the extractions
made; extraction number `n` returns the `n`-th entry of the script, and 0 with
the event untouched once the script is over. -/
def scripted_extract (script : List (Int × iw_event)) (_buf : List Nat)
    (stream : iw_event_stream_s) (iwe : iw_event) (_we_version : Int) :
    Int × iw_event_stream_s × iw_event :=
  match script.get? stream.current with
  | some (ret, event) => (ret, { stream with current := stream.current + 1 }, event)
  | none => (0, stream, iwe)

/-- An environment where every request succeeds at once: the retrieve request
answers `length` bytes, every allocation returns a block, and the extractor
plays `script`. -/
def scripted_env (length : Nat) (script : List (Int × iw_event)) : scan_env :=
  { fp := host_fp
    IW_SCAN_MAX_DATA := 4096
    WAPI_ESSID_MAX_SIZE := 32
    range_ret := 0
    range_we_version_compiled := 22
    buf_malloc := true
    ioctl_scan := fun _ _ => { ret := 0, errno := 0, length := length, buf := [] }
    realloc_ok := fun _ _ => true
    cell_malloc := fun _ => true
    iw_extract_event_stream := scripted_extract script
    iwe0 := ev_other 0 }

/-- An environment whose kernel answers "buffer too small" to every retrieve
request and whose `realloc` always returns a block. -/
def too_small_env : scan_env :=
  { scripted_env 0 [] with
    ioctl_scan := fun _ _ => { ret := -1, errno := E2BIG, length := 0, buf := [] } }

/-- An environment whose kernel answers "buffer too small" to every retrieve
request and whose `realloc` returns a block for every size above zero and
`NULL` otherwise. -/
def refusing_env : scan_env :=
  { too_small_env with realloc_ok := fun _ buflen => decide (0 < buflen) }

/-! ## Event stream decoder -/

/-- Modelled from the spec: the layout of one event, "fixed by protocol version"
(section 4.4, steps 2 and 3); the header declarations are missing.  The spec
gives neither sizes nor byte order, so they are fields: the size of the fixed
header, the total event length and the operation code that the header bytes
declare, and the payload that the bytes of the event give for an operation
code. -/
structure event_layout where
  header_size : Nat
  declared_length : List Nat → Nat
  cmd : List Nat → iw_cmd
  payload : iw_cmd → List Nat → iwreq_data

/-- The bytes of `data` at the offsets `start`, ..., `start + n - 1`. -/
def read_bytes (data : List Nat) (start n : Nat) : List Nat :=
  (data.drop start).take n

/-- A value that the decoder computed, with the offsets of the buffer bytes that
were read on the way, in the order of the reads. -/
structure traced (α : Type) where
  value : α
  reads : List Nat

/-- A value computed without a read of the buffer. -/
def traced.ret {α : Type} (a : α) : traced α :=
  { value := a, reads := [] }

/-- Sequencing: the reads of the first computation, then the reads of the
second. -/
def traced.and_then {α β : Type} (x : traced α) (f : α → traced β) : traced β :=
  { value := (f x.value).value, reads := x.reads ++ (f x.value).reads }

/-- The one access of the decoder to the buffer: the `n` bytes at `start`; the
offsets `start`, ..., `start + n - 1` are recorded as read. -/
def load (data : List Nat) (start n : Nat) : traced (List Nat) :=
  { value := read_bytes data start n, reads := List.range' start n }

/-- Modelled from the spec: `iw_extract_event_stream` is missing; this is one
step of the decoder of section 4.4: the value returned, the cursor and the
event afterwards, with the offsets read.
Step 1: when the current offset has reached the end offset the stream is done
(0 is returned).  Step 2: the fixed-size header is read; when fewer bytes
remain than the header size, or when the declared event length exceeds the
remaining bytes, the step fails with `MalformedStream` (-1 is returned).
Steps 3 and 4: otherwise the event is read from its bytes, the cursor advances
by the declared total length, and 1 is returned. -/
def iw_extract_event_stream_traced (layout : Int → event_layout) (data : List Nat)
    (stream : iw_event_stream_s) (iwe : iw_event) (we_version : Int) :
    traced (Int × iw_event_stream_s × iw_event) :=
  if stream.current ≥ stream.end_ then traced.ret (0, stream, iwe)
  else if stream.end_ - stream.current < (layout we_version).header_size then
    traced.ret (-1, stream, iwe)
  else
    (load data stream.current (layout we_version).header_size).and_then fun header =>
      if (layout we_version).declared_length header > stream.end_ - stream.current then
        traced.ret (-1, stream, iwe)
      else
        (load data stream.current ((layout we_version).declared_length header)).and_then
          fun bytes =>
            traced.ret
              (1,
                { stream with
                  current := stream.current + (layout we_version).declared_length header },
                { len := (layout we_version).declared_length header
                  cmd := (layout we_version).cmd header
                  u := (layout we_version).payload ((layout we_version).cmd header) bytes })

/-- Modelled from the spec: `iw_extract_event_stream` is missing; the decoder of
section 4.4 as `iw_event_stream_pop` calls it: the value returned, the cursor
and the event afterwards. -/
def iw_extract_event_stream_spec (layout : Int → event_layout) (data : List Nat)
    (stream : iw_event_stream_s) (iwe : iw_event) (we_version : Int) :
    Int × iw_event_stream_s × iw_event :=
  (iw_extract_event_stream_traced layout data stream iwe we_version).value

/-- The environment `env` with the decoder of the specification as extractor. -/
def spec_decoder_env (env : scan_env) (layout : Int → event_layout) : scan_env :=
  { env with iw_extract_event_stream := iw_extract_event_stream_spec layout }

/-- A layout used in examples: a header of 4 bytes, the total length in the
first two (low byte first), the operation code in the next two; every code is
taken as unknown and no payload is read. -/
def example_layout : event_layout :=
  { header_size := 4
    declared_length := fun header => header.getD 0 0 + 256 * header.getD 1 0
    cmd := fun header => iw_cmd.other (header.getD 2 0 + 256 * header.getD 3 0)
    payload := fun _ _ => zero_data }

/-! ## Binary64 rounding at given values -/

theorem int_log_eq (b : Nat) (hb : 1 < b) (x : ℚ) (hx : 0 < x) (n : Int)
    (h1 : (b : ℚ) ^ n ≤ x) (h2 : x < (b : ℚ) ^ (n + 1)) : Int.log b x = n := by
  have a1 : Int.log b x < n + 1 := (Int.lt_zpow_iff_log_lt hb hx).mp h2
  have a2 : n ≤ Int.log b x := (Int.zpow_le_iff_le_log hb hx).mp h1
  omega

/-- The integer within less than 1/2 of `x` is the rounding of `x`. -/
theorem round_half_even_eq (x : ℚ) (n : Int) (h1 : (n : ℚ) - 1 / 2 < x)
    (h2 : x < (n : ℚ) + 1 / 2) : round_half_even x = n := by
  by_cases hx : (n : ℚ) ≤ x
  · have hf : ⌊x⌋ = n := by
      rw [Int.floor_eq_iff]
      constructor
      · exact hx
      · linarith
    have c : x - ((n : Int) : ℚ) < 1 / 2 := by linarith
    unfold round_half_even
    rw [hf, if_pos c]
  · have hf : ⌊x⌋ = n - 1 := by
      rw [Int.floor_eq_iff]
      push_cast
      constructor
      · linarith
      · linarith [not_le.mp hx]
    have c1 : ¬ x - ((n - 1 : Int) : ℚ) < 1 / 2 := by
      push_cast; linarith
    have c2 : 1 / 2 < x - ((n - 1 : Int) : ℚ) := by
      push_cast; linarith
    unfold round_half_even
    rw [hf, if_neg c1, if_pos c2]
    omega

/-- The rounding to binary64 of a positive `x` in the normal range, from its binary
exponent `e` and the integer `n` nearest to `x * 2^(52 - e)`. -/
theorem round_double_eq (x : ℚ) (e n : Int) (hx : 0 < x)
    (h1 : (2 : ℚ) ^ e ≤ x) (h2 : x < (2 : ℚ) ^ (e + 1)) (he : -1022 ≤ e)
    (hn1 : (n : ℚ) - 1 / 2 < x * (2 : ℚ) ^ (52 - e))
    (hn2 : x * (2 : ℚ) ^ (52 - e) < (n : ℚ) + 1 / 2)
    (hmax : (n : ℚ) * (2 : ℚ) ^ (e - 52) < (2 : ℚ) ^ (1024 : Nat)) :
    round_double x = double.finite ((n : ℚ) * (2 : ℚ) ^ (e - 52)) := by
  have hlog : Int.log 2 |x| = e := by
    rw [abs_of_pos hx]
    exact int_log_eq 2 (by norm_num) x hx e (by exact_mod_cast h1) (by exact_mod_cast h2)
  have hexp : double_exponent x = e := by
    simp only [double_exponent, hlog]
    exact max_eq_left he
  have hmag : round_magnitude x = (n : ℚ) * (2 : ℚ) ^ (e - 52) := by
    simp only [round_magnitude, hexp, abs_of_pos hx, round_half_even_eq _ n hn1 hn2]
  have c0 : ¬ x = 0 := ne_of_gt hx
  have c1 : ¬ (2 : ℚ) ^ (1024 : Nat) ≤ (n : ℚ) * (2 : ℚ) ^ (e - 52) := not_le.mpr hmax
  have c2 : ¬ x < 0 := not_lt.mpr (le_of_lt hx)
  unfold round_double
  rw [hmag, if_neg c0, if_neg c1, if_neg c2]

/-- The rounding to an integer is within 1/2. -/
theorem round_half_even_near (y : ℚ) : |((round_half_even y : Int) : ℚ) - y| ≤ 1 / 2 := by
  have hf1 := Int.floor_le y
  have hf2 := Int.lt_floor_add_one y
  unfold round_half_even
  rw [abs_le]
  split_ifs with c1 c2 c3
  · constructor <;> linarith
  · push_cast
    constructor <;> linarith
  · have c4 : y - ((⌊y⌋ : Int) : ℚ) = 1 / 2 := le_antisymm (not_lt.mp c2) (not_lt.mp c1)
    constructor <;> linarith
  · have c4 : y - ((⌊y⌋ : Int) : ℚ) = 1 / 2 := le_antisymm (not_lt.mp c2) (not_lt.mp c1)
    push_cast
    constructor <;> linarith

/-- Binary64 rounding of a value from 1 up to the overflow threshold
2^1024 - 2^970: the result is finite and within a relative 2^-53 of the
value. -/
theorem round_double_near (x : ℚ) (h1 : 1 ≤ x)
    (h2 : x < (2 : ℚ) ^ (1024 : Nat) - (2 : ℚ) ^ (970 : Nat)) :
    ∃ r : ℚ, round_double x = double.finite r ∧ |r - x| ≤ x / 2 ^ (53 : Nat) := by
  have hx : 0 < x := lt_of_lt_of_le zero_lt_one h1
  have habs : |x| = x := abs_of_pos hx
  have he_lo : (2 : ℚ) ^ (Int.log 2 x) ≤ x := by
    have h := @Int.zpow_log_le_self ℚ _ _ 2 x (by norm_num) hx
    simpa using h
  have he0 : (0 : Int) ≤ Int.log 2 x := by
    apply (Int.zpow_le_iff_le_log (by norm_num) hx).mp
    simpa using h1
  have he1 : Int.log 2 x < 1024 := by
    apply (Int.lt_zpow_iff_log_lt (by norm_num) hx).mp
    have e : (((2 : Nat) : ℚ)) ^ (1024 : Int) = (2 : ℚ) ^ (1024 : Nat) := by norm_num
    rw [e]
    have : (0 : ℚ) < (2 : ℚ) ^ (970 : Nat) := by positivity
    linarith
  have hexp : double_exponent x = Int.log 2 x := by
    simp only [double_exponent, habs]
    exact max_eq_left (by omega)
  have hP : 0 < (2 : ℚ) ^ (Int.log 2 x - 52) := by positivity
  have hPQ : (2 : ℚ) ^ (52 - Int.log 2 x) * (2 : ℚ) ^ (Int.log 2 x - 52) = 1 := by
    rw [← zpow_add₀ (by norm_num : (2 : ℚ) ≠ 0)]
    have e : 52 - Int.log 2 x + (Int.log 2 x - 52) = 0 := by ring
    rw [e, zpow_zero]
  have hE : (2 : ℚ) ^ (Int.log 2 x) = (2 : ℚ) ^ (Int.log 2 x - 52) * 2 ^ (52 : Nat) := by
    have e : Int.log 2 x = (Int.log 2 x - 52) + (52 : Int) := by ring
    conv_lhs => rw [e, zpow_add₀ (by norm_num : (2 : ℚ) ≠ 0)]
    norm_num
  have hn := round_half_even_near (x * (2 : ℚ) ^ (52 - Int.log 2 x))
  have hmag : round_magnitude x
      = ((round_half_even (x * (2 : ℚ) ^ (52 - Int.log 2 x)) : Int) : ℚ)
          * (2 : ℚ) ^ (Int.log 2 x - 52) := by
    simp only [round_magnitude, hexp, habs]
  have hdiff : round_magnitude x - x
      = (((round_half_even (x * (2 : ℚ) ^ (52 - Int.log 2 x)) : Int) : ℚ)
          - x * (2 : ℚ) ^ (52 - Int.log 2 x)) * (2 : ℚ) ^ (Int.log 2 x - 52) := by
    rw [hmag, sub_mul, mul_assoc, hPQ, mul_one]
  have hulp : |round_magnitude x - x| ≤ (1 / 2 : ℚ) * (2 : ℚ) ^ (Int.log 2 x - 52) := by
    rw [hdiff, abs_mul, abs_of_pos hP]
    exact mul_le_mul_of_nonneg_right hn (le_of_lt hP)
  have hhalf : (1 / 2 : ℚ) * (2 : ℚ) ^ (Int.log 2 x - 52) ≤ x / 2 ^ (53 : Nat) := by
    rw [le_div_iff₀ (by positivity)]
    rw [hE] at he_lo
    have e53 : (2 : ℚ) ^ (53 : Nat) = 2 * 2 ^ (52 : Nat) := by norm_num
    rw [e53]
    linarith
  have hnear : |round_magnitude x - x| ≤ x / 2 ^ (53 : Nat) := le_trans hulp hhalf
  have h970 : (1 / 2 : ℚ) * (2 : ℚ) ^ (Int.log 2 x - 52) ≤ (2 : ℚ) ^ (970 : Nat) := by
    have hpow : (2 : ℚ) ^ (Int.log 2 x - 52) ≤ (2 : ℚ) ^ (971 : Int) :=
      zpow_le_zpow_right₀ (by norm_num) (by omega)
    have e : (2 : ℚ) ^ (971 : Int) = 2 * (2 : ℚ) ^ (970 : Nat) := by
      have e1 : (971 : Int) = ((970 : Nat) : Int) + 1 := by norm_num
      rw [e1, zpow_add₀ (by norm_num : (2 : ℚ) ≠ 0), zpow_natCast]
      ring
    rw [e] at hpow
    linarith
  obtain ⟨hn1, hn2⟩ := abs_le.mp hulp
  have c0 : ¬ x = 0 := ne_of_gt hx
  have c1 : ¬ (2 : ℚ) ^ (1024 : Nat) ≤ round_magnitude x := by
    intro hc
    linarith
  have c2 : ¬ x < 0 := not_lt.mpr (le_of_lt hx)
  refine ⟨round_magnitude x, ?_, hnear⟩
  unfold round_double
  rw [if_neg c0, if_neg c1, if_neg c2]

/-- In binary64 the quotient `v / pow(10, n)` with 3 <= n <= 303, when its exact
value lies between 999999 and 10^7: both roundings together move it by less
than a relative 10^-10. -/
theorem binary64_quotient_accurate (L : double → double) (v : ℚ) (n : Int)
    (hn3 : 3 ≤ n) (hn : n ≤ 303)
    (hlo : (10 : ℚ) ^ n * 999999 ≤ v) (hhi : v < (10 : ℚ) ^ n * 10000000) :
    ∃ q : ℚ, (ieee_fp L).div (double.finite v) ((ieee_fp L).pow10 n) = double.finite q
      ∧ |q - v / (10 : ℚ) ^ n| ≤ v / (10 : ℚ) ^ n / 10000000000 := by
  have hT : 0 < (10 : ℚ) ^ n := by positivity
  have hT1 : (1 : ℚ) ≤ (10 : ℚ) ^ n := by
    have h := zpow_le_zpow_right₀ (by norm_num : (1 : ℚ) ≤ 10) (by omega : (0 : Int) ≤ n)
    simpa using h
  have hT2 : (10 : ℚ) ^ n < (2 : ℚ) ^ (1024 : Nat) - (2 : ℚ) ^ (970 : Nat) := by
    have h := zpow_le_zpow_right₀ (by norm_num : (1 : ℚ) ≤ 10) hn
    have e : (10 : ℚ) ^ (303 : Int) < (2 : ℚ) ^ (1024 : Nat) - (2 : ℚ) ^ (970 : Nat) := by
      norm_num
    exact lt_of_le_of_lt h e
  obtain ⟨p, hp, hpn⟩ := round_double_near ((10 : ℚ) ^ n) hT1 hT2
  obtain ⟨hp1, hp2⟩ := abs_le.mp hpn
  have hd : (10 : ℚ) ^ n / 2 ^ (53 : Nat) ≤ (10 : ℚ) ^ n / 1000000000000000 := by
    apply div_le_div_of_nonneg_left (le_of_lt hT) (by norm_num) (by norm_num)
  have hd2 : (10 : ℚ) ^ n / 1000000000000000 = (10 : ℚ) ^ n * (1 / 1000000000000000) := by
    ring
  have hp_lo : (10 : ℚ) ^ n * (1 - 1 / 1000000000000000) ≤ p := by linarith
  have hp_hi : p ≤ (10 : ℚ) ^ n * (1 + 1 / 1000000000000000) := by linarith
  have hp0 : 0 < p := lt_of_lt_of_le (by positivity) hp_lo
  have hpne : ¬ p = 0 := ne_of_gt hp0
  have hv : 0 < v := lt_of_lt_of_le (by positivity) hlo
  have hx0 : 0 < v / (10 : ℚ) ^ n := div_pos hv hT
  have hxlo : (999999 : ℚ) ≤ v / (10 : ℚ) ^ n := by
    rw [le_div_iff₀ hT]; linarith
  have hxhi : v / (10 : ℚ) ^ n < 10000000 := by
    rw [div_lt_iff₀ hT]; linarith
  have hx'0 : 0 < v / p := div_pos hv hp0
  have hrel : v / p * p = v / (10 : ℚ) ^ n * (10 : ℚ) ^ n := by
    rw [div_mul_cancel₀ v (ne_of_gt hp0), div_mul_cancel₀ v (ne_of_gt hT)]
  have hx'_hi : v / p ≤ v / (10 : ℚ) ^ n * (1 + 1 / 100000000000000) := by
    rw [div_le_iff₀ hp0]
    have h1 : v / (10 : ℚ) ^ n * (10 : ℚ) ^ n
        ≤ v / (10 : ℚ) ^ n * ((1 + 1 / 100000000000000) * p) := by
      apply mul_le_mul_of_nonneg_left _ (le_of_lt hx0)
      nlinarith
    have h2 : v = v / (10 : ℚ) ^ n * (10 : ℚ) ^ n := (div_mul_cancel₀ v (ne_of_gt hT)).symm
    linarith
  have hx'_lo : v / (10 : ℚ) ^ n * (1 - 1 / 100000000000000) ≤ v / p := by
    rw [le_div_iff₀ hp0]
    have h1 : v / (10 : ℚ) ^ n * ((1 - 1 / 100000000000000) * p)
        ≤ v / (10 : ℚ) ^ n * (10 : ℚ) ^ n := by
      apply mul_le_mul_of_nonneg_left _ (le_of_lt hx0)
      nlinarith
    have h2 : v = v / (10 : ℚ) ^ n * (10 : ℚ) ^ n := (div_mul_cancel₀ v (ne_of_gt hT)).symm
    linarith
  have hq1 : (1 : ℚ) ≤ v / p := by linarith
  have hq2 : v / p < (2 : ℚ) ^ (1024 : Nat) - (2 : ℚ) ^ (970 : Nat) := by
    have e : (20000000 : ℚ) < (2 : ℚ) ^ (1024 : Nat) - (2 : ℚ) ^ (970 : Nat) := by norm_num
    linarith
  obtain ⟨q, hq, hqn⟩ := round_double_near (v / p) hq1 hq2
  obtain ⟨hqa, hqb⟩ := abs_le.mp hqn
  have hd3 : v / p / 2 ^ (53 : Nat) ≤ v / p / 1000000000000000 := by
    apply div_le_div_of_nonneg_left (le_of_lt hx'0) (by norm_num) (by norm_num)
  refine ⟨q, ?_, ?_⟩
  · show ieee_div (double.finite v) (round_double ((10 : ℚ) ^ n)) = double.finite q
    rw [hp]
    simp only [ieee_div, if_neg hpne]
    exact hq
  · rw [abs_le]
    constructor <;> linarith

/-- In binary64 the quotient `v / pow(10, E - 6)` of the code is within a relative
10^-10 of its exact value, for every v below 2^1024 (the finite doubles) and
every `E > 8` with `10^E * (1 - 10^-10) <= v < 10^(E+1)`. -/
theorem binary64_quotient (L : double → double) (v : ℚ) (E : Int) (hE : 8 < E)
    (hmax : v < (2 : ℚ) ^ (1024 : Nat))
    (hlo : (10 : ℚ) ^ E * (1 - 1 / 10000000000) ≤ v) (hhi : v < (10 : ℚ) ^ (E + 1)) :
    ∃ q : ℚ, (ieee_fp L).div (double.finite v) ((ieee_fp L).pow10 (E - 6)) = double.finite q
      ∧ |q - v / (10 : ℚ) ^ (E - 6)| ≤ v / (10 : ℚ) ^ (E - 6) / 10000000000 := by
  have hE309 : E ≤ 309 := by
    by_contra hc
    have h310 : (310 : Int) ≤ E := by omega
    have hpow : (10 : ℚ) ^ (310 : Int) ≤ (10 : ℚ) ^ E :=
      zpow_le_zpow_right₀ (by norm_num) h310
    have e : (2 : ℚ) ^ (1024 : Nat) < (10 : ℚ) ^ (310 : Int) * (1 - 1 / 10000000000) := by
      norm_num
    nlinarith
  have hP : 0 < (10 : ℚ) ^ (E - 6) := by positivity
  have e6 : (10 : ℚ) ^ E = (10 : ℚ) ^ (E - 6) * 1000000 := by
    have e1 : E = (E - 6) + (6 : Int) := by ring
    conv_lhs => rw [e1, zpow_add₀ (by norm_num : (10 : ℚ) ≠ 0)]
    norm_num
  have e7 : (10 : ℚ) ^ (E + 1) = (10 : ℚ) ^ (E - 6) * 10000000 := by
    have e1 : E + 1 = (E - 6) + (7 : Int) := by ring
    rw [e1, zpow_add₀ (by norm_num : (10 : ℚ) ≠ 0)]
    norm_num
  rw [e6] at hlo
  rw [e7] at hhi
  exact binary64_quotient_accurate L v (E - 6) (by omega) (by omega) (by linarith) hhi

/-- Binary64 rounding of a value of 2^1024 or more overflows to plus infinity. -/
theorem round_double_overflow (x : ℚ) (h : (2 : ℚ) ^ (1024 : Nat) ≤ x) :
    round_double x = double.inf false := by
  have hx : 0 < x := lt_of_lt_of_le (by positivity) h
  have habs : |x| = x := abs_of_pos hx
  have he_lo : (2 : ℚ) ^ (Int.log 2 x) ≤ x := by
    have h := @Int.zpow_log_le_self ℚ _ _ 2 x (by norm_num) hx
    simpa using h
  have he : (1024 : Int) ≤ Int.log 2 x := by
    apply (Int.zpow_le_iff_le_log (by norm_num) hx).mp
    have e : (((2 : Nat) : ℚ)) ^ (1024 : Int) = (2 : ℚ) ^ (1024 : Nat) := by norm_num
    rw [e]
    exact h
  have hexp : double_exponent x = Int.log 2 x := by
    simp only [double_exponent, habs]
    exact max_eq_left (by omega)
  have hP : 0 < (2 : ℚ) ^ (Int.log 2 x - 52) := by positivity
  have hQ : 0 < (2 : ℚ) ^ (52 - Int.log 2 x) := by positivity
  have hPQ : (2 : ℚ) ^ (Int.log 2 x) * (2 : ℚ) ^ (52 - Int.log 2 x) = 2 ^ (52 : Nat) := by
    rw [← zpow_add₀ (by norm_num : (2 : ℚ) ≠ 0)]
    have e : Int.log 2 x + (52 - Int.log 2 x) = ((52 : Nat) : Int) := by norm_num
    rw [e, zpow_natCast]
  have hE : (2 : ℚ) ^ (Int.log 2 x) = 2 ^ (52 : Nat) * (2 : ℚ) ^ (Int.log 2 x - 52) := by
    have e : Int.log 2 x = ((52 : Nat) : Int) + (Int.log 2 x - 52) := by norm_num
    conv_lhs => rw [e, zpow_add₀ (by norm_num : (2 : ℚ) ≠ 0), zpow_natCast]
  have hy : (2 : ℚ) ^ (52 : Nat) ≤ x * (2 : ℚ) ^ (52 - Int.log 2 x) := by
    rw [← hPQ]
    exact mul_le_mul_of_nonneg_right he_lo (le_of_lt hQ)
  have hn := abs_le.mp (round_half_even_near (x * (2 : ℚ) ^ (52 - Int.log 2 x)))
  have hn52 : (4503599627370496 : Int)
      ≤ round_half_even (x * (2 : ℚ) ^ (52 - Int.log 2 x)) := by
    have h1 : ((4503599627370496 : Int) : ℚ) - 1
        < ((round_half_even (x * (2 : ℚ) ^ (52 - Int.log 2 x)) : Int) : ℚ) := by
      have e : (2 : ℚ) ^ (52 : Nat) = 4503599627370496 := by norm_num
      rw [e] at hy
      push_cast
      linarith [hn.1]
    have h2 : (4503599627370496 : Int) - 1
        < round_half_even (x * (2 : ℚ) ^ (52 - Int.log 2 x)) := by
      exact_mod_cast h1
    omega
  have hmag : (2 : ℚ) ^ (1024 : Nat) ≤ round_magnitude x := by
    simp only [round_magnitude, hexp, habs]
    have h1 : ((4503599627370496 : Int) : ℚ) * (2 : ℚ) ^ (Int.log 2 x - 52)
        ≤ ((round_half_even (x * (2 : ℚ) ^ (52 - Int.log 2 x)) : Int) : ℚ)
            * (2 : ℚ) ^ (Int.log 2 x - 52) :=
      mul_le_mul_of_nonneg_right (by exact_mod_cast hn52) (le_of_lt hP)
    have h2 : (2 : ℚ) ^ (1024 : Int) ≤ (2 : ℚ) ^ (Int.log 2 x) :=
      zpow_le_zpow_right₀ (by norm_num) he
    have e1 : (2 : ℚ) ^ (1024 : Int) = (2 : ℚ) ^ (1024 : Nat) := by
      have e : (1024 : Int) = ((1024 : Nat) : Int) := by norm_num
      rw [e, zpow_natCast]
    have e2 : ((4503599627370496 : Int) : ℚ) = 2 ^ (52 : Nat) := by norm_num
    rw [e1, hE] at h2
    rw [e2] at h1
    linarith
  have c0 : ¬ x = 0 := ne_of_gt hx
  have c2 : ¬ x < 0 := not_lt.mpr (le_of_lt hx)
  unfold round_double
  rw [if_neg c0, if_pos hmag]
  simp [c2]

/-- Binary64 rounding of a positive value below 2^-1075 underflows to 0. -/
theorem round_double_underflow (x : ℚ) (hx : 0 < x) (h : x < (2 : ℚ) ^ (-1075 : Int)) :
    round_double x = double.finite 0 := by
  have habs : |x| = x := abs_of_pos hx
  have he : Int.log 2 x < -1075 := by
    apply (Int.lt_zpow_iff_log_lt (by norm_num) hx).mp
    exact_mod_cast h
  have hexp : double_exponent x = -1022 := by
    simp only [double_exponent, habs]
    exact max_eq_right (by omega)
  have hy : x * (2 : ℚ) ^ ((52 : Int) - -1022) < 1 / 2 := by
    have hQ : 0 < (2 : ℚ) ^ ((52 : Int) - -1022) := by positivity
    have h1 : x * (2 : ℚ) ^ ((52 : Int) - -1022)
        < (2 : ℚ) ^ (-1075 : Int) * (2 : ℚ) ^ ((52 : Int) - -1022) :=
      mul_lt_mul_of_pos_right h hQ
    have e : (2 : ℚ) ^ (-1075 : Int) * (2 : ℚ) ^ ((52 : Int) - -1022) = 1 / 2 := by
      rw [← zpow_add₀ (by norm_num : (2 : ℚ) ≠ 0)]
      norm_num
    rw [e] at h1
    exact h1
  have hy0 : 0 < x * (2 : ℚ) ^ ((52 : Int) - -1022) := by positivity
  have hr : round_half_even (x * (2 : ℚ) ^ ((52 : Int) - -1022)) = 0 :=
    round_half_even_eq _ 0 (by push_cast; linarith) (by push_cast; linarith)
  have hmag : round_magnitude x = 0 := by
    simp only [round_magnitude, hexp, habs, hr]
    simp
  have c0 : ¬ x = 0 := ne_of_gt hx
  have c1 : ¬ (2 : ℚ) ^ (1024 : Nat) ≤ (0 : ℚ) := not_le.mpr (by positivity)
  have c2 : ¬ x < 0 := not_lt.mpr (le_of_lt hx)
  unfold round_double
  rw [hmag, if_neg c0, if_neg c1, if_neg c2]

/-- In binary64 `pow(10, 9)` is 10^9. -/
theorem host_pow10_9 : host_fp.pow10 9 = double.finite 1000000000 := by
  have h := round_double_eq ((10 : ℚ) ^ (9 : Int)) 29 8388608000000000 (by norm_num)
    (by norm_num) (by norm_num) (by norm_num) (by norm_num) (by norm_num) (by norm_num)
  have e : ((8388608000000000 : Int) : ℚ) * (2 : ℚ) ^ ((29 : Int) - 52) = 1000000000 := by
    norm_num
  rw [e] at h
  exact h

/-- In binary64 `pow(10, 3)` is 1000. -/
theorem host_pow10_3 : host_fp.pow10 3 = double.finite 1000 := by
  have h := round_double_eq ((10 : ℚ) ^ (3 : Int)) 9 8796093022208000 (by norm_num)
    (by norm_num) (by norm_num) (by norm_num) (by norm_num) (by norm_num) (by norm_num)
  have e : ((8796093022208000 : Int) : ℚ) * (2 : ℚ) ^ ((9 : Int) - 52) = 1000 := by
    norm_num
  rw [e] at h
  exact h

/-- In binary64 the quotient of two finite values is the rounded quotient. -/
theorem host_div_finite (a b : ℚ) (hb : ¬ b = 0) :
    host_fp.div (double.finite a) (double.finite b) = round_double (a / b) := by
  show ieee_div (double.finite a) (double.finite b) = round_double (a / b)
  simp only [ieee_div, if_neg hb]

/-- In binary64 the product of two finite values is the rounded product. -/
theorem host_mul_finite (a b : ℚ) :
    host_fp.mul (double.finite a) (double.finite b) = round_double (a * b) := rfl

/-- The decoder on a given mantissa and exponent. -/
theorem freq2float_eq (fp : fp_ops) (m e : Int) :
    wapi_freq2float fp { m := m, e := e }
      = fp.mul (double.finite ((m : Int) : ℚ)) (fp.pow10 e) :=
  rfl

/-- In binary64 `pow(10, -1)` is the double 3602879701896397 / 2^55, above 1/10. -/
theorem host_pow10_neg1 :
    host_fp.pow10 (-1) = double.finite (3602879701896397 / 36028797018963968) := by
  have h := round_double_eq ((10 : ℚ) ^ (-1 : Int)) (-4) 7205759403792794 (by norm_num)
    (by norm_num) (by norm_num) (by norm_num) (by norm_num) (by norm_num) (by norm_num)
  have e : ((7205759403792794 : Int) : ℚ) * (2 : ℚ) ^ ((-4 : Int) - 52)
      = 3602879701896397 / 36028797018963968 := by
    norm_num
  rw [e] at h
  exact h

/-- In binary64 the frequency (1, -1) is decoded as the double nearest to 1/10,
which is not 1/10. -/
theorem host_freq2float_tenth :
    wapi_freq2float host_fp { m := 1, e := -1 }
      = double.finite (3602879701896397 / 36028797018963968) := by
  have h := round_double_eq
    ((1 : ℚ) * (3602879701896397 / 36028797018963968)) (-4) 7205759403792794
    (by norm_num) (by norm_num) (by norm_num) (by norm_num) (by norm_num) (by norm_num)
    (by norm_num)
  have e : ((7205759403792794 : Int) : ℚ) * (2 : ℚ) ^ ((-4 : Int) - 52)
      = 3602879701896397 / 36028797018963968 := by
    norm_num
  rw [e] at h
  have c : ((1 : Int) : ℚ) = 1 := by norm_num
  rw [freq2float_eq, host_pow10_neg1, host_mul_finite, c]
  exact h

/-- In binary64 `pow(10, 6)` is 10^6. -/
theorem host_pow10_6 : host_fp.pow10 6 = double.finite 1000000 := by
  have h := round_double_eq ((10 : ℚ) ^ (6 : Int)) 19 8589934592000000 (by norm_num)
    (by norm_num) (by norm_num) (by norm_num) (by norm_num) (by norm_num) (by norm_num)
  have e : ((8589934592000000 : Int) : ℚ) * (2 : ℚ) ^ ((19 : Int) - 52) = 1000000 := by
    norm_num
  rw [e] at h
  exact h

/-- In binary64 the frequency (2412, 6) is decoded as 2412000000. -/
theorem host_freq2float_channel_1 :
    wapi_freq2float host_fp { m := 2412, e := 6 } = double.finite 2412000000 := by
  have h := round_double_eq ((2412 : ℚ) * 1000000) 31 5058330624000000
    (by norm_num) (by norm_num) (by norm_num) (by norm_num) (by norm_num) (by norm_num)
    (by norm_num)
  have e : ((5058330624000000 : Int) : ℚ) * (2 : ℚ) ^ ((31 : Int) - 52) = 2412000000 := by
    norm_num
  rw [e] at h
  have c : ((2412 : Int) : ℚ) = 2412 := by norm_num
  rw [freq2float_eq, host_pow10_6, host_mul_finite, c]
  exact h

/-- In binary64 the frequency (1, 400), which fits the fields of `struct iw_freq`,
is decoded as plus infinity: `pow(10, 400)` overflows. -/
theorem host_freq2float_overflow :
    wapi_freq2float host_fp { m := 1, e := 400 } = double.inf false := by
  have hp : host_fp.pow10 400 = double.inf false :=
    round_double_overflow _ (by norm_num)
  have c : ((1 : Int) : ℚ) = 1 := by norm_num
  rw [freq2float_eq, hp, c]
  show ieee_mul (double.finite 1) (double.inf false) = double.inf false
  simp [ieee_mul]

/-- In binary64 the frequency (1, -400) is decoded as 0: `pow(10, -400)`
underflows. -/
theorem host_freq2float_underflow :
    wapi_freq2float host_fp { m := 1, e := -400 } = double.finite 0 := by
  have hp : host_fp.pow10 (-400) = double.finite 0 :=
    round_double_underflow _ (by positivity) (by
      rw [zpow_neg, zpow_neg]
      apply inv_strictAnti₀ (by positivity)
      norm_num)
  have c : ((1 : Int) : ℚ) = 1 := by norm_num
  rw [freq2float_eq, hp, c, host_mul_finite]
  show round_double (1 * 0) = double.finite 0
  simp [round_double]

/-! ## Aggregation: the code against the specification -/

theorem new_cell_eq_spec (MAX : Nat) (event : iw_event) :
    new_cell MAX event = spec_new_record MAX event := rfl

theorem parse_mode_accept (v old : Int) (h0 : 0 ≤ v) (h6 : v ≤ 6) :
    wapi_parse_mode v old = (0, v) := by
  have h : v = WAPI_MODE_AUTO ∨ v = WAPI_MODE_ADHOC ∨ v = WAPI_MODE_MANAGED
      ∨ v = WAPI_MODE_MASTER ∨ v = WAPI_MODE_REPEAT
      ∨ v = WAPI_MODE_SECOND ∨ v = WAPI_MODE_MONITOR := by
    simp only [WAPI_MODE_AUTO, WAPI_MODE_ADHOC, WAPI_MODE_MANAGED, WAPI_MODE_MASTER,
      WAPI_MODE_REPEAT, WAPI_MODE_SECOND, WAPI_MODE_MONITOR]
    omega
  simp only [wapi_parse_mode, if_pos h]

theorem parse_mode_reject (v old : Int) (h : v < 0 ∨ 6 < v) :
    wapi_parse_mode v old = (-1, old) := by
  have hn : ¬ (v = WAPI_MODE_AUTO ∨ v = WAPI_MODE_ADHOC ∨ v = WAPI_MODE_MANAGED
      ∨ v = WAPI_MODE_MASTER ∨ v = WAPI_MODE_REPEAT
      ∨ v = WAPI_MODE_SECOND ∨ v = WAPI_MODE_MONITOR) := by
    simp only [WAPI_MODE_AUTO, WAPI_MODE_ADHOC, WAPI_MODE_MANAGED, WAPI_MODE_MASTER,
      WAPI_MODE_REPEAT, WAPI_MODE_SECOND, WAPI_MODE_MONITOR]
    omega
  simp only [wapi_parse_mode, if_neg hn]

theorem memcpy_cleared (MAX n : Nat) (bytes : List Nat) (hn : n ≤ MAX) (hb : n ≤ bytes.length) :
    memcpy (List.replicate (MAX + 1) 0) bytes n
      = some (bytes.take n ++ List.replicate (MAX + 1 - n) 0) := by
  have h : n ≤ (List.replicate (MAX + 1) 0).length ∧ n ≤ bytes.length := by
    constructor
    · simp only [List.length_replicate]; omega
    · exact hb
  simp only [memcpy, if_pos h, List.drop_replicate]

/-- On a list with a current record, a valid event that is not an address event
returns 0 and sets in the head exactly what the specification says. -/
theorem scan_event_eq_spec_apply (fp : fp_ops) (MAX : Nat) (b : Bool) (event : iw_event)
    (cur : wapi_scan_info_t) (done : wapi_list_t)
    (hc : event.cmd ≠ iw_cmd.SIOCGIWAP) (hv : valid_event MAX event) :
    wapi_scan_event fp MAX b event (cur :: done)
      = Exec.val (0, spec_apply fp MAX cur event :: done) := by
  cases hcmd : event.cmd with
  | SIOCGIWAP => exact absurd hcmd hc
  | SIOCGIWFREQ => simp only [wapi_scan_event, spec_apply, hcmd, wapi_freq2float]
  | SIOCGIWMODE =>
    simp only [valid_event, hcmd] at hv
    simp only [wapi_scan_event, spec_apply, hcmd, parse_mode_accept _ _ hv.1 hv.2]
    simp
  | SIOCGIWESSID =>
    simp only [valid_event, hcmd] at hv
    simp only [wapi_scan_event, spec_apply, hcmd, iwreq_data.data, spec_name]
    cases hp : event.u.essid.pointer with
    | none =>
      by_cases hf : event.u.essid.flags = 0 <;> simp [hf]
    | some bytes =>
      simp only [hp] at hv
      by_cases hl : event.u.essid.length = 0
      · by_cases hf : event.u.essid.flags = 0 <;> simp [hf, hl]
      · have hmin : min event.u.essid.length MAX = event.u.essid.length := min_eq_left hv.1
        by_cases hf : event.u.essid.flags = 0 <;>
          simp [hf, hl, hmin, memcpy_cleared MAX _ bytes hv.1 hv.2]
  | SIOCGIWRATE =>
    simp only [wapi_scan_event, spec_apply, hcmd]
    cases hb : cur.has_bitrate with
    | false => simp
    | true =>
      by_cases hgt : event.u.bitrate.value > cur.bitrate
      · have hmax : max cur.bitrate event.u.bitrate.value = event.u.bitrate.value :=
          max_eq_right (le_of_lt hgt)
        simp [hgt, hmax]
      · have hmax : max cur.bitrate event.u.bitrate.value = cur.bitrate :=
          max_eq_left (not_lt.mp hgt)
        cases cur
        simp_all
  | other code => simp only [wapi_scan_event, spec_apply, hcmd]

theorem scan_event_ap (fp : fp_ops) (MAX : Nat) (event : iw_event) (list : wapi_list_t)
    (hc : event.cmd = iw_cmd.SIOCGIWAP) :
    wapi_scan_event fp MAX true event list = Exec.val (0, new_cell MAX event :: list) := by
  simp only [wapi_scan_event, hc, if_true]

theorem spec_run_cons_ap (event : iw_event) (rest : List iw_event)
    (hc : event.cmd = iw_cmd.SIOCGIWAP) : spec_run (event :: rest) = [] := by
  simp [spec_run, hc]

theorem spec_run_cons_other (event : iw_event) (rest : List iw_event)
    (hc : event.cmd ≠ iw_cmd.SIOCGIWAP) : spec_run (event :: rest) = event :: spec_run rest := by
  simp [spec_run, hc]

/-- The fold of `wapi_scan_event` from a list with a current record: the records
of the completed runs are pushed in front, and the current record receives the
events up to the next address event. -/
theorem scan_events_from_current (fp : fp_ops) (MAX : Nat) (malloc : Nat → Bool) :
    ∀ (events : List iw_event) (i : Nat) (cur : wapi_scan_info_t) (done : wapi_list_t),
      (∀ event ∈ events, valid_event MAX event) →
      (∀ j, i ≤ j → j < i + events.length → malloc j = true) →
      scan_events fp MAX malloc events i (cur :: done)
        = Exec.val (List.replicate events.length 0,
            (spec_records fp MAX events).reverse
              ++ ((spec_run events).foldl (spec_apply fp MAX) cur :: done)) := by
  intro events
  induction events with
  | nil =>
    intro i cur done _ _
    simp [scan_events, spec_records, spec_run]
  | cons event rest ih =>
    intro i cur done hv ha
    have hv_rest : ∀ e ∈ rest, valid_event MAX e :=
      fun e he => hv e (List.mem_cons_of_mem _ he)
    have ha_rest : ∀ j, i + 1 ≤ j → j < i + 1 + rest.length → malloc j = true := by
      intro j h1 h2
      apply ha j (by omega)
      simp only [List.length_cons]
      omega
    have hi : malloc i = true := by
      apply ha i (le_refl i)
      simp only [List.length_cons]
      omega
    by_cases hc : event.cmd = iw_cmd.SIOCGIWAP
    · simp only [scan_events, hi, scan_event_ap fp MAX event _ hc]
      rw [ih (i + 1) (new_cell MAX event) (cur :: done) hv_rest ha_rest]
      simp only [spec_records, hc, if_true, spec_run_cons_ap event rest hc, List.foldl_nil,
        List.length_cons, List.replicate_succ, new_cell_eq_spec, List.reverse_cons,
        List.append_assoc, List.singleton_append]
    · simp only [scan_events,
        scan_event_eq_spec_apply fp MAX _ event cur done hc (hv event (List.mem_cons_self _ _)),
        ih (i + 1) (spec_apply fp MAX cur event) done hv_rest ha_rest,
        spec_records, hc, if_false, spec_run_cons_other event rest hc, List.foldl_cons,
        List.length_cons, List.replicate_succ]

theorem spec_apply_ap (fp : fp_ops) (MAX : Nat) (r : wapi_scan_info_t) (event : iw_event) :
    (spec_apply fp MAX r event).ap = r.ap := by
  unfold spec_apply
  split <;> rfl

theorem spec_foldl_ap (fp : fp_ops) (MAX : Nat) (events : List iw_event) :
    ∀ r : wapi_scan_info_t, (events.foldl (spec_apply fp MAX) r).ap = r.ap := by
  induction events with
  | nil => intro r; rfl
  | cons event rest ih =>
    intro r
    simp only [List.foldl_cons, ih, spec_apply_ap]

theorem spec_records_ap (fp : fp_ops) (MAX : Nat) (events : List iw_event) :
    (spec_records fp MAX events).map (fun r => r.ap)
      = (events.filter (fun event => decide (event.cmd = iw_cmd.SIOCGIWAP))).map
          (fun event => event.u.ap_addr.take ETHER_ADDR_LEN) := by
  induction events with
  | nil => rfl
  | cons event rest ih =>
    by_cases hc : event.cmd = iw_cmd.SIOCGIWAP
    · simp [spec_records, hc, ih, spec_foldl_ap, spec_new_record]
    · simp [spec_records, hc, ih]

/-- An address event and a frequency event, folded from the empty list: one
record with the address and the decoded frequency. -/
theorem scan_events_ap_freq (fp : fp_ops) (MAX : Nat) (a : List Nat) (m e : Int) :
    scan_events fp MAX (fun _ => true) [ev_ap a, ev_freq m e] 0 []
      = Exec.val ([0, 0],
          [{ new_cell MAX (ev_ap a) with
              has_freq := true, freq := wapi_freq2float fp { m := m, e := e } }]) := by
  simp [scan_events, wapi_scan_event, ev_ap, ev_freq, zero_data, wapi_freq2float, new_cell]

/-- C1, as stated, fails, in three ways.  The single valid address event, when the
`malloc` of the new record returns `NULL`, makes `wapi_scan_event` return -1
and leave the list empty.  An address event followed by a network-name event
of 40 bytes, with the maximum name length 32, has no defined result: the copy
leaves the field of 33 bytes.  And the frequency stored for the event (1, -1)
is the double nearest to 1/10, which is not 1 * 10^-1. -/
theorem aggregation_counterexample :
    ((ev_ap [1, 2, 3, 4, 5, 6]).cmd = iw_cmd.SIOCGIWAP
      ∧ valid_event 32 (ev_ap [1, 2, 3, 4, 5, 6])
      ∧ scan_events host_fp 32 (fun _ => false) [ev_ap [1, 2, 3, 4, 5, 6]] 0 []
        = Exec.val ([-1], []))
    ∧ scan_events host_fp 32 (fun _ => true)
        [ev_ap [1, 2, 3, 4, 5, 6], ev_essid (List.replicate 40 65) 40 1] 0 [] = Exec.undefined
    ∧ (scan_events host_fp 32 (fun _ => true) [ev_ap [1, 2, 3, 4, 5, 6], ev_freq 1 (-1)] 0 []
        = Exec.val ([0, 0],
            [{ new_cell 32 (ev_ap [1, 2, 3, 4, 5, 6]) with
                has_freq := true
                freq := double.finite (3602879701896397 / 36028797018963968) }])
      ∧ (3602879701896397 / 36028797018963968 : ℚ) ≠ 1 * (10 : ℚ) ^ (-1 : Int)) := by
  refine ⟨⟨rfl, by simp [valid_event, ev_ap], rfl⟩, ?_, ?_, by norm_num⟩
  · simp [scan_events, wapi_scan_event, ev_ap, ev_essid, zero_data, memcpy, iwreq_data.data]
  · rw [scan_events_ap_freq, host_freq2float_tenth]

/-- C1, amended (aggregation boundary rule).  For every event sequence that
begins with an access-point-address event and contains only valid events (a
mode event carries a mode in 0..6; a network-name event carries at most
`WAPI_ESSID_MAX_SIZE` name bytes, all of them readable), and provided the
allocation of each new record succeeds, calling `wapi_scan_event` on the
events in order from the empty list returns 0 on every event and leaves
exactly the list that the specification describes: one record per address
event in head-insertion (reverse discovery) order, each started with its
address and all presence flags clear and holding the fields set by the events
up to the next address event.  A frequency is stored as the double that
`wapi_freq2float` computes, `(double)m * pow(10, e)`.  The addresses of the
result are the addresses of the address events in reverse order.  In
particular [AP(a1), Freq(m, e), AP(a2), Mode(m2)] gives [record(a2) with mode
m2 and no frequency, record(a1) with that double as frequency and no mode]. -/
theorem scan_events_eq_spec_aggregate (fp : fp_ops) (MAX : Nat) (malloc : Nat → Bool)
    (first : iw_event) (rest : List iw_event)
    (h_first : first.cmd = iw_cmd.SIOCGIWAP)
    (h_valid : ∀ event ∈ first :: rest, valid_event MAX event)
    (h_alloc : ∀ i, i < (first :: rest).length → malloc i = true) :
    scan_events fp MAX malloc (first :: rest) 0 []
        = Exec.val (List.replicate (first :: rest).length 0,
            spec_aggregate fp MAX (first :: rest))
      ∧ (spec_aggregate fp MAX (first :: rest)).map (fun r => r.ap)
        = (((first :: rest).filter (fun event => decide (event.cmd = iw_cmd.SIOCGIWAP))).map
            (fun event => event.u.ap_addr.take ETHER_ADDR_LEN)).reverse
      ∧ (∀ (a1 a2 : List Nat) (m e m2 : Int), 0 ≤ m2 → m2 ≤ 6 →
          scan_events fp MAX (fun _ => true) [ev_ap a1, ev_freq m e, ev_ap a2, ev_mode m2] 0 []
            = Exec.val ([0, 0, 0, 0],
                [{ new_cell MAX (ev_ap a2) with has_mode := true, mode := m2 },
                 { new_cell MAX (ev_ap a1) with
                    has_freq := true, freq := wapi_freq2float fp { m := m, e := e } }])) := by
  refine ⟨?_, ?_, ?_⟩
  · have h0 : malloc 0 = true := h_alloc 0 (by simp)
    have hv_rest : ∀ e ∈ rest, valid_event MAX e :=
      fun e he => h_valid e (List.mem_cons_of_mem _ he)
    have ha_rest : ∀ j, 0 + 1 ≤ j → j < 0 + 1 + rest.length → malloc j = true := by
      intro j _ h2
      apply h_alloc j
      simp only [List.length_cons]
      omega
    simp only [scan_events, h0, scan_event_ap fp MAX first _ h_first]
    rw [scan_events_from_current fp MAX malloc rest (0 + 1) (new_cell MAX first) [] hv_rest ha_rest]
    simp only [spec_aggregate, spec_records, h_first, if_true, List.reverse_cons,
      new_cell_eq_spec, List.length_cons, List.replicate_succ]
  · simp only [spec_aggregate, List.map_reverse, spec_records_ap]
  · intro a1 a2 m e m2 h0 h6
    have hm : ∀ old : Int, wapi_parse_mode m2 old = (0, m2) :=
      fun old => parse_mode_accept m2 old h0 h6
    simp [scan_events, wapi_scan_event, ev_ap, ev_freq, ev_mode, zero_data, wapi_freq2float,
      hm, new_cell]

/-- Witness of the amended C1: the theorem applied to [AP, Freq, AP, Mode] with
the usual maximum name length 32, in binary64, where the frequency (2412, 6)
is stored as 2412000000. -/
theorem scan_events_eq_spec_aggregate_witness :
    (ev_ap [1, 2, 3, 4, 5, 6]).cmd = iw_cmd.SIOCGIWAP
      ∧ scan_events host_fp 32 (fun _ => true)
          [ev_ap [1, 2, 3, 4, 5, 6], ev_freq 2412 6, ev_ap [6, 5, 4, 3, 2, 1], ev_mode 2] 0 []
        = Exec.val (List.replicate 4 0,
            spec_aggregate host_fp 32
              [ev_ap [1, 2, 3, 4, 5, 6], ev_freq 2412 6, ev_ap [6, 5, 4, 3, 2, 1], ev_mode 2])
      ∧ scan_events host_fp 32 (fun _ => true)
          [ev_ap [1, 2, 3, 4, 5, 6], ev_freq 2412 6, ev_ap [6, 5, 4, 3, 2, 1], ev_mode 2] 0 []
        = Exec.val ([0, 0, 0, 0],
            [{ new_cell 32 (ev_ap [6, 5, 4, 3, 2, 1]) with has_mode := true, mode := 2 },
             { new_cell 32 (ev_ap [1, 2, 3, 4, 5, 6]) with
                has_freq := true, freq := double.finite 2412000000 }]) :=
  have h := scan_events_eq_spec_aggregate host_fp 32 (fun _ => true) (ev_ap [1, 2, 3, 4, 5, 6])
    [ev_freq 2412 6, ev_ap [6, 5, 4, 3, 2, 1], ev_mode 2] rfl
    (by
      intro event he
      simp only [List.mem_cons, List.mem_singleton, List.not_mem_nil, or_false] at he
      rcases he with h | h | h | h <;> subst h <;>
        simp [valid_event, ev_ap, ev_freq, ev_mode, zero_data])
    (fun _ _ => rfl)
  ⟨rfl, h.1, by
    rw [h.2.2 [1, 2, 3, 4, 5, 6] [6, 5, 4, 3, 2, 1] 2412 6 2 (by decide) (by decide),
      host_freq2float_channel_1]⟩

/-! ## Bitrate reduction -/

theorem foldl_max_spec : ∀ (l : List Int) (b : Int),
    b ≤ l.foldl max b ∧ (∀ x ∈ l, x ≤ l.foldl max b) ∧ l.foldl max b ∈ b :: l := by
  intro l
  induction l with
  | nil => intro b; simp
  | cons x xs ih =>
    intro b
    obtain ⟨h1, h2, h3⟩ := ih (max b x)
    refine ⟨le_trans (le_max_left b x) h1, ?_, ?_⟩
    · intro y hy
      rcases List.mem_cons.mp hy with h | h
      · subst h
        exact le_trans (le_max_right b y) h1
      · exact h2 y h
    · simp only [List.foldl_cons]
      rcases List.mem_cons.mp h3 with h | h
      · rw [h]
        rcases max_choice b x with hm | hm
        · rw [hm]; exact List.mem_cons_self _ _
        · rw [hm]; exact List.mem_cons_of_mem _ (List.mem_cons_self _ _)
      · exact List.mem_cons_of_mem _ (List.mem_cons_of_mem _ h)

theorem scan_event_rate_present (fp : fp_ops) (MAX : Nat) (b : Bool) (event : iw_event)
    (cur : wapi_scan_info_t) (rest : wapi_list_t)
    (hc : event.cmd = iw_cmd.SIOCGIWRATE) (hp : cur.has_bitrate = true) :
    wapi_scan_event fp MAX b event (cur :: rest)
      = Exec.val (0, { cur with bitrate := max cur.bitrate event.u.bitrate.value } :: rest) := by
  simp only [wapi_scan_event, hc]
  by_cases hgt : event.u.bitrate.value > cur.bitrate
  · have hmax : max cur.bitrate event.u.bitrate.value = event.u.bitrate.value :=
      max_eq_right (le_of_lt hgt)
    cases cur
    simp_all
  · have hmax : max cur.bitrate event.u.bitrate.value = cur.bitrate :=
      max_eq_left (not_lt.mp hgt)
    cases cur
    simp_all

theorem scan_events_rates (fp : fp_ops) (MAX : Nat) (malloc : Nat → Bool) :
    ∀ (events : List iw_event) (i : Nat) (cur : wapi_scan_info_t) (rest : wapi_list_t),
      (∀ event ∈ events, event.cmd = iw_cmd.SIOCGIWRATE) → cur.has_bitrate = true →
      scan_events fp MAX malloc events i (cur :: rest)
        = Exec.val (List.replicate events.length 0,
            { cur with
              bitrate := (events.map (fun event => event.u.bitrate.value)).foldl max cur.bitrate }
              :: rest) := by
  intro events
  induction events with
  | nil => intro i cur rest _ _; simp [scan_events]
  | cons event more ih =>
    intro i cur rest hc hp
    have h1 := scan_event_rate_present fp MAX (malloc i) event cur rest
      (hc event (List.mem_cons_self _ _)) hp
    simp only [scan_events, h1]
    rw [ih (i + 1) { cur with bitrate := max cur.bitrate event.u.bitrate.value } rest
      (fun e he => hc e (List.mem_cons_of_mem _ he)) hp]
    simp [List.replicate_succ]

/-- C2 (bitrate reduction).  For every non-empty run of bitrate events applied
by `wapi_scan_event` to a record just created by an address event (whatever
the rest of the list), every call returns 0 and the record ends with its
bitrate marked present and equal to the maximum of the values of the run: it
is one of the values and no value of the run exceeds it, whatever their order
and sign.  Nothing else of the record changes.  In particular
[AP(a1), Rate(10), Rate(30), Rate(20)] gives bitrate 30. -/
theorem bitrate_reduction (fp : fp_ops) (MAX : Nat) (malloc : Nat → Bool) (i : Nat) (ap : iw_event)
    (rest : wapi_list_t) (first : iw_event) (more : List iw_event)
    (h_rate : ∀ event ∈ first :: more, event.cmd = iw_cmd.SIOCGIWRATE) :
    ∃ best : Int,
      scan_events fp MAX malloc (first :: more) i (new_cell MAX ap :: rest)
          = Exec.val (List.replicate (first :: more).length 0,
              { new_cell MAX ap with has_bitrate := true, bitrate := best } :: rest)
        ∧ best ∈ (first :: more).map (fun event => event.u.bitrate.value)
        ∧ (∀ v ∈ (first :: more).map (fun event => event.u.bitrate.value), v ≤ best)
        ∧ (∀ a1 : List Nat,
            scan_events fp MAX (fun _ => true) [ev_ap a1, ev_rate 10, ev_rate 30, ev_rate 20] 0 []
              = Exec.val ([0, 0, 0, 0],
                  [{ new_cell MAX (ev_ap a1) with has_bitrate := true, bitrate := 30 }])) := by
  have hf : first.cmd = iw_cmd.SIOCGIWRATE := h_rate first (List.mem_cons_self _ _)
  have hm : ∀ e ∈ more, e.cmd = iw_cmd.SIOCGIWRATE :=
    fun e he => h_rate e (List.mem_cons_of_mem _ he)
  obtain ⟨_, h2, h3⟩ :=
    foldl_max_spec (more.map (fun event => event.u.bitrate.value)) first.u.bitrate.value
  refine ⟨(more.map (fun event => event.u.bitrate.value)).foldl max first.u.bitrate.value,
    ?_, ?_, ?_, ?_⟩
  · have h1 : wapi_scan_event fp MAX (malloc i) first (new_cell MAX ap :: rest)
        = Exec.val (0, { new_cell MAX ap with
            has_bitrate := true, bitrate := first.u.bitrate.value } :: rest) := by
      simp [wapi_scan_event, hf, new_cell]
    simp only [scan_events, h1]
    rw [scan_events_rates fp MAX malloc more (i + 1)
      { new_cell MAX ap with has_bitrate := true, bitrate := first.u.bitrate.value } rest hm rfl]
    simp [List.replicate_succ]
  · simpa only [List.map_cons] using h3
  · intro v hv
    simp only [List.map_cons, List.mem_cons] at hv
    rcases hv with h | h
    · rw [h]
      exact (foldl_max_spec (more.map (fun event => event.u.bitrate.value))
        first.u.bitrate.value).1
    · exact h2 v h
  · intro a1
    simp [scan_events, wapi_scan_event, ev_ap, ev_rate, zero_data, new_cell]

/-- Witness of C2: the theorem applied to the run Rate(10), Rate(30), Rate(20). -/
theorem bitrate_reduction_witness :
    ∃ best : Int,
      scan_events host_fp 32 (fun _ => true) [ev_rate 10, ev_rate 30, ev_rate 20] 1
          [new_cell 32 (ev_ap [1, 2, 3, 4, 5, 6])]
        = Exec.val ([0, 0, 0],
            [{ new_cell 32 (ev_ap [1, 2, 3, 4, 5, 6]) with has_bitrate := true, bitrate := best }])
      ∧ best ∈ [10, 30, 20] ∧ ∀ v ∈ [(10 : Int), 30, 20], v ≤ best := by
  obtain ⟨best, h1, h2, h3, _⟩ :=
    bitrate_reduction host_fp 32 (fun _ => true) 1 (ev_ap [1, 2, 3, 4, 5, 6]) [] (ev_rate 10)
      [ev_rate 30, ev_rate 20]
      (by
        intro event he
        simp only [List.mem_cons, List.mem_singleton, List.not_mem_nil, or_false] at he
        rcases he with h | h | h <;> subst h <;> rfl)
  exact ⟨best, h1, h2, h3⟩

/-! ## Mode validation and the decoding loop -/

theorem scan_event_mode_accept (fp : fp_ops) (MAX : Nat) (b : Bool) (event : iw_event)
    (info : wapi_scan_info_t) (next : wapi_list_t)
    (hc : event.cmd = iw_cmd.SIOCGIWMODE) (h0 : 0 ≤ event.u.mode) (h6 : event.u.mode ≤ 6) :
    wapi_scan_event fp MAX b event (info :: next)
      = Exec.val (0, { info with mode := event.u.mode, has_mode := true } :: next) := by
  simp only [wapi_scan_event, hc, parse_mode_accept _ _ h0 h6]
  simp

theorem scan_event_mode_reject (fp : fp_ops) (MAX : Nat) (b : Bool) (event : iw_event) (list : wapi_list_t)
    (hc : event.cmd = iw_cmd.SIOCGIWMODE) (h : event.u.mode < 0 ∨ 6 < event.u.mode) :
    wapi_scan_event fp MAX b event list = Exec.val (-1, list) := by
  cases list with
  | nil =>
    simp only [wapi_scan_event, hc, parse_mode_reject _ _ h]
    simp
  | cons info next =>
    simp only [wapi_scan_event, hc, parse_mode_reject _ _ h]
    simp

/-- A turn of the loop whose extraction fails: the list is not touched and the
loop ends with the negative value of the extraction. -/
theorem scan_loop_pop_fails (env : scan_env) (buf : List Nat) (v : Int) (fuel : Nat)
    (s : coll_state) (h : (iw_event_stream_pop env buf s.stream s.iwe v).1 < 0) :
    scan_loop env buf v (fuel + 1) s
      = Exec.val { s with
          stream := (iw_event_stream_pop env buf s.stream s.iwe v).2.1
          iwe := (iw_event_stream_pop env buf s.stream s.iwe v).2.2
          ret := (iw_event_stream_pop env buf s.stream s.iwe v).1 } := by
  have hn : ¬ (iw_event_stream_pop env buf s.stream s.iwe v).1 ≥ 0 := not_le.mpr h
  have hn2 : ¬ (iw_event_stream_pop env buf s.stream s.iwe v).1 > 0 := by omega
  simp only [scan_loop, scan_body, if_neg hn, if_neg hn2]

/-- A turn of the loop that extracts a mode event with a value outside 0..6: the
list is not touched, and the loop ends at once with -1. -/
theorem scan_loop_mode_reject (env : scan_env) (buf : List Nat) (v : Int) (fuel : Nat)
    (s : coll_state) (h : (iw_event_stream_pop env buf s.stream s.iwe v).1 ≥ 0)
    (hc : (iw_event_stream_pop env buf s.stream s.iwe v).2.2.cmd = iw_cmd.SIOCGIWMODE)
    (hm : (iw_event_stream_pop env buf s.stream s.iwe v).2.2.u.mode < 0
      ∨ 6 < (iw_event_stream_pop env buf s.stream s.iwe v).2.2.u.mode) :
    scan_loop env buf v (fuel + 1) s
      = Exec.val
          { stream := (iw_event_stream_pop env buf s.stream s.iwe v).2.1
            iwe := (iw_event_stream_pop env buf s.stream s.iwe v).2.2
            aps := s.aps
            ret := -1
            calls := s.calls + 1 } := by
  simp only [scan_loop, scan_body, if_pos h, scan_event_mode_reject _ _ _ _ _ hc hm]
  simp

/-- The turns that end with `ret > 0` only consume fuel. -/
theorem scan_loop_after_iterations (env : scan_env) (buf : List Nat) (v : Int) :
    ∀ (n : Nat) (s sn : coll_state) (fuel : Nat),
      after_iterations env buf v n s = some sn →
      scan_loop env buf v (n + fuel) s = scan_loop env buf v fuel sn := by
  intro n
  induction n with
  | zero =>
    intro s sn fuel h
    simp only [after_iterations, Option.some.injEq] at h
    simp [h]
  | succ n ih =>
    intro s sn fuel h
    have e : n + 1 + fuel = (n + fuel) + 1 := by omega
    rw [e]
    simp only [after_iterations] at h
    simp only [scan_loop]
    cases hb : scan_body env buf v s with
    | val s1 =>
      simp only [hb] at h
      by_cases hr : s1.ret > 0
      · simp only [if_pos hr] at h
        simp only [if_pos hr]
        exact ih s1 sn fuel h
      · simp [if_neg hr] at h
    | undefined => simp [hb] at h
    | out_of_fuel => simp [hb] at h

/-- When the retrieve request is answered with success and a non-zero length,
`wapi_scan_coll` returns what the decoding loop leaves. -/
theorem scan_coll_decodes (env : scan_env) (fr fd : Nat) (aps : wapi_list_t)
    (reply : scan_reply) (buflen : Int) (k : Nat)
    (h_version : 0 ≤ env.range_ret) (h_buf : env.buf_malloc = true)
    (h_retrieve : retrieve env fr 0 env.IW_SCAN_MAX_DATA
      = Exec.val (retrieve_end.answered reply buflen k))
    (h_ret : 0 ≤ reply.ret) (h_len : reply.length ≠ 0) :
    wapi_scan_coll env fr fd aps
      = match scan_loop env reply.buf env.range_we_version_compiled fd
            { stream := iw_event_stream_init reply.length, iwe := env.iwe0, aps := aps,
              ret := reply.ret, calls := 0 } with
        | Exec.val s => Exec.val (s.ret, s.aps)
        | Exec.undefined => Exec.undefined
        | Exec.out_of_fuel => Exec.out_of_fuel := by
  have h1 : ¬ env.range_ret < 0 := not_lt.mpr h_version
  have h2 : ¬ reply.ret < 0 := not_lt.mpr h_ret
  simp only [wapi_scan_coll, wapi_get_we_version, ge_iff_le, h_version, if_true, h1, if_false,
    h_buf, h_retrieve, h2, h_len, ne_eq, not_false_eq_true]
  simp

/-- C3 (mode validation).  A mode event is accepted (`wapi_scan_event` returns 0)
if and only if its value is one of the seven operating modes 0..6.  When
accepted, the mode of the current record is set to that value and marked
present, nothing else changes, and 0 is returned.  For every other value
`wapi_scan_event` returns -1 and leaves the list as it is; the decoding loop of
`wapi_scan_coll` then stops with the cursor where that extraction left it (no
further event is extracted) and -1 as its result, and `wapi_scan_coll` returns
that -1. -/
theorem mode_validation (fp : fp_ops) (MAX : Nat) (b : Bool) (event : iw_event)
    (hc : event.cmd = iw_cmd.SIOCGIWMODE) :
    (∀ (info : wapi_scan_info_t) (next : wapi_list_t),
        (∃ list, wapi_scan_event fp MAX b event (info :: next) = Exec.val (0, list))
          ↔ (0 ≤ event.u.mode ∧ event.u.mode ≤ 6))
      ∧ ((0 ≤ event.u.mode ∧ event.u.mode ≤ 6) →
          ∀ (info : wapi_scan_info_t) (next : wapi_list_t),
            wapi_scan_event fp MAX b event (info :: next)
              = Exec.val (0, { info with mode := event.u.mode, has_mode := true } :: next))
      ∧ (¬ (0 ≤ event.u.mode ∧ event.u.mode ≤ 6) →
          (∀ list : wapi_list_t, wapi_scan_event fp MAX b event list = Exec.val (-1, list))
          ∧ (∀ (env : scan_env) (buf : List Nat) (v : Int) (fuel : Nat) (s : coll_state),
              (iw_event_stream_pop env buf s.stream s.iwe v).1 ≥ 0 →
              (iw_event_stream_pop env buf s.stream s.iwe v).2.2 = event →
              scan_loop env buf v (fuel + 1) s
                = Exec.val
                    { stream := (iw_event_stream_pop env buf s.stream s.iwe v).2.1
                      iwe := event
                      aps := s.aps
                      ret := -1
                      calls := s.calls + 1 })
          ∧ (∀ (env : scan_env) (fr n fuel : Nat) (aps : wapi_list_t) (reply : scan_reply)
              (buflen : Int) (k : Nat) (sn : coll_state),
              0 ≤ env.range_ret → env.buf_malloc = true →
              retrieve env fr 0 env.IW_SCAN_MAX_DATA
                = Exec.val (retrieve_end.answered reply buflen k) →
              0 ≤ reply.ret → reply.length ≠ 0 →
              after_iterations env reply.buf env.range_we_version_compiled n
                  { stream := iw_event_stream_init reply.length, iwe := env.iwe0, aps := aps,
                    ret := reply.ret, calls := 0 } = some sn →
              (iw_event_stream_pop env reply.buf sn.stream sn.iwe
                env.range_we_version_compiled).1 ≥ 0 →
              (iw_event_stream_pop env reply.buf sn.stream sn.iwe
                env.range_we_version_compiled).2.2 = event →
              wapi_scan_coll env fr (n + (fuel + 1)) aps = Exec.val (-1, sn.aps))) := by
  refine ⟨?_, ?_, ?_⟩
  · intro info next
    constructor
    · rintro ⟨list, hl⟩
      by_contra hne
      have hm : event.u.mode < 0 ∨ 6 < event.u.mode := by omega
      rw [scan_event_mode_reject fp MAX b event _ hc hm] at hl
      simp at hl
    · rintro ⟨h0, h6⟩
      exact ⟨_, scan_event_mode_accept fp MAX b event info next hc h0 h6⟩
  · rintro ⟨h0, h6⟩ info next
    exact scan_event_mode_accept fp MAX b event info next hc h0 h6
  · intro hne
    have hm : event.u.mode < 0 ∨ 6 < event.u.mode := by omega
    refine ⟨?_, ?_, ?_⟩
    · intro list
      exact scan_event_mode_reject fp MAX b event list hc hm
    · intro env buf v fuel s hp he
      have h := scan_loop_mode_reject env buf v fuel s hp (by rw [he]; exact hc)
        (by rw [he]; exact hm)
      rw [h, he]
    · intro env fr n fuel aps reply buflen k sn hv hb hr hret hlen hn hp he
      rw [scan_coll_decodes env fr _ aps reply buflen k hv hb hr hret hlen,
        scan_loop_after_iterations env reply.buf _ n _ sn (fuel + 1) hn,
        scan_loop_mode_reject env reply.buf _ fuel sn hp (by rw [he]; exact hc)
          (by rw [he]; exact hm)]

/-- Witness of C3: the mode event of value 7 between two address events.  The
collection returns -1 with the first record only. -/
theorem mode_validation_witness :
    (ev_mode 7).cmd = iw_cmd.SIOCGIWMODE
      ∧ ¬ (0 ≤ (ev_mode 7).u.mode ∧ (ev_mode 7).u.mode ≤ 6)
      ∧ wapi_scan_coll
          (scripted_env 8
            [(1, ev_ap [1, 2, 3, 4, 5, 6]), (1, ev_mode 7), (1, ev_ap [6, 5, 4, 3, 2, 1])])
          1 2 []
        = Exec.val (-1, [new_cell 32 (ev_ap [1, 2, 3, 4, 5, 6])]) :=
  ⟨rfl, by decide,
    ((mode_validation host_fp 32 true (ev_mode 7) rfl).2.2 (by decide)).2.2
      (scripted_env 8
        [(1, ev_ap [1, 2, 3, 4, 5, 6]), (1, ev_mode 7), (1, ev_ap [6, 5, 4, 3, 2, 1])])
      1 1 0 [] { ret := 0, errno := 0, length := 8, buf := [] } 4096 0
      { stream := { end_ := 8, current := 1, value := none }
        iwe := ev_ap [1, 2, 3, 4, 5, 6]
        aps := [new_cell 32 (ev_ap [1, 2, 3, 4, 5, 6])]
        ret := 1
        calls := 1 }
      (by decide) rfl rfl (by decide) (by decide) rfl (by decide) rfl⟩

/-! ## Failure in the middle of a stream -/

/-- C4, as stated, fails: a mode event of value 7 after an address event, or an
extraction failure after an address event, makes `wapi_scan_coll` return -1
while the list of the caller, empty before the call, holds the record created
before the failure. -/
theorem failure_discards_list_counterexample :
    wapi_scan_coll (scripted_env 8 [(1, ev_ap [1, 2, 3, 4, 5, 6]), (1, ev_mode 7)]) 1 2 []
        = Exec.val (-1, [new_cell 32 (ev_ap [1, 2, 3, 4, 5, 6])])
      ∧ wapi_scan_coll (scripted_env 8 [(1, ev_ap [1, 2, 3, 4, 5, 6]), (-1, ev_other 0)]) 1 2 []
        = Exec.val (-1, [new_cell 32 (ev_ap [1, 2, 3, 4, 5, 6])])
      ∧ [new_cell 32 (ev_ap [1, 2, 3, 4, 5, 6])] ≠ ([] : wapi_list_t) :=
  ⟨rfl, rfl, by simp⟩

/-- C4, amended.  When the decoding loop of `wapi_scan_coll` has run `n` turns
that went on and the next turn fails, because the extraction returns a
negative value or because the extracted event is a mode event with a value
outside 0..6, `wapi_scan_coll` returns that negative value and the list of the
caller is the list as those `n` turns built it: nothing is rolled back (and the
failing turn itself adds nothing). -/
theorem failure_keeps_built_list (env : scan_env) (fr n fuel : Nat) (aps : wapi_list_t)
    (reply : scan_reply) (buflen : Int) (k : Nat) (sn : coll_state)
    (h_version : 0 ≤ env.range_ret) (h_buf : env.buf_malloc = true)
    (h_retrieve : retrieve env fr 0 env.IW_SCAN_MAX_DATA
      = Exec.val (retrieve_end.answered reply buflen k))
    (h_ret : 0 ≤ reply.ret) (h_len : reply.length ≠ 0)
    (h_turns : after_iterations env reply.buf env.range_we_version_compiled n
        { stream := iw_event_stream_init reply.length, iwe := env.iwe0, aps := aps,
          ret := reply.ret, calls := 0 } = some sn)
    (h_fail :
      (iw_event_stream_pop env reply.buf sn.stream sn.iwe env.range_we_version_compiled).1 < 0
      ∨ ((iw_event_stream_pop env reply.buf sn.stream sn.iwe
            env.range_we_version_compiled).1 ≥ 0
          ∧ (iw_event_stream_pop env reply.buf sn.stream sn.iwe
              env.range_we_version_compiled).2.2.cmd = iw_cmd.SIOCGIWMODE
          ∧ ((iw_event_stream_pop env reply.buf sn.stream sn.iwe
                env.range_we_version_compiled).2.2.u.mode < 0
              ∨ 6 < (iw_event_stream_pop env reply.buf sn.stream sn.iwe
                env.range_we_version_compiled).2.2.u.mode))) :
    ∃ r : Int, r < 0 ∧ wapi_scan_coll env fr (n + (fuel + 1)) aps = Exec.val (r, sn.aps) := by
  rw [scan_coll_decodes env fr _ aps reply buflen k h_version h_buf h_retrieve h_ret h_len,
    scan_loop_after_iterations env reply.buf _ n _ sn (fuel + 1) h_turns]
  rcases h_fail with hneg | ⟨hpos, hc, hm⟩
  · rw [scan_loop_pop_fails env reply.buf _ fuel sn hneg]
    exact ⟨_, hneg, rfl⟩
  · rw [scan_loop_mode_reject env reply.buf _ fuel sn hpos hc hm]
    exact ⟨-1, by decide, rfl⟩

/-- Witness of the amended C4: two address events, then an extraction failure.
Both records are in the list of the caller, in front of the record it held. -/
theorem failure_keeps_built_list_witness :
    ∃ r : Int, r < 0 ∧
      wapi_scan_coll
          (scripted_env 8
            [(1, ev_ap [1, 2, 3, 4, 5, 6]), (1, ev_ap [6, 5, 4, 3, 2, 1]), (-1, ev_other 0)])
          1 3 [new_cell 32 (ev_ap [9, 9, 9, 9, 9, 9])]
        = Exec.val (r,
            [new_cell 32 (ev_ap [6, 5, 4, 3, 2, 1]), new_cell 32 (ev_ap [1, 2, 3, 4, 5, 6]),
              new_cell 32 (ev_ap [9, 9, 9, 9, 9, 9])]) :=
  failure_keeps_built_list
    (scripted_env 8
      [(1, ev_ap [1, 2, 3, 4, 5, 6]), (1, ev_ap [6, 5, 4, 3, 2, 1]), (-1, ev_other 0)])
    1 2 0 [new_cell 32 (ev_ap [9, 9, 9, 9, 9, 9])]
    { ret := 0, errno := 0, length := 8, buf := [] } 4096 0
    { stream := { end_ := 8, current := 2, value := none }
      iwe := ev_ap [6, 5, 4, 3, 2, 1]
      aps := [new_cell 32 (ev_ap [6, 5, 4, 3, 2, 1]), new_cell 32 (ev_ap [1, 2, 3, 4, 5, 6]),
        new_cell 32 (ev_ap [9, 9, 9, 9, 9, 9])]
      ret := 1
      calls := 2 }
    (by decide) rfl rfl (by decide) (by decide) rfl (Or.inl (by decide))

/-! ## Network-name length -/

/-- C5, at a failing input.  With the maximum name length 32 (a field of 33
bytes), a network-name event that declares 40 bytes makes `wapi_scan_event`
copy 40 bytes into the field: the copy leaves the array, and the execution has
no defined result.  An event that declares 33 bytes has all 33 copied, one more
than the maximum, and the field is left without a terminating zero.  No length
is truncated. -/
theorem essid_copy_not_bounded (fp : fp_ops) (b : Bool) (info : wapi_scan_info_t)
    (next : wapi_list_t) :
    wapi_scan_event fp 32 b (ev_essid (List.replicate 40 65) 40 1) (info :: next)
        = Exec.undefined
      ∧ wapi_scan_event fp 32 b (ev_essid (List.replicate 40 65) 33 1) (info :: next)
        = Exec.val (0, { info with
            has_essid := true, essid_flag := WAPI_ESSID_ON, essid := List.replicate 33 65 } :: next)
      := by
  constructor
  · simp [wapi_scan_event, ev_essid, zero_data, memcpy, iwreq_data.data]
  · simp [wapi_scan_event, ev_essid, zero_data, memcpy, iwreq_data.data, List.take_replicate]

/-! ## The retrieve loop -/

theorem retrieve_too_small_env : ∀ (fuel k : Nat) (buflen : Int),
    retrieve too_small_env fuel k buflen = Exec.out_of_fuel := by
  intro fuel
  induction fuel with
  | zero => intro k buflen; rfl
  | succ fuel ih =>
    intro k buflen
    have h := ih (k + 1) (wrap_int32 (buflen * 2))
    simp only [retrieve, too_small_env, scripted_env, E2BIG] at h ⊢
    simpa using h

/-- The retrieve loop has no count of attempts of its own: with a kernel that
always answers "buffer too small" and a `realloc` that returns a block for
every size, negative sizes and zero included, no amount of fuel lets
`wapi_scan_coll` return. -/
theorem retrieve_needs_refusing_allocator :
    ¬ ∃ (fr fd : Nat) (r : Int × wapi_list_t),
        wapi_scan_coll too_small_env fr fd [] = Exec.val r := by
  rintro ⟨fr, fd, r, h⟩
  have h0 := retrieve_too_small_env fr 0 too_small_env.IW_SCAN_MAX_DATA
  have hv : ¬ too_small_env.range_ret < 0 := by decide
  have hb : too_small_env.buf_malloc = true := rfl
  simp only [wapi_scan_coll, wapi_get_we_version, hb, h0] at h
  simp [too_small_env, scripted_env] at h

theorem buflen_at_front (start : Int) : ∀ n : Nat,
    buflen_at (wrap_int32 (start * 2)) n = buflen_at start (n + 1) := by
  intro n
  induction n with
  | zero => rfl
  | succ n ih => simp only [buflen_at] at ih ⊢; rw [ih]

/-- Requests answered "buffer too small" and followed by a `realloc` that returns
a block only consume fuel. -/
theorem retrieve_skip (env : scan_env) :
    ∀ (n k0 : Nat) (start : Int) (fuel : Nat),
      (∀ i, i < n →
        (env.ioctl_scan (k0 + i) (buflen_at start i)).ret < 0
          ∧ (env.ioctl_scan (k0 + i) (buflen_at start i)).errno = E2BIG
          ∧ env.realloc_ok (k0 + i) (buflen_at start (i + 1)) = true) →
      retrieve env (n + fuel) k0 start = retrieve env fuel (k0 + n) (buflen_at start n) := by
  intro n
  induction n with
  | zero =>
    intro k0 start fuel _
    simp [buflen_at]
  | succ n ih =>
    intro k0 start fuel h
    have e : n + 1 + fuel = (n + fuel) + 1 := by omega
    obtain ⟨h1, h2, h3⟩ := h 0 (Nat.succ_pos n)
    simp only [Nat.add_zero, buflen_at] at h1 h2 h3
    rw [e]
    simp only [retrieve, h1, h2, and_self, if_true, h3]
    rw [ih (k0 + 1) (wrap_int32 (start * 2)) fuel]
    · rw [buflen_at_front]
      have e2 : k0 + 1 + n = k0 + (n + 1) := by omega
      rw [e2]
    · intro i hi
      have h4 := h (i + 1) (by omega)
      have e3 : k0 + 1 + i = k0 + (i + 1) := by omega
      rw [e3, buflen_at_front, buflen_at_front]
      exact h4

/-- How the retrieve loop goes on and ends.  If the requests 0..k-1 are answered
"buffer too small" and each `realloc` that follows returns a block, then k
turns do not finish the loop; it ends at request k when that request is
answered otherwise (after exactly k doublings, with that answer), or when the
`realloc` that follows request k returns `NULL`, and then `wapi_scan_coll`
fails with -1 and leaves the list of the caller as it was. -/
theorem retrieve_steps (env : scan_env) (k : Nat) (start : Int)
    (h_small : ∀ i, i < k →
      (env.ioctl_scan i (buflen_at start i)).ret < 0
        ∧ (env.ioctl_scan i (buflen_at start i)).errno = E2BIG
        ∧ env.realloc_ok i (buflen_at start (i + 1)) = true) :
    retrieve env k 0 start = Exec.out_of_fuel
      ∧ (¬ ((env.ioctl_scan k (buflen_at start k)).ret < 0
            ∧ (env.ioctl_scan k (buflen_at start k)).errno = E2BIG) →
          ∀ extra : Nat, retrieve env (k + (extra + 1)) 0 start
            = Exec.val (retrieve_end.answered (env.ioctl_scan k (buflen_at start k))
                (buflen_at start k) k))
      ∧ (((env.ioctl_scan k (buflen_at start k)).ret < 0
            ∧ (env.ioctl_scan k (buflen_at start k)).errno = E2BIG) →
          env.realloc_ok k (buflen_at start (k + 1)) = false →
          (∀ extra : Nat, retrieve env (k + (extra + 1)) 0 start
            = Exec.val (retrieve_end.realloc_failed k))
          ∧ (start = env.IW_SCAN_MAX_DATA → 0 ≤ env.range_ret → env.buf_malloc = true →
              ∀ (extra fd : Nat) (aps : wapi_list_t),
                wapi_scan_coll env (k + (extra + 1)) fd aps = Exec.val (-1, aps))) := by
  have hs : ∀ i, i < k →
      (env.ioctl_scan (0 + i) (buflen_at start i)).ret < 0
        ∧ (env.ioctl_scan (0 + i) (buflen_at start i)).errno = E2BIG
        ∧ env.realloc_ok (0 + i) (buflen_at start (i + 1)) = true := by
    intro i hi
    simpa using h_small i hi
  refine ⟨?_, ?_, ?_⟩
  · have h := retrieve_skip env k 0 start 0 hs
    simp only [Nat.add_zero] at h
    rw [h]
    rfl
  · intro hk extra
    rw [retrieve_skip env k 0 start (extra + 1) hs]
    simp only [Nat.zero_add, retrieve, if_neg hk]
  · intro hk hr
    have h1 : ∀ extra : Nat, retrieve env (k + (extra + 1)) 0 start
        = Exec.val (retrieve_end.realloc_failed k) := by
      intro extra
      rw [retrieve_skip env k 0 start (extra + 1) hs]
      simp only [Nat.zero_add, retrieve, if_pos hk, buflen_at] at hr ⊢
      simp [hr]
    refine ⟨h1, ?_⟩
    intro hstart hv hb extra fd aps
    have h2 := h1 extra
    rw [hstart] at h2
    have hv2 : ¬ env.range_ret < 0 := not_lt.mpr hv
    simp only [wapi_scan_coll, wapi_get_we_version, ge_iff_le, hv, if_true, hv2, if_false, hb, h2]
    simp

theorem wrap_int32_double_small (b : Int) (h0 : 0 < b) (h1 : b * 2 < 2147483648) :
    wrap_int32 (b * 2) = b * 2 := by
  unfold wrap_int32
  omega

theorem wrap_int32_double_large (b : Int) (h0 : b < 2147483648) (h1 : 2147483648 ≤ b * 2) :
    wrap_int32 (b * 2) < 0 := by
  unfold wrap_int32
  omega

/-- With a `realloc` that returns `NULL` for a negative size, the retrieve loop
started at request `k` with a buffer of `b` bytes ends within `n` requests as
soon as `b * 2^n` is beyond the range of `int`. -/
theorem retrieve_bounded_from (env : scan_env)
    (h_alloc : ∀ (k : Nat) (b : Int), b < 0 → env.realloc_ok k b = false) :
    ∀ (n k : Nat) (b : Int), 0 < b → b < 2147483648 → 2147483648 ≤ b * 2 ^ n →
      ∃ r : retrieve_end,
        (∀ extra : Nat, retrieve env (n + extra) k b = Exec.val r)
          ∧ doublings_of r < k + n
          ∧ ((∀ (j : Nat) (c : Int),
                (env.ioctl_scan j c).ret < 0 ∧ (env.ioctl_scan j c).errno = E2BIG) →
              r = retrieve_end.realloc_failed (doublings_of r)) := by
  intro n
  induction n with
  | zero =>
    intro k b _ h1 h2
    simp only [pow_zero, mul_one] at h2
    omega
  | succ n ih =>
    intro k b h0 h1 h2
    have e : ∀ extra : Nat, n + 1 + extra = (n + extra) + 1 := by intro extra; omega
    by_cases hs : (env.ioctl_scan k b).ret < 0 ∧ (env.ioctl_scan k b).errno = E2BIG
    · by_cases hr : env.realloc_ok k (wrap_int32 (b * 2)) = true
      · have hsmall : b * 2 < 2147483648 := by
          by_contra hc
          have hneg := wrap_int32_double_large b h1 (not_lt.mp hc)
          rw [h_alloc k _ hneg] at hr
          exact Bool.false_ne_true hr
        have hw := wrap_int32_double_small b h0 hsmall
        have h3 : (2147483648 : Int) ≤ (b * 2) * 2 ^ n := by
          have e2 : (b * 2) * 2 ^ n = b * 2 ^ (n + 1) := by ring
          rw [e2]; exact h2
        obtain ⟨r, hr1, hr2, hr3⟩ := ih (k + 1) (b * 2) (by omega) hsmall h3
        refine ⟨r, ?_, by omega, hr3⟩
        intro extra
        rw [e extra]
        rw [hw] at hr
        simp only [retrieve, hs, and_self, if_true, hw, hr]
        exact hr1 extra
      · refine ⟨retrieve_end.realloc_failed k, ?_, ?_, ?_⟩
        · intro extra
          rw [e extra]
          simp only [retrieve, hs, and_self, if_true, hr]
          simp
        · simp only [doublings_of]; omega
        · intro _; rfl
    · refine ⟨retrieve_end.answered (env.ioctl_scan k b) b k, ?_, ?_, ?_⟩
      · intro extra
        rw [e extra]
        simp only [retrieve, if_neg hs]
      · simp only [doublings_of]; omega
      · intro hall
        exact absurd (hall k b) hs

/-- C6 (buffer growth is bounded).  The capacity is an `int` that starts at
`IW_SCAN_MAX_DATA` (positive) and is doubled at each retry, and `realloc`
returns `NULL` when it is asked for a negative size.  Then, whatever the
kernel answers, the retrieve loop of `wapi_scan_coll` ends within `n` requests,
after fewer than `n` doublings, for every `n` with
`IW_SCAN_MAX_DATA * 2^n >= 2^31` (31 always does, 19 for a start of 4096): more
fuel does not change the result.  With a kernel that answers "buffer too
small" to every request the loop ends with a failed `realloc`, and
`wapi_scan_coll` returns -1 and leaves the list of the caller as it was. -/
theorem retrieve_bounded (env : scan_env) (n : Nat)
    (h_pos : 0 < env.IW_SCAN_MAX_DATA) (h_int : env.IW_SCAN_MAX_DATA < 2147483648)
    (h_n : 2147483648 ≤ env.IW_SCAN_MAX_DATA * 2 ^ n)
    (h_alloc : ∀ (k : Nat) (b : Int), b < 0 → env.realloc_ok k b = false) :
    ∃ r : retrieve_end,
      (∀ extra : Nat, retrieve env (n + extra) 0 env.IW_SCAN_MAX_DATA = Exec.val r)
        ∧ doublings_of r < n
        ∧ ((∀ (j : Nat) (c : Int),
              (env.ioctl_scan j c).ret < 0 ∧ (env.ioctl_scan j c).errno = E2BIG) →
            r = retrieve_end.realloc_failed (doublings_of r)
              ∧ (0 ≤ env.range_ret → env.buf_malloc = true →
                  ∀ (extra fd : Nat) (aps : wapi_list_t),
                    wapi_scan_coll env (n + extra) fd aps = Exec.val (-1, aps))) := by
  obtain ⟨r, h1, h2, h3⟩ :=
    retrieve_bounded_from env h_alloc n 0 env.IW_SCAN_MAX_DATA h_pos h_int h_n
  refine ⟨r, h1, by omega, ?_⟩
  intro hall
  have hr := h3 hall
  refine ⟨hr, ?_⟩
  intro hv hb extra fd aps
  have h4 := h1 extra
  rw [hr] at h4
  have hv2 : ¬ env.range_ret < 0 := not_lt.mpr hv
  simp only [wapi_scan_coll, wapi_get_we_version, ge_iff_le, hv, if_true, hv2, if_false, hb, h4]
  simp

/-- Witness of C6: a kernel that answers "buffer too small" to every request and a
`realloc` that refuses the sizes that are not positive; from 4096 bytes the
nineteenth doubling leaves the range of `int`, and `wapi_scan_coll` fails with
-1 within 19 requests. -/
theorem retrieve_bounded_witness :
    wapi_scan_coll refusing_env 19 0 [] = Exec.val (-1, []) :=
  Exists.elim
    (retrieve_bounded refusing_env 19 (by decide) (by decide) (by decide)
      (by
        intro k b hb
        have hb2 : ¬ 0 < b := by omega
        simp [refusing_env, hb2]))
    (fun _ h =>
      (h.2.2 (by intro j c; simp [refusing_env, too_small_env, E2BIG])).2 (by decide) rfl 0 0 [])

/-! ## Poll classification -/

/-- C7 (poll classification).  A zero-length retrieve request that succeeds makes
`ioctl` return 0, and then `wapi_scan_stat` returns 0 (data ready); in general
the value of a request that did not fail is returned as it is.  When the
request fails, `wapi_scan_stat` returns 0 (data ready) for "buffer too small"
(`E2BIG`), 1 (not ready) for "try again" (`EAGAIN`), and the negative value of
the request for every other failure. -/
theorem scan_stat_classification (ret errno : Int) :
    (0 ≤ ret → wapi_scan_stat ret errno = ret)
      ∧ (ret = 0 → wapi_scan_stat ret errno = 0)
      ∧ (ret < 0 → errno = E2BIG → wapi_scan_stat ret errno = 0)
      ∧ (ret < 0 → errno = EAGAIN → wapi_scan_stat ret errno = 1)
      ∧ (ret < 0 → errno ≠ E2BIG → errno ≠ EAGAIN →
          wapi_scan_stat ret errno = ret ∧ wapi_scan_stat ret errno < 0) := by
  refine ⟨?_, ?_, ?_, ?_, ?_⟩
  · intro h
    simp only [wapi_scan_stat, if_neg (not_lt.mpr h)]
  · intro h
    subst h
    simp [wapi_scan_stat]
  · intro h he
    simp only [wapi_scan_stat, if_pos h, if_pos he]
  · intro h he
    have hne : ¬ errno = E2BIG := by rw [he]; decide
    simp only [wapi_scan_stat, if_pos h, if_neg hne, if_pos he]
  · intro h h1 h2
    have e : wapi_scan_stat ret errno = ret := by
      simp only [wapi_scan_stat, if_pos h, if_neg h1, if_neg h2]
    exact ⟨e, by rw [e]; exact h⟩

/-- Witness of C7: the four classes of answers. -/
theorem scan_stat_classification_witness :
    wapi_scan_stat 0 0 = 0 ∧ wapi_scan_stat (-1) E2BIG = 0
      ∧ wapi_scan_stat (-1) EAGAIN = 1 ∧ wapi_scan_stat (-1) 13 = -1 :=
  ⟨(scan_stat_classification 0 0).2.1 rfl,
    (scan_stat_classification (-1) E2BIG).2.2.1 (by decide) rfl,
    (scan_stat_classification (-1) EAGAIN).2.2.2.1 (by decide) rfl,
    ((scan_stat_classification (-1) 13).2.2.2.2 (by decide) (by decide) (by decide)).1⟩

/-! ## Outgoing ESSID -/

/-- C9, at a failing input.  With the maximum name length 32, an ESSID of 40
characters makes `wapi_set_essid` issue a request that declares a name of 40
bytes, not min(40, 32) = 32, while the buffer of the request holds 32
characters and the terminating zero.  In general the declared length is the
whole length of the string (as a 16 bit value), whatever the maximum. -/
theorem set_essid_length_not_bounded :
    (wapi_set_essid_wrq 32 (List.replicate 40 65) WAPI_ESSID_ON).length = 40
      ∧ (wapi_set_essid_wrq 32 (List.replicate 40 65) WAPI_ESSID_ON).pointer
        = some (List.replicate 32 65 ++ [0])
      ∧ (∀ (ioctl : iw_point → Int),
          wapi_set_essid 32 ioctl (List.replicate 40 65) WAPI_ESSID_ON
            = ioctl { pointer := some (List.replicate 32 65 ++ [0]), length := 40, flags := 1 })
      ∧ (∀ (MAX : Nat) (essid : List Nat) (flag : Int),
          (wapi_set_essid_wrq MAX essid flag).length = essid.length % 65536) := by
  refine ⟨by decide, by decide, ?_, ?_⟩
  · intro ioctl
    have h : wapi_set_essid_wrq 32 (List.replicate 40 65) WAPI_ESSID_ON
        = { pointer := some (List.replicate 32 65 ++ [0]), length := 40, flags := 1 } := by
      decide
    simp only [wapi_set_essid, h]
  · intro MAX essid flag
    simp only [wapi_set_essid_wrq, snprintf_s]
    omega

/-! ## Empty scan -/

theorem retrieve_extract_irrelevant (env : scan_env)
    (extract : List Nat → iw_event_stream_s → iw_event → Int → Int × iw_event_stream_s × iw_event) :
    ∀ (fuel k : Nat) (buflen : Int),
      retrieve { env with iw_extract_event_stream := extract } fuel k buflen
        = retrieve env fuel k buflen := by
  intro fuel
  induction fuel with
  | zero => intro k buflen; rfl
  | succ fuel ih =>
    intro k buflen
    simp only [retrieve, ih]

/-- C10 (an empty scan is not an error).  Whenever the retrieve request of
`wapi_scan_coll` succeeds and the length reported by the kernel is zero,
`wapi_scan_coll` returns the non-negative value of that request and leaves the
list of the caller unchanged; it does so with no fuel for the decoding loop and
whatever the event extractor is, that is, without any attempt to decode. -/
theorem empty_scan_is_success (env : scan_env) (fr : Nat) (aps : wapi_list_t)
    (reply : scan_reply) (buflen : Int) (k : Nat)
    (h_version : 0 ≤ env.range_ret) (h_buf : env.buf_malloc = true)
    (h_retrieve : retrieve env fr 0 env.IW_SCAN_MAX_DATA
      = Exec.val (retrieve_end.answered reply buflen k))
    (h_ret : 0 ≤ reply.ret) (h_len : reply.length = 0) :
    0 ≤ reply.ret
      ∧ ∀ (fd : Nat)
          (extract :
            List Nat → iw_event_stream_s → iw_event → Int → Int × iw_event_stream_s × iw_event),
          wapi_scan_coll { env with iw_extract_event_stream := extract } fr fd aps
            = Exec.val (reply.ret, aps) := by
  refine ⟨h_ret, ?_⟩
  intro fd extract
  have h1 : ¬ env.range_ret < 0 := not_lt.mpr h_version
  have h2 : ¬ reply.ret < 0 := not_lt.mpr h_ret
  have hr := (retrieve_extract_irrelevant env extract fr 0 env.IW_SCAN_MAX_DATA).trans h_retrieve
  simp only [wapi_scan_coll, wapi_get_we_version, ge_iff_le, h_version, if_true, h1, if_false,
    hr, h2, h_len]
  simp [h_buf]

/-- Witness of C10: a retrieve request answered with success and length 0, a list
of one record, and an extractor that would yield an address event. -/
theorem empty_scan_is_success_witness :
    wapi_scan_coll (scripted_env 0 [(1, ev_ap [1, 2, 3, 4, 5, 6])]) 1 0
        [new_cell 32 (ev_ap [9, 9, 9, 9, 9, 9])]
      = Exec.val (0, [new_cell 32 (ev_ap [9, 9, 9, 9, 9, 9])]) :=
  (empty_scan_is_success (scripted_env 0 [(1, ev_ap [1, 2, 3, 4, 5, 6])]) 1
    [new_cell 32 (ev_ap [9, 9, 9, 9, 9, 9])]
    { ret := 0, errno := 0, length := 0, buf := [] } 4096 0
    (by decide) rfl rfl (by decide) rfl).2 0
    (scripted_extract [(1, ev_ap [1, 2, 3, 4, 5, 6])])

/-! ## Frequency codec -/

theorem ten_pow_eq_zpow (n : Nat) : (10 : ℚ) ^ n = ((10 : Nat) : ℚ) ^ ((n : Nat) : Int) := by
  rw [zpow_natCast]
  norm_num

/-- For a positive `v`, `Int.log 10 v` is the integer `l` with `10^l <= v < 10^(l+1)`:
the floor of the decimal logarithm. -/
theorem log10_bounds (v : ℚ) (hv : 0 < v) :
    (10 : ℚ) ^ (Int.log 10 v) ≤ v ∧ v < (10 : ℚ) ^ (Int.log 10 v + 1) := by
  have h1 := @Int.zpow_log_le_self ℚ _ _ 10 v (by norm_num) hv
  have h2 := @Int.lt_zpow_succ_log_self ℚ _ _ 10 (by norm_num) v
  constructor
  · simpa using h1
  · simpa using h2

theorem log10_lt_of_lt_pow (v : ℚ) (hv : 0 < v) (n : Nat) (h : v < (10 : ℚ) ^ n) :
    Int.log 10 v < (n : Int) := by
  rw [ten_pow_eq_zpow] at h
  exact (Int.lt_zpow_iff_log_lt (by norm_num) hv).mp h

theorem le_log10_of_pow_le (v : ℚ) (hv : 0 < v) (n : Nat) (h : (10 : ℚ) ^ n ≤ v) :
    (n : Int) ≤ Int.log 10 v := by
  rw [ten_pow_eq_zpow] at h
  exact (Int.zpow_le_iff_le_log (by norm_num) hv).mp h

theorem double_to_long_of_nonneg (x : ℚ) (h : 0 ≤ x) : double_to_long x = ⌊x⌋ := by
  simp only [double_to_long, if_pos h]

theorem double_to_long_intCast (n : Int) : double_to_long ((n : Int) : ℚ) = n := by
  unfold double_to_long
  split <;> simp

/-- The code at a value whose `floor(log10(v))` comes out as `E <= 8`: the integer
part is stored with the exponent 0. -/
theorem float2freq_low (fp : fp_ops) (v : ℚ) (E : Int)
    (hL : fp.floor_log10 (double.finite v) = double.finite ((E : Int) : ℚ))
    (hE0 : -32768 ≤ E) (hE8 : E ≤ 8) (h0 : 0 ≤ v) (h31 : v < 2147483648) :
    wapi_float2freq fp (double.finite v) = some { m := ⌊v⌋, e := 0 } := by
  have c1 : -32768 ≤ E ∧ E ≤ 32767 := ⟨hE0, by omega⟩
  have c2 : ¬ E > 8 := by omega
  have hf0 : (0 : Int) ≤ ⌊v⌋ := Int.floor_nonneg.mpr h0
  have hf1 : ⌊v⌋ < (2147483648 : Int) := by
    apply Int.floor_lt.mpr
    push_cast
    exact h31
  have c3 : (-2147483648 : Int) ≤ ⌊v⌋ ∧ ⌊v⌋ ≤ (2147483647 : Int) := ⟨by omega, by omega⟩
  simp only [wapi_float2freq, hL, double_to_short, double_to_long_intCast, c1, and_self,
    if_true, if_neg c2, double_to_long32, double_to_long_of_nonneg v h0, c3]

/-- The code at a value whose `floor(log10(v))` comes out as `E > 8`, when the
quotient `v / pow(10, E - 6)` comes out as `q`: the mantissa is
`floor(q) * 100` and the exponent `E - 8`. -/
theorem float2freq_high (fp : fp_ops) (v q : ℚ) (E : Int)
    (hL : fp.floor_log10 (double.finite v) = double.finite ((E : Int) : ℚ))
    (hE8 : 8 < E) (hE : E ≤ 32767)
    (hdiv : fp.div (double.finite v) (fp.pow10 (E - 6)) = double.finite q)
    (hq0 : 0 ≤ q) (hq : q < 21474837) :
    wapi_float2freq fp (double.finite v) = some { m := ⌊q⌋ * 100, e := E - 8 } := by
  have c1 : -32768 ≤ E ∧ E ≤ 32767 := ⟨by omega, hE⟩
  have c2 : E > 8 := hE8
  have hf0 : (0 : Int) ≤ ⌊q⌋ := Int.floor_nonneg.mpr hq0
  have hf1 : ⌊q⌋ < (21474837 : Int) := by
    apply Int.floor_lt.mpr
    push_cast
    exact hq
  have c3 : (-2147483648 : Int) ≤ ⌊q⌋ ∧ ⌊q⌋ ≤ (2147483647 : Int) := ⟨by omega, by omega⟩
  have c4 : (-2147483648 : Int) ≤ ⌊q⌋ * 100 ∧ ⌊q⌋ * 100 ≤ (2147483647 : Int) :=
    ⟨by omega, by omega⟩
  simp only [wapi_float2freq, hL, double_to_short, double_to_long_intCast, c1, and_self,
    if_true, if_pos c2, hdiv, double_floor, double_to_long32, c3, c4]

/-- In exact arithmetic `floor(log10(v))` is `Int.log 10 v`. -/
theorem exact_floor_log10 (v : ℚ) (hv : 0 < v) :
    exact_fp.floor_log10 (double.finite v) = double.finite ((Int.log 10 v : Int) : ℚ) := by
  simp only [exact_fp, if_pos hv]

/-- In exact arithmetic the quotient by a power of ten. -/
theorem exact_div_pow10 (v : ℚ) (n : Int) :
    exact_fp.div (double.finite v) (exact_fp.pow10 n) = double.finite (v / (10 : ℚ) ^ n) := by
  have h : ¬ (10 : ℚ) ^ n = 0 := ne_of_gt (by positivity)
  simp only [exact_fp, if_neg h]

/-- In exact arithmetic the decoded value is `m * 10^e`. -/
theorem exact_freq2float (f : iw_freq) :
    wapi_freq2float exact_fp f = double.finite ((f.m : ℚ) * (10 : ℚ) ^ f.e) := rfl

/-- Below 10^9 the code stores the integer part and the exponent 0. -/
theorem float2freq_small (v : ℚ) (h1 : 1 ≤ v) (h9 : v < (10 : ℚ) ^ 9) :
    wapi_float2freq exact_fp (double.finite v) = some { m := ⌊v⌋, e := 0 } := by
  have hv : 0 < v := lt_of_lt_of_le zero_lt_one h1
  have hl9 : Int.log 10 v < ((9 : Nat) : Int) := log10_lt_of_lt_pow v hv 9 h9
  have hl0 : ((0 : Nat) : Int) ≤ Int.log 10 v :=
    le_log10_of_pow_le v hv 0 (by simpa using h1)
  exact float2freq_low exact_fp v (Int.log 10 v) (exact_floor_log10 v hv) (by omega) (by omega)
    (le_of_lt hv) (lt_trans h9 (by norm_num))

/-- The seven leading digits: for a positive `v` with decimal exponent `l`, the
quotient `v / 10^(l-6)` lies in [10^6, 10^7). -/
theorem leading_digits_bounds (v : ℚ) (hv : 0 < v) :
    (1000000 : ℚ) ≤ v / (10 : ℚ) ^ (Int.log 10 v - 6)
      ∧ v / (10 : ℚ) ^ (Int.log 10 v - 6) < (10000000 : ℚ) := by
  have hP : 0 < (10 : ℚ) ^ (Int.log 10 v - 6) := by positivity
  obtain ⟨hlo, hhi⟩ := log10_bounds v hv
  have e1 : (10 : ℚ) ^ (Int.log 10 v) = (10 : ℚ) ^ (Int.log 10 v - 6) * 1000000 := by
    have e : Int.log 10 v = (Int.log 10 v - 6) + (6 : Int) := by ring
    conv_lhs => rw [e, zpow_add₀ (by norm_num : (10 : ℚ) ≠ 0)]
    norm_num
  have e2 : (10 : ℚ) ^ (Int.log 10 v + 1) = (10 : ℚ) ^ (Int.log 10 v - 6) * 10000000 := by
    have e : Int.log 10 v + 1 = (Int.log 10 v - 6) + (7 : Int) := by ring
    rw [e, zpow_add₀ (by norm_num : (10 : ℚ) ≠ 0)]
    norm_num
  rw [e1] at hlo
  rw [e2] at hhi
  constructor
  · rw [le_div_iff₀ hP]
    linarith
  · rw [div_lt_iff₀ hP]
    linarith

/-- From 10^9 on, and as long as the exponent fits a `short`, the code keeps the
seven leading digits: the mantissa is `floor(v / 10^(l-6)) * 100` and the
exponent `l - 8`, so that the decoded value is the multiple of `10^(l-6)` just
below `v`. -/
theorem float2freq_large (v : ℚ) (h9 : (10 : ℚ) ^ 9 ≤ v) (hfit : Int.log 10 v ≤ 32767) :
    wapi_float2freq exact_fp (double.finite v)
        = some { m := ⌊v / (10 : ℚ) ^ (Int.log 10 v - 6)⌋ * 100, e := Int.log 10 v - 8 }
      ∧ wapi_freq2float exact_fp
          { m := ⌊v / (10 : ℚ) ^ (Int.log 10 v - 6)⌋ * 100, e := Int.log 10 v - 8 }
        = double.finite ((⌊v / (10 : ℚ) ^ (Int.log 10 v - 6)⌋ : ℚ)
            * (10 : ℚ) ^ (Int.log 10 v - 6))
      ∧ (⌊v / (10 : ℚ) ^ (Int.log 10 v - 6)⌋ : ℚ) * (10 : ℚ) ^ (Int.log 10 v - 6) ≤ v
      ∧ v - (⌊v / (10 : ℚ) ^ (Int.log 10 v - 6)⌋ : ℚ) * (10 : ℚ) ^ (Int.log 10 v - 6)
          < (10 : ℚ) ^ (Int.log 10 v - 6)
      ∧ (10 : ℚ) ^ (Int.log 10 v - 6) * 1000000 ≤ v := by
  have hv : 0 < v := lt_of_lt_of_le (by positivity) h9
  have hl9 : ((9 : Nat) : Int) ≤ Int.log 10 v := le_log10_of_pow_le v hv 9 h9
  have hP : 0 < (10 : ℚ) ^ (Int.log 10 v - 6) := by positivity
  obtain ⟨hq6, hq7⟩ := leading_digits_bounds v hv
  have h100 : (100 : ℚ) * (10 : ℚ) ^ (Int.log 10 v - 8) = (10 : ℚ) ^ (Int.log 10 v - 6) := by
    have e : Int.log 10 v - 6 = (2 : Int) + (Int.log 10 v - 8) := by ring
    rw [e, zpow_add₀ (by norm_num : (10 : ℚ) ≠ 0)]
    norm_num
  have hfloor_le := Int.floor_le (v / (10 : ℚ) ^ (Int.log 10 v - 6))
  have hlt_floor := Int.lt_floor_add_one (v / (10 : ℚ) ^ (Int.log 10 v - 6))
  refine ⟨?_, ?_, ?_, ?_, ?_⟩
  · exact float2freq_high exact_fp v _ (Int.log 10 v) (exact_floor_log10 v hv) (by omega) hfit
      (exact_div_pow10 v _) (by linarith) (by linarith)
  · rw [exact_freq2float]
    push_cast
    rw [mul_assoc, h100]
  · exact (le_div_iff₀ hP).mp hfloor_le
  · have h := (div_lt_iff₀ hP).mp hlt_floor
    linarith
  · have h := (le_div_iff₀ hP).mp hq6
    linarith

/-- Every value below 2^1024, the range of the finite doubles, has a decimal
exponent below 1024. -/
theorem log10_of_double_range (v : ℚ) (hv : 0 < v) (hmax : v < (2 : ℚ) ^ 1024) :
    Int.log 10 v < 1024 := by
  have h10 : (2 : ℚ) ^ 1024 ≤ (10 : ℚ) ^ 1024 :=
    pow_le_pow_left₀ (by norm_num) (by norm_num) 1024
  exact log10_lt_of_lt_pow v hv 1024 (lt_of_lt_of_le hmax h10)

/-- Binary64 represents every whole number below 2^53. -/
theorem round_double_int (n : Int) (h0 : 0 < n) (h1 : n < 9007199254740992) :
    round_double ((n : Int) : ℚ) = double.finite ((n : Int) : ℚ) := by
  have hx : (0 : ℚ) < ((n : Int) : ℚ) := by exact_mod_cast h0
  have hx1 : (1 : ℚ) ≤ ((n : Int) : ℚ) := by exact_mod_cast h0
  have he_lo : (2 : ℚ) ^ (Int.log 2 ((n : Int) : ℚ)) ≤ ((n : Int) : ℚ) := by
    have h := @Int.zpow_log_le_self ℚ _ _ 2 ((n : Int) : ℚ) (by norm_num) hx
    simpa using h
  have he_hi : ((n : Int) : ℚ) < (2 : ℚ) ^ (Int.log 2 ((n : Int) : ℚ) + 1) := by
    have h := @Int.lt_zpow_succ_log_self ℚ _ _ 2 (by norm_num) ((n : Int) : ℚ)
    simpa using h
  have he0 : (0 : Int) ≤ Int.log 2 ((n : Int) : ℚ) := by
    apply (Int.zpow_le_iff_le_log (by norm_num) hx).mp
    simpa using hx1
  have he1 : Int.log 2 ((n : Int) : ℚ) < 53 := by
    apply (Int.lt_zpow_iff_log_lt (by norm_num) hx).mp
    have e : (((2 : Nat) : ℚ)) ^ (53 : Int) = 9007199254740992 := by norm_num
    rw [e]
    exact_mod_cast h1
  have hk : (((52 - Int.log 2 ((n : Int) : ℚ)).toNat : Nat) : Int)
      = 52 - Int.log 2 ((n : Int) : ℚ) := Int.toNat_of_nonneg (by omega)
  have hz : (2 : ℚ) ^ (52 - Int.log 2 ((n : Int) : ℚ))
      = (2 : ℚ) ^ ((52 - Int.log 2 ((n : Int) : ℚ)).toNat) := by
    rw [← zpow_natCast, hk]
  have hm : (((n * 2 ^ ((52 - Int.log 2 ((n : Int) : ℚ)).toNat) : Int)) : ℚ)
      = ((n : Int) : ℚ) * (2 : ℚ) ^ (52 - Int.log 2 ((n : Int) : ℚ)) := by
    rw [hz]
    push_cast
    ring
  have hPQ : (2 : ℚ) ^ (52 - Int.log 2 ((n : Int) : ℚ))
      * (2 : ℚ) ^ (Int.log 2 ((n : Int) : ℚ) - 52) = 1 := by
    rw [← zpow_add₀ (by norm_num : (2 : ℚ) ≠ 0)]
    have e : 52 - Int.log 2 ((n : Int) : ℚ) + (Int.log 2 ((n : Int) : ℚ) - 52) = 0 := by ring
    rw [e, zpow_zero]
  have hback : (((n * 2 ^ ((52 - Int.log 2 ((n : Int) : ℚ)).toNat) : Int)) : ℚ)
      * (2 : ℚ) ^ (Int.log 2 ((n : Int) : ℚ) - 52) = ((n : Int) : ℚ) := by
    rw [hm, mul_assoc, hPQ, mul_one]
  have h := round_double_eq ((n : Int) : ℚ) (Int.log 2 ((n : Int) : ℚ))
    (n * 2 ^ ((52 - Int.log 2 ((n : Int) : ℚ)).toNat)) hx he_lo he_hi (by omega)
    (by rw [hm]; linarith) (by rw [hm]; linarith)
    (by
      rw [hback]
      have e : (9007199254740992 : ℚ) < (2 : ℚ) ^ (1024 : Nat) := by norm_num
      have h2 : ((n : Int) : ℚ) < 9007199254740992 := by exact_mod_cast h1
      linarith)
  rw [hback] at h
  exact h

/-- In binary64 `pow(10, 0)` is 1. -/
theorem binary64_pow10_zero (L : double → double) :
    (ieee_fp L).pow10 0 = double.finite 1 := by
  have h := round_double_int 1 (by norm_num) (by norm_num)
  have e : (((1 : Int)) : ℚ) = 1 := by norm_num
  rw [e] at h
  show round_double ((10 : ℚ) ^ (0 : Int)) = double.finite 1
  rw [zpow_zero]
  exact h

/-- In binary64 a whole number below 2^53 with the exponent 0 is decoded as
itself. -/
theorem binary64_decode_int (L : double → double) (n : Int) (h0 : 0 < n)
    (h1 : n < 9007199254740992) :
    wapi_freq2float (ieee_fp L) { m := n, e := 0 } = double.finite ((n : Int) : ℚ) := by
  rw [freq2float_eq, binary64_pow10_zero]
  show round_double (((n : Int) : ℚ) * 1) = double.finite ((n : Int) : ℚ)
  rw [mul_one]
  exact round_double_int n h0 h1

/-- In binary64, below 10^9: the code stores the integer part with the exponent 0
and decodes it as the integer part. -/
theorem binary64_round_trip_low (L : double → double) (v : ℚ) (E : Int)
    (hL : L (double.finite v) = double.finite ((E : Int) : ℚ))
    (hE0 : -32768 ≤ E) (hE8 : E ≤ 8) (h1 : 1 ≤ v) (h9 : v < 1000000000) :
    wapi_float2freq (ieee_fp L) (double.finite v) = some { m := ⌊v⌋, e := 0 }
      ∧ wapi_freq2float (ieee_fp L) { m := ⌊v⌋, e := 0 } = double.finite ((⌊v⌋ : Int) : ℚ) := by
  have hv : 0 < v := lt_of_lt_of_le zero_lt_one h1
  have hm0 : (0 : Int) < ⌊v⌋ := Int.floor_pos.mpr h1
  have hm9 : ⌊v⌋ < (1000000000 : Int) := by
    apply Int.floor_lt.mpr
    push_cast
    exact h9
  exact ⟨float2freq_low (ieee_fp L) v E hL hE0 hE8 (le_of_lt hv) (by linarith),
    binary64_decode_int L ⌊v⌋ hm0 (by omega)⟩

/-- In binary64, for a double v whose logarithm comes out as `E > 8`: the encoding
exists and its decoded value is finite and within 1% of v. -/
theorem binary64_round_trip_high (L : double → double) (v : ℚ) (E : Int)
    (hL : L (double.finite v) = double.finite ((E : Int) : ℚ))
    (hE : 8 < E) (hmax : v < (2 : ℚ) ^ (1024 : Nat))
    (hlo : (10 : ℚ) ^ E * (1 - 1 / 10000000000) ≤ v) (hhi : v < (10 : ℚ) ^ (E + 1)) :
    ∃ (f : iw_freq) (d : ℚ), wapi_float2freq (ieee_fp L) (double.finite v) = some f
      ∧ wapi_freq2float (ieee_fp L) f = double.finite d
      ∧ |d - v| ≤ v / 100 := by
  have hE308 : E ≤ 308 := by
    by_contra hc
    have h309 : (309 : Int) ≤ E := by omega
    have hpow : (10 : ℚ) ^ (309 : Int) ≤ (10 : ℚ) ^ E :=
      zpow_le_zpow_right₀ (by norm_num) h309
    have e : (2 : ℚ) ^ (1024 : Nat) < (10 : ℚ) ^ (309 : Int) * (1 - 1 / 10000000000) := by
      norm_num
    nlinarith
  have hT : 0 < (10 : ℚ) ^ (E - 6) := by positivity
  have hT' : 0 < (10 : ℚ) ^ (E - 8) := by positivity
  have e6 : (10 : ℚ) ^ E = (10 : ℚ) ^ (E - 6) * 1000000 := by
    have e1 : E = (E - 6) + (6 : Int) := by ring
    conv_lhs => rw [e1, zpow_add₀ (by norm_num : (10 : ℚ) ≠ 0)]
    norm_num
  have e7 : (10 : ℚ) ^ (E + 1) = (10 : ℚ) ^ (E - 6) * 10000000 := by
    have e1 : E + 1 = (E - 6) + (7 : Int) := by ring
    rw [e1, zpow_add₀ (by norm_num : (10 : ℚ) ≠ 0)]
    norm_num
  have e8 : (10 : ℚ) ^ (E - 6) = 100 * (10 : ℚ) ^ (E - 8) := by
    have e1 : E - 6 = (2 : Int) + (E - 8) := by ring
    rw [e1, zpow_add₀ (by norm_num : (10 : ℚ) ≠ 0)]
    norm_num
  have hv : 0 < v := lt_of_lt_of_le (by positivity) hlo
  obtain ⟨q, hq, hacc⟩ := binary64_quotient L v E hE hmax hlo hhi
  obtain ⟨ha1, ha2⟩ := abs_le.mp hacc
  have hxT : v / (10 : ℚ) ^ (E - 6) * (10 : ℚ) ^ (E - 6) = v :=
    div_mul_cancel₀ v (ne_of_gt hT)
  have hx_lo : (1000000 : ℚ) * (1 - 1 / 10000000000) ≤ v / (10 : ℚ) ^ (E - 6) := by
    rw [le_div_iff₀ hT]
    rw [e6] at hlo
    linarith
  have hx_hi : v / (10 : ℚ) ^ (E - 6) < 10000000 := by
    rw [div_lt_iff₀ hT]
    rw [e7] at hhi
    linarith
  have hq_lo : (999999 : ℚ) ≤ q := by linarith
  have hq_hi : q < 10000001 := by linarith
  have hfl_le := Int.floor_le q
  have hfl_lt := Int.lt_floor_add_one q
  have hfl0 : (999999 : ℚ) ≤ ((⌊q⌋ : Int) : ℚ) := by
    have h : (999999 : Int) ≤ ⌊q⌋ := by
      apply Int.le_floor.mpr
      push_cast
      exact hq_lo
    exact_mod_cast h
  have hf := float2freq_high (ieee_fp L) v q E hL hE (by omega) hq (by linarith) (by linarith)
  have hT1 : (1 : ℚ) ≤ (10 : ℚ) ^ (E - 8) := by
    have h := zpow_le_zpow_right₀ (by norm_num : (1 : ℚ) ≤ 10) (by omega : (0 : Int) ≤ E - 8)
    simpa using h
  have hT2 : (10 : ℚ) ^ (E - 8) < (2 : ℚ) ^ (1024 : Nat) - (2 : ℚ) ^ (970 : Nat) := by
    have h := zpow_le_zpow_right₀ (by norm_num : (1 : ℚ) ≤ 10) (by omega : E - 8 ≤ 300)
    have e : (10 : ℚ) ^ (300 : Int) < (2 : ℚ) ^ (1024 : Nat) - (2 : ℚ) ^ (970 : Nat) := by
      norm_num
    exact lt_of_le_of_lt h e
  obtain ⟨p, hp, hpn⟩ := round_double_near ((10 : ℚ) ^ (E - 8)) hT1 hT2
  obtain ⟨hp1, hp2⟩ := abs_le.mp hpn
  have hd : (10 : ℚ) ^ (E - 8) / 2 ^ (53 : Nat) ≤ (10 : ℚ) ^ (E - 8) / 1000000000000000 := by
    apply div_le_div_of_nonneg_left (le_of_lt hT') (by norm_num) (by norm_num)
  have hp_lo : (10 : ℚ) ^ (E - 6) * (1 - 1 / 1000000000000000) ≤ 100 * p := by
    rw [e8]; linarith
  have hp_hi : 100 * p ≤ (10 : ℚ) ^ (E - 6) * (1 + 1 / 1000000000000000) := by
    rw [e8]; linarith
  have hz_eq : (((⌊q⌋ * 100 : Int)) : ℚ) * p = ((⌊q⌋ : Int) : ℚ) * (100 * p) := by
    push_cast; ring
  have hfl_nonneg : (0 : ℚ) ≤ ((⌊q⌋ : Int) : ℚ) := by linarith
  have hz_hi : (((⌊q⌋ * 100 : Int)) : ℚ) * p
      ≤ ((⌊q⌋ : Int) : ℚ) * (10 : ℚ) ^ (E - 6) * (1 + 1 / 1000000000000000) := by
    rw [hz_eq, mul_assoc]
    exact mul_le_mul_of_nonneg_left hp_hi hfl_nonneg
  have hz_lo : ((⌊q⌋ : Int) : ℚ) * (10 : ℚ) ^ (E - 6) * (1 - 1 / 1000000000000000)
      ≤ (((⌊q⌋ * 100 : Int)) : ℚ) * p := by
    rw [hz_eq, mul_assoc]
    exact mul_le_mul_of_nonneg_left hp_lo hfl_nonneg
  have hb_hi : ((⌊q⌋ : Int) : ℚ) * (10 : ℚ) ^ (E - 6) ≤ q * (10 : ℚ) ^ (E - 6) :=
    mul_le_mul_of_nonneg_right hfl_le (le_of_lt hT)
  have hb_lo : (q - 1) * (10 : ℚ) ^ (E - 6) ≤ ((⌊q⌋ : Int) : ℚ) * (10 : ℚ) ^ (E - 6) :=
    mul_le_mul_of_nonneg_right (by linarith) (le_of_lt hT)
  have ha_hi : q * (10 : ℚ) ^ (E - 6) ≤ v * (1 + 1 / 10000000000) := by
    have h : q * (10 : ℚ) ^ (E - 6)
        ≤ (v / (10 : ℚ) ^ (E - 6) + v / (10 : ℚ) ^ (E - 6) / 10000000000)
            * (10 : ℚ) ^ (E - 6) :=
      mul_le_mul_of_nonneg_right (by linarith) (le_of_lt hT)
    have e : (v / (10 : ℚ) ^ (E - 6) + v / (10 : ℚ) ^ (E - 6) / 10000000000)
        * (10 : ℚ) ^ (E - 6)
        = v / (10 : ℚ) ^ (E - 6) * (10 : ℚ) ^ (E - 6) * (1 + 1 / 10000000000) := by ring
    rw [e, hxT] at h
    exact h
  have ha_lo : v * (1 - 1 / 10000000000) ≤ q * (10 : ℚ) ^ (E - 6) := by
    have h : (v / (10 : ℚ) ^ (E - 6) - v / (10 : ℚ) ^ (E - 6) / 10000000000)
            * (10 : ℚ) ^ (E - 6) ≤ q * (10 : ℚ) ^ (E - 6) :=
      mul_le_mul_of_nonneg_right (by linarith) (le_of_lt hT)
    have e : (v / (10 : ℚ) ^ (E - 6) - v / (10 : ℚ) ^ (E - 6) / 10000000000)
        * (10 : ℚ) ^ (E - 6)
        = v / (10 : ℚ) ^ (E - 6) * (10 : ℚ) ^ (E - 6) * (1 - 1 / 10000000000) := by ring
    rw [e, hxT] at h
    exact h
  have hTv : (10 : ℚ) ^ (E - 6) * 999999 ≤ v := by
    have h : (999999 : ℚ) * (10 : ℚ) ^ (E - 6)
        ≤ v / (10 : ℚ) ^ (E - 6) * (10 : ℚ) ^ (E - 6) :=
      mul_le_mul_of_nonneg_right (by linarith) (le_of_lt hT)
    rw [hxT] at h
    linarith
  have hz1 : (1 : ℚ) ≤ (((⌊q⌋ * 100 : Int)) : ℚ) * p := by
    have hb1 : (999999 : ℚ) * (10 : ℚ) ^ (E - 6) ≤ ((⌊q⌋ : Int) : ℚ) * (10 : ℚ) ^ (E - 6) :=
      mul_le_mul_of_nonneg_right hfl0 (le_of_lt hT)
    have hT6 : (1 : ℚ) ≤ (10 : ℚ) ^ (E - 6) := by rw [e8]; linarith
    linarith
  have hz2 : (((⌊q⌋ * 100 : Int)) : ℚ) * p
      < (2 : ℚ) ^ (1024 : Nat) - (2 : ℚ) ^ (970 : Nat) := by
    by_cases hcase : v < 17976 * (10 : ℚ) ^ (304 : Nat)
    · have e : (17976 * (10 : ℚ) ^ (304 : Nat)) * (1 + 1 / 1000000000)
          < (2 : ℚ) ^ (1024 : Nat) - (2 : ℚ) ^ (970 : Nat) := by norm_num
      linarith
    · have hv308 : (10 : ℚ) ^ (308 : Nat) ≤ v := by
        have e : (10 : ℚ) ^ (308 : Nat) ≤ 17976 * (10 : ℚ) ^ (304 : Nat) := by norm_num
        linarith [not_lt.mp hcase]
      have hE308b : (308 : Int) ≤ E := by
        have h := le_log10_of_pow_le v hv 308 hv308
        have h2 : Int.log 10 v < E + 1 :=
          (Int.lt_zpow_iff_log_lt (by norm_num) hv).mp (by exact_mod_cast hhi)
        omega
      have hEeq : E = 308 := by omega
      subst hEeq
      have e302 : (10 : ℚ) ^ ((308 : Int) - 6) = (10 : ℚ) ^ (302 : Nat) := by norm_num
      rw [e302] at hx_hi ha2 hz_hi hxT
      have hxmax : v / (10 : ℚ) ^ (302 : Nat) < 1797693135 / 1000 := by
        rw [div_lt_iff₀ (by positivity)]
        have e : (2 : ℚ) ^ (1024 : Nat) < 1797693135 / 1000 * (10 : ℚ) ^ (302 : Nat) := by
          norm_num
        linarith
      have hqmax : q < 1797694 := by linarith
      have hflmax : ((⌊q⌋ : Int) : ℚ) ≤ 1797693 := by
        have h : ⌊q⌋ < (1797694 : Int) := by
          apply Int.floor_lt.mpr
          push_cast
          exact hqmax
        have h2 : ⌊q⌋ ≤ (1797693 : Int) := by omega
        exact_mod_cast h2
      have hb : ((⌊q⌋ : Int) : ℚ) * (10 : ℚ) ^ (302 : Nat)
          ≤ 1797693 * (10 : ℚ) ^ (302 : Nat) :=
        mul_le_mul_of_nonneg_right hflmax (by positivity)
      have e : (1797693 * (10 : ℚ) ^ (302 : Nat)) * (1 + 1 / 1000000000000000)
          < (2 : ℚ) ^ (1024 : Nat) - (2 : ℚ) ^ (970 : Nat) := by norm_num
      linarith
  obtain ⟨d, hdr, hdn⟩ := round_double_near _ hz1 hz2
  obtain ⟨hd1, hd2⟩ := abs_le.mp hdn
  have hd3 : (((⌊q⌋ * 100 : Int)) : ℚ) * p / 2 ^ (53 : Nat)
      ≤ (((⌊q⌋ * 100 : Int)) : ℚ) * p / 1000000000000000 := by
    apply div_le_div_of_nonneg_left (by linarith) (by norm_num) (by norm_num)
  refine ⟨{ m := ⌊q⌋ * 100, e := E - 8 }, d, hf, ?_, ?_⟩
  · rw [freq2float_eq]
    show ieee_mul (double.finite (((⌊q⌋ * 100 : Int)) : ℚ)) (round_double ((10 : ℚ) ^ (E - 8)))
      = double.finite d
    rw [hp]
    exact hdr
  · rw [abs_le]
    constructor <;> linarith

/-- A value of at least 1 below `10^(E+1)` has `E >= 0`. -/
theorem exponent_nonneg (v : ℚ) (E : Int) (h1 : 1 ≤ v) (hhi : v < (10 : ℚ) ^ (E + 1)) :
    0 ≤ E := by
  have hv : 0 < v := lt_of_lt_of_le zero_lt_one h1
  have hl0 : ((0 : Nat) : Int) ≤ Int.log 10 v :=
    le_log10_of_pow_le v hv 0 (by simpa using h1)
  have hlE : Int.log 10 v < E + 1 :=
    (Int.lt_zpow_iff_log_lt (by norm_num) hv).mp (by exact_mod_cast hhi)
  omega

/-- A value below `10^9 * (1 - 10^-10)` that is at least `10^E * (1 - 10^-10)`
has `E <= 8`. -/
theorem exponent_le_8 (v : ℚ) (E : Int)
    (hlo : (10 : ℚ) ^ E * (1 - 1 / 10000000000) ≤ v)
    (h9 : v < (10 : ℚ) ^ 9 * (1 - 1 / 10000000000)) : E ≤ 8 := by
  by_contra hc
  have hE9 : (9 : Int) ≤ E := by omega
  have hpow : (10 : ℚ) ^ (9 : Int) ≤ (10 : ℚ) ^ E :=
    zpow_le_zpow_right₀ (by norm_num) hE9
  have e9 : (10 : ℚ) ^ (9 : Int) = (10 : ℚ) ^ 9 := by norm_num
  rw [e9] at hpow
  nlinarith

/-- C8 (frequency round trip, `wapi_float2freq` as encoder and `wapi_freq2float` as
decoder).  Taken in exact arithmetic: for every v with 1 <= v < 10^8 the
decoded value of the encoding of v is floor(v), hence v itself when v is a
whole number; for every v >= 10^8 in the range of `double` (every finite
double is below 2^1024) the encoding exists and its decoded value differs from
v by at most 1% of v.  Both hold as well in binary64 arithmetic rounded to
nearest, whenever `floor(log10(v))` comes out as `E` with
`10^E * (1 - 10^-10) <= v < 10^(E+1)`: the decimal exponent of v, or one more
just below a power of ten. -/
theorem freq_round_trip (v : ℚ) :
    (1 ≤ v → v < (10 : ℚ) ^ 8 →
        ∃ f, wapi_float2freq exact_fp (double.finite v) = some f
          ∧ wapi_freq2float exact_fp f = double.finite (⌊v⌋ : ℚ)
          ∧ (v = (⌊v⌋ : ℚ) → wapi_freq2float exact_fp f = double.finite v))
      ∧ ((10 : ℚ) ^ 8 ≤ v → v < (2 : ℚ) ^ 1024 →
        ∃ f d, wapi_float2freq exact_fp (double.finite v) = some f
          ∧ wapi_freq2float exact_fp f = double.finite d
          ∧ |d - v| ≤ v / 100)
      ∧ (∀ (L : double → double) (E : Int),
          L (double.finite v) = double.finite ((E : Int) : ℚ) →
          (10 : ℚ) ^ E * (1 - 1 / 10000000000) ≤ v → v < (10 : ℚ) ^ (E + 1) →
            (1 ≤ v → v < (10 : ℚ) ^ 8 →
              ∃ f, wapi_float2freq (ieee_fp L) (double.finite v) = some f
                ∧ wapi_freq2float (ieee_fp L) f = double.finite (⌊v⌋ : ℚ)
                ∧ (v = (⌊v⌋ : ℚ) → wapi_freq2float (ieee_fp L) f = double.finite v))
            ∧ ((10 : ℚ) ^ 8 ≤ v → v < (2 : ℚ) ^ 1024 →
              ∃ f d, wapi_float2freq (ieee_fp L) (double.finite v) = some f
                ∧ wapi_freq2float (ieee_fp L) f = double.finite d
                ∧ |d - v| ≤ v / 100)) := by
  have hdec : wapi_freq2float exact_fp { m := ⌊v⌋, e := 0 } = double.finite (⌊v⌋ : ℚ) := by
    rw [exact_freq2float]
    simp
  have hfloor_near : (100000000 : ℚ) ≤ v → |((⌊v⌋ : Int) : ℚ) - v| ≤ v / 100 := by
    intro h8n
    rw [abs_le]
    have hfl := Int.floor_le v
    have hlt := Int.lt_floor_add_one v
    constructor <;> linarith
  have e8 : (10 : ℚ) ^ 8 = 100000000 := by norm_num
  refine ⟨?_, ?_, ?_⟩
  · intro h1 h8
    have h9 : v < (10 : ℚ) ^ 9 := lt_trans h8 (by norm_num)
    refine ⟨_, float2freq_small v h1 h9, hdec, ?_⟩
    intro hw
    rw [hdec, ← hw]
  · intro h8 hmax
    have hv : 0 < v := lt_of_lt_of_le (by positivity) h8
    by_cases h9 : v < (10 : ℚ) ^ 9
    · have h1 : 1 ≤ v := le_trans (by norm_num) h8
      exact ⟨_, _, float2freq_small v h1 h9, hdec, hfloor_near (by rw [← e8]; exact h8)⟩
    · have hfit : Int.log 10 v ≤ 32767 := by
        have h := log10_of_double_range v hv hmax
        omega
      obtain ⟨hf, hd, hle, hlt, hbig⟩ := float2freq_large v (not_lt.mp h9) hfit
      refine ⟨_, _, hf, hd, ?_⟩
      have hP : 0 < (10 : ℚ) ^ (Int.log 10 v - 6) := by positivity
      rw [abs_le]
      constructor <;> linarith
  · intro L E hL hlo hhi
    constructor
    · intro h1 h8
      have hE0 := exponent_nonneg v E h1 hhi
      have hE8 := exponent_le_8 v E hlo (lt_trans h8 (by norm_num))
      obtain ⟨hf, hd⟩ := binary64_round_trip_low L v E hL (by omega) hE8 h1
        (lt_trans h8 (by norm_num))
      refine ⟨_, hf, hd, ?_⟩
      intro hw
      rw [hd, ← hw]
    · intro h8 hmax
      have h1 : 1 ≤ v := le_trans (by norm_num) h8
      have hE0 := exponent_nonneg v E h1 hhi
      by_cases hE8 : E ≤ 8
      · have hpow : (10 : ℚ) ^ (E + 1) ≤ (10 : ℚ) ^ (9 : Int) :=
          zpow_le_zpow_right₀ (by norm_num) (by omega)
        have e9 : (10 : ℚ) ^ (9 : Int) = 1000000000 := by norm_num
        rw [e9] at hpow
        obtain ⟨hf, hd⟩ := binary64_round_trip_low L v E hL (by omega) hE8 h1
          (lt_of_lt_of_le hhi hpow)
        exact ⟨_, _, hf, hd, hfloor_near (by rw [← e8]; exact h8)⟩
      · exact binary64_round_trip_high L v E hL (by omega) hmax hlo hhi

/-- The `floor(log10(v))` of the examples at 2412000000 is 9. -/
theorem rounded_log10_channel_1 :
    rounded_floor_log10 (double.finite 2412000000) = double.finite ((9 : Int) : ℚ) := by
  have hl : Int.log 10 (2412000000 : ℚ) = 9 :=
    int_log_eq 10 (by norm_num) _ (by norm_num) 9 (by norm_num) (by norm_num)
  have hv : (0 : ℚ) < 2412000000 := by norm_num
  simp only [rounded_floor_log10, if_pos hv, hl]
  norm_num

/-- Witness of C8.  In exact arithmetic 5000 Hz is encoded and decoded exactly,
2.412 GHz within 1%, and so is the largest finite double, (2^53 - 1) * 2^971.
In binary64, with the `floor(log10(v))` of the examples, 2.412 GHz is encoded
and decoded within 1%. -/
theorem freq_round_trip_witness :
    (∃ f, wapi_float2freq exact_fp (double.finite 5000) = some f
        ∧ wapi_freq2float exact_fp f = double.finite 5000)
      ∧ (∃ f d, wapi_float2freq exact_fp (double.finite 2412000000) = some f
          ∧ wapi_freq2float exact_fp f = double.finite d
          ∧ |d - 2412000000| ≤ 2412000000 / 100)
      ∧ (∃ f d, wapi_float2freq exact_fp
            (double.finite (((2 : ℚ) ^ 53 - 1) * (2 : ℚ) ^ 971)) = some f
          ∧ wapi_freq2float exact_fp f = double.finite d
          ∧ |d - ((2 : ℚ) ^ 53 - 1) * (2 : ℚ) ^ 971| ≤ ((2 : ℚ) ^ 53 - 1) * (2 : ℚ) ^ 971 / 100)
      ∧ (∃ f d, wapi_float2freq (ieee_fp rounded_floor_log10) (double.finite 2412000000)
            = some f
          ∧ wapi_freq2float (ieee_fp rounded_floor_log10) f = double.finite d
          ∧ |d - 2412000000| ≤ 2412000000 / 100) := by
  refine ⟨?_, ?_, ?_, ?_⟩
  · obtain ⟨f, hf, _, hw⟩ := (freq_round_trip 5000).1 (by norm_num) (by norm_num)
    exact ⟨f, hf, hw (by norm_num)⟩
  · exact (freq_round_trip 2412000000).2.1 (by norm_num) (by norm_num)
  · exact (freq_round_trip (((2 : ℚ) ^ 53 - 1) * (2 : ℚ) ^ 971)).2.1 (by norm_num)
      (by norm_num)
  · exact ((freq_round_trip 2412000000).2.2 rounded_floor_log10 9 rounded_log10_channel_1
      (by norm_num) (by norm_num)).2 (by norm_num) (by norm_num)

/-! ## Events that the aggregation does not know -/

/-- C12 (skip on unknown).  For every event whose operation code is none of
access-point-address, frequency, mode, network-name or bitrate, for every list
(the empty list included) and whatever the allocator would answer,
`wapi_scan_event` returns 0 and leaves the list, with every record in it, as it
was. -/
theorem skip_on_unknown (fp : fp_ops) (MAX : Nat) (b : Bool) (event : iw_event) (list : wapi_list_t)
    (h_ap : event.cmd ≠ iw_cmd.SIOCGIWAP) (h_freq : event.cmd ≠ iw_cmd.SIOCGIWFREQ)
    (h_mode : event.cmd ≠ iw_cmd.SIOCGIWMODE) (h_essid : event.cmd ≠ iw_cmd.SIOCGIWESSID)
    (h_rate : event.cmd ≠ iw_cmd.SIOCGIWRATE) :
    wapi_scan_event fp MAX b event list = Exec.val (0, list) := by
  cases hc : event.cmd with
  | SIOCGIWAP => exact absurd hc h_ap
  | SIOCGIWFREQ => exact absurd hc h_freq
  | SIOCGIWMODE => exact absurd hc h_mode
  | SIOCGIWESSID => exact absurd hc h_essid
  | SIOCGIWRATE => exact absurd hc h_rate
  | other code => simp only [wapi_scan_event, hc]

/-- Witness of C12: an event of unknown code on the empty list and on a list of
one record. -/
theorem skip_on_unknown_witness :
    wapi_scan_event host_fp 32 true (ev_other 35585) [] = Exec.val (0, [])
      ∧ wapi_scan_event host_fp 32 true (ev_other 35585) [new_cell 32 (ev_ap [1, 2, 3, 4, 5, 6])]
        = Exec.val (0, [new_cell 32 (ev_ap [1, 2, 3, 4, 5, 6])]) :=
  ⟨skip_on_unknown host_fp 32 true (ev_other 35585) [] (by simp [ev_other]) (by simp [ev_other])
      (by simp [ev_other]) (by simp [ev_other]) (by simp [ev_other]),
    skip_on_unknown host_fp 32 true (ev_other 35585) [new_cell 32 (ev_ap [1, 2, 3, 4, 5, 6])]
      (by simp [ev_other]) (by simp [ev_other]) (by simp [ev_other]) (by simp [ev_other])
      (by simp [ev_other])⟩

/-! ## Network name: clear first -/

/-- C13 (network-name clear first).  For every network-name event and every
prior content of the current record: when the event has no name (`NULL`
pointer) or a name of length 0 the name field becomes all zeros; when it has a
name of `L <= WAPI_ESSID_MAX_SIZE` readable bytes the name field becomes these
`L` bytes followed by zeros, `WAPI_ESSID_MAX_SIZE + 1` bytes in all.  In both
cases 0 is returned, the name is marked present, the on/off flag is ON exactly
when the kernel flags are non-zero, and nothing else changes.  The result is
the same whatever name the record stored before. -/
theorem essid_clear_first (fp : fp_ops) (MAX : Nat) (b : Bool) (event : iw_event)
    (info : wapi_scan_info_t) (next : wapi_list_t)
    (hc : event.cmd = iw_cmd.SIOCGIWESSID) :
    (event.u.essid.pointer = none →
        wapi_scan_event fp MAX b event (info :: next)
          = Exec.val (0, { info with
              has_essid := true
              essid_flag := if event.u.essid.flags ≠ 0 then WAPI_ESSID_ON else WAPI_ESSID_OFF
              essid := List.replicate (MAX + 1) 0 } :: next))
      ∧ (∀ bytes : List Nat, event.u.essid.pointer = some bytes →
          event.u.essid.length ≤ MAX → event.u.essid.length ≤ bytes.length →
          wapi_scan_event fp MAX b event (info :: next)
              = Exec.val (0, { info with
                  has_essid := true
                  essid_flag := if event.u.essid.flags ≠ 0 then WAPI_ESSID_ON else WAPI_ESSID_OFF
                  essid := bytes.take event.u.essid.length
                    ++ List.replicate (MAX + 1 - event.u.essid.length) 0 } :: next)
            ∧ (bytes.take event.u.essid.length
                ++ List.replicate (MAX + 1 - event.u.essid.length) 0).length = MAX + 1
            ∧ (event.u.essid.length = 0 →
                bytes.take event.u.essid.length
                    ++ List.replicate (MAX + 1 - event.u.essid.length) 0
                  = List.replicate (MAX + 1) 0))
      ∧ (((if event.u.essid.flags ≠ 0 then WAPI_ESSID_ON else WAPI_ESSID_OFF) = WAPI_ESSID_ON)
          ↔ event.u.essid.flags ≠ 0)
      ∧ (∀ stored : List Nat,
          wapi_scan_event fp MAX b event ({ info with essid := stored } :: next)
            = wapi_scan_event fp MAX b event (info :: next)) := by
  refine ⟨?_, ?_, ?_, ?_⟩
  · intro hp
    simp only [wapi_scan_event, hc, hp, iwreq_data.data]
  · intro bytes hp hl hr
    refine ⟨?_, ?_, ?_⟩
    · by_cases h0 : event.u.essid.length = 0
      · simp [wapi_scan_event, hc, hp, iwreq_data.data, h0]
      · simp only [wapi_scan_event, hc, hp, iwreq_data.data, ne_eq, h0, not_false_eq_true,
          if_true, memcpy_cleared MAX _ bytes hl hr]
    · simp only [List.length_append, List.length_take, List.length_replicate]
      omega
    · intro h0
      simp [h0]
  · by_cases hf : event.u.essid.flags = 0
    · simp [hf, WAPI_ESSID_ON, WAPI_ESSID_OFF]
    · simp [hf]
  · intro stored
    simp only [wapi_scan_event, hc]

/-- Witness of C13: the name "ab" (bytes 97, 98) on a record that stored another
name, with the maximum name length 4. -/
theorem essid_clear_first_witness :
    wapi_scan_event host_fp 4 true (ev_essid [97, 98] 2 1)
        [{ new_cell 4 (ev_ap [1, 2, 3, 4, 5, 6]) with essid := [120, 121, 122, 119, 0] }]
      = Exec.val (0, [{ new_cell 4 (ev_ap [1, 2, 3, 4, 5, 6]) with
          has_essid := true, essid_flag := WAPI_ESSID_ON, essid := [97, 98, 0, 0, 0] }]) :=
  ((essid_clear_first host_fp 4 true (ev_essid [97, 98] 2 1)
      { new_cell 4 (ev_ap [1, 2, 3, 4, 5, 6]) with essid := [120, 121, 122, 119, 0] } []
      rfl).2.1 [97, 98] rfl (by decide) (by decide)).1

/-! ## Frame of a single scan event -/

/-- C14, as stated, fails: on a list of one record, an address event whose
`malloc` returns `NULL` returns -1 and prepends nothing (the length does not
grow); and, with the maximum name length 32, a network-name event that declares
40 bytes has no defined result, the copy leaving the name field. -/
theorem scan_event_frame_counterexample :
    wapi_scan_event host_fp 32 false (ev_ap [1, 2, 3, 4, 5, 6]) [new_cell 32 (ev_ap [9, 9, 9, 9, 9, 9])]
        = Exec.val (-1, [new_cell 32 (ev_ap [9, 9, 9, 9, 9, 9])])
      ∧ wapi_scan_event host_fp 32 true (ev_essid (List.replicate 40 65) 40 1)
          [new_cell 32 (ev_ap [9, 9, 9, 9, 9, 9])]
        = Exec.undefined := by
  constructor
  · rfl
  · simp [wapi_scan_event, ev_essid, zero_data, memcpy, iwreq_data.data]

/-- C14, amended (frame of a single scan event).  On every non-empty list,
`wapi_scan_event` leaves every record other than the head, and their order, as
they were.  An address event whose allocation succeeds returns 0 and only
prepends one new record; when the allocation fails it returns -1 and changes
nothing.  A frequency event sets `has_freq` and `freq` of the head; an accepted
mode event `mode` and `has_mode`, a rejected one changes nothing and returns
-1; a network-name event with no name or a name of at most
`WAPI_ESSID_MAX_SIZE` readable bytes sets `has_essid`, `essid_flag` and `essid`
(a field of `WAPI_ESSID_MAX_SIZE + 1` bytes); a bitrate event sets
`has_bitrate` and `bitrate`; an event of any other code changes nothing.  In
all these cases the length of the list and the address of the head are kept. -/
theorem scan_event_frame (fp : fp_ops) (MAX : Nat) (b : Bool) (event : iw_event)
    (info : wapi_scan_info_t) (next : wapi_list_t) :
    (event.cmd = iw_cmd.SIOCGIWAP →
        wapi_scan_event fp MAX true event (info :: next)
            = Exec.val (0, new_cell MAX event :: info :: next)
          ∧ wapi_scan_event fp MAX false event (info :: next) = Exec.val (-1, info :: next))
      ∧ (event.cmd = iw_cmd.SIOCGIWFREQ →
          wapi_scan_event fp MAX b event (info :: next)
            = Exec.val (0, { info with
                has_freq := true, freq := wapi_freq2float fp event.u.freq } :: next))
      ∧ (event.cmd = iw_cmd.SIOCGIWMODE →
          ((0 ≤ event.u.mode ∧ event.u.mode ≤ 6) →
            wapi_scan_event fp MAX b event (info :: next)
              = Exec.val (0, { info with mode := event.u.mode, has_mode := true } :: next))
          ∧ (¬ (0 ≤ event.u.mode ∧ event.u.mode ≤ 6) →
            wapi_scan_event fp MAX b event (info :: next) = Exec.val (-1, info :: next)))
      ∧ (event.cmd = iw_cmd.SIOCGIWESSID → valid_event MAX event →
          ∃ (flag : Int) (name : List Nat), name.length = MAX + 1
            ∧ wapi_scan_event fp MAX b event (info :: next)
              = Exec.val (0, { info with
                  has_essid := true, essid_flag := flag, essid := name } :: next))
      ∧ (event.cmd = iw_cmd.SIOCGIWRATE →
          ∃ rate : Int,
            wapi_scan_event fp MAX b event (info :: next)
              = Exec.val (0, { info with has_bitrate := true, bitrate := rate } :: next))
      ∧ (∀ code : Nat, event.cmd = iw_cmd.other code →
          wapi_scan_event fp MAX b event (info :: next) = Exec.val (0, info :: next)) := by
  refine ⟨?_, ?_, ?_, ?_, ?_, ?_⟩
  · intro hc
    constructor
    · exact scan_event_ap fp MAX event (info :: next) hc
    · simp [wapi_scan_event, hc]
  · intro hc
    simp only [wapi_scan_event, hc]
  · intro hc
    constructor
    · rintro ⟨h0, h6⟩
      exact scan_event_mode_accept fp MAX b event info next hc h0 h6
    · intro hne
      exact scan_event_mode_reject fp MAX b event (info :: next) hc (by omega)
  · intro hc hv
    have hne : event.cmd ≠ iw_cmd.SIOCGIWAP := by rw [hc]; decide
    refine ⟨if event.u.essid.flags = 0 then WAPI_ESSID_OFF else WAPI_ESSID_ON,
      spec_name MAX event.u.essid, ?_, ?_⟩
    · simp only [valid_event, hc] at hv
      simp only [spec_name]
      cases hp : event.u.essid.pointer with
      | none => simp
      | some bytes =>
        simp only [hp] at hv
        simp only [List.length_append, List.length_take, List.length_replicate,
          min_eq_left hv.1]
        omega
    · rw [scan_event_eq_spec_apply fp MAX b event info next hne hv]
      simp only [spec_apply, hc]
  · intro hc
    by_cases hcond : info.has_bitrate = false ∨ event.u.bitrate.value > info.bitrate
    · exact ⟨event.u.bitrate.value, by simp only [wapi_scan_event, hc, if_pos hcond]⟩
    · refine ⟨info.bitrate, ?_⟩
      have hb : info.has_bitrate = true := by
        cases h : info.has_bitrate with
        | false => exact absurd (Or.inl h) hcond
        | true => rfl
      simp only [wapi_scan_event, hc, if_neg hcond]
      cases info
      simp_all
  · intro code hc
    simp only [wapi_scan_event, hc]

/-- Witness of the amended C14: a frequency event and an address event on a list
of two records. -/
theorem scan_event_frame_witness :
    wapi_scan_event host_fp 32 true (ev_freq 2412 6)
        [new_cell 32 (ev_ap [1, 2, 3, 4, 5, 6]), new_cell 32 (ev_ap [9, 9, 9, 9, 9, 9])]
      = Exec.val (0,
          [{ new_cell 32 (ev_ap [1, 2, 3, 4, 5, 6]) with
              has_freq := true, freq := wapi_freq2float host_fp { m := 2412, e := 6 } },
            new_cell 32 (ev_ap [9, 9, 9, 9, 9, 9])])
      ∧ wapi_scan_event host_fp 32 true (ev_ap [6, 5, 4, 3, 2, 1])
          [new_cell 32 (ev_ap [1, 2, 3, 4, 5, 6]), new_cell 32 (ev_ap [9, 9, 9, 9, 9, 9])]
        = Exec.val (0,
            [new_cell 32 (ev_ap [6, 5, 4, 3, 2, 1]), new_cell 32 (ev_ap [1, 2, 3, 4, 5, 6]),
              new_cell 32 (ev_ap [9, 9, 9, 9, 9, 9])]) :=
  ⟨(scan_event_frame host_fp 32 true (ev_freq 2412 6) (new_cell 32 (ev_ap [1, 2, 3, 4, 5, 6]))
      [new_cell 32 (ev_ap [9, 9, 9, 9, 9, 9])]).2.1 rfl,
    ((scan_event_frame host_fp 32 true (ev_ap [6, 5, 4, 3, 2, 1]) (new_cell 32 (ev_ap [1, 2, 3, 4, 5, 6]))
      [new_cell 32 (ev_ap [9, 9, 9, 9, 9, 9])]).1 rfl).1⟩

/-! ## Range of the encoded frequency -/

/-- The `floor(log10(v))` of the examples at a positive `v` with decimal exponent
`l`. -/
theorem host_floor_log10 (v : ℚ) (l : Int) (hv : 0 < v) (h1 : (10 : ℚ) ^ l ≤ v)
    (h2 : v < (10 : ℚ) ^ (l + 1)) :
    host_fp.floor_log10 (double.finite v)
      = if 8 ≤ l ∧ (10 : ℚ) ^ (l + 1) * (1 - 1 / 1000000000000000) ≤ v then
          double.finite (((l + 1 : Int)) : ℚ)
        else double.finite ((l : Int) : ℚ) := by
  have hl : Int.log 10 v = l :=
    int_log_eq 10 (by norm_num) v hv l (by exact_mod_cast h1) (by exact_mod_cast h2)
  show rounded_floor_log10 (double.finite v) = _
  simp only [rounded_floor_log10, if_pos hv, hl]

/-- In binary64 the logarithm of 10^15 - 1, a whole number below 2^53 whose
decimal exponent is 14, comes out as 15. -/
theorem host_log10_below_1e15 :
    host_fp.floor_log10 (double.finite ((10 : ℚ) ^ 15 - 1)) = double.finite ((15 : Int) : ℚ) := by
  rw [host_floor_log10 ((10 : ℚ) ^ 15 - 1) 14 (by norm_num) (by norm_num) (by norm_num)]
  norm_num

/-- In binary64 the quotient of 10^15 - 1 by `pow(10, 9)` is the double
8589934591999991 / 2^33, below 10^6. -/
theorem host_div_below_1e15 :
    host_fp.div (double.finite ((10 : ℚ) ^ 15 - 1)) (host_fp.pow10 ((15 : Int) - 6))
      = double.finite (((8589934591999991 : Int) : ℚ) * (2 : ℚ) ^ ((19 : Int) - 52)) := by
  have e : (15 : Int) - 6 = 9 := by norm_num
  rw [e, host_pow10_9, host_div_finite _ _ (by norm_num)]
  exact round_double_eq _ 19 8589934591999991 (by norm_num) (by norm_num) (by norm_num)
    (by norm_num) (by norm_num) (by norm_num) (by norm_num)

/-- The code in binary64 at 10^15 - 1: the mantissa is 99999900 and the exponent
7. -/
theorem host_float2freq_below_1e15 :
    wapi_float2freq host_fp (double.finite ((10 : ℚ) ^ 15 - 1))
      = some { m := 99999900, e := 7 } := by
  have h := float2freq_high host_fp ((10 : ℚ) ^ 15 - 1) _ 15 host_log10_below_1e15
    (by norm_num) (by norm_num) host_div_below_1e15 (by norm_num) (by norm_num)
  have hfl : ⌊((8589934591999991 : Int) : ℚ) * (2 : ℚ) ^ ((19 : Int) - 52)⌋ = 999999 := by
    rw [Int.floor_eq_iff]
    constructor <;> norm_num
  rw [hfl] at h
  exact h

/-- The code in binary64 at 10^9 - 2^-23, the double just below 10^9: the
logarithm rounds to 9, the quotient by 1000 rounds to a double below 10^6, and
the mantissa is 99999900 with the exponent 1. -/
theorem host_float2freq_below_1e9 :
    wapi_float2freq host_fp (double.finite ((10 : ℚ) ^ 9 - 1 / 2 ^ 23))
      = some { m := 99999900, e := 1 } := by
  have hL : host_fp.floor_log10 (double.finite ((10 : ℚ) ^ 9 - 1 / 2 ^ 23))
      = double.finite ((9 : Int) : ℚ) := by
    rw [host_floor_log10 ((10 : ℚ) ^ 9 - 1 / 2 ^ 23) 8 (by norm_num) (by norm_num)
      (by norm_num)]
    norm_num
  have hq : round_double (((10 : ℚ) ^ 9 - 1 / 2 ^ 23) / 1000)
      = double.finite (((8589934591999999 : Int) : ℚ) * (2 : ℚ) ^ ((19 : Int) - 52)) :=
    round_double_eq _ 19 8589934591999999 (by norm_num) (by norm_num) (by norm_num)
      (by norm_num) (by norm_num) (by norm_num) (by norm_num)
  have hdiv : host_fp.div (double.finite ((10 : ℚ) ^ 9 - 1 / 2 ^ 23))
        (host_fp.pow10 ((9 : Int) - 6))
      = double.finite (((8589934591999999 : Int) : ℚ) * (2 : ℚ) ^ ((19 : Int) - 52)) := by
    have e : (9 : Int) - 6 = 3 := by norm_num
    rw [e, host_pow10_3, host_div_finite _ _ (by norm_num)]
    exact hq
  have h := float2freq_high host_fp ((10 : ℚ) ^ 9 - 1 / 2 ^ 23) _ 9 hL (by norm_num)
    (by norm_num) hdiv (by norm_num) (by norm_num)
  have hfl : ⌊((8589934591999999 : Int) : ℚ) * (2 : ℚ) ^ ((19 : Int) - 52)⌋ = 999999 := by
    rw [Int.floor_eq_iff]
    constructor <;> norm_num
  rw [hfl] at h
  exact h

/-- C15, as stated, fails for the code, which takes `floor(log10(v))` and the
quotient in `double`.  At v = 10^15 - 1, whose decimal exponent is 14, the
logarithm rounds to 15: the mantissa is 99999900, below 10^8, and the exponent
7, not 14 - 8.  At v = 10^9 - 2^-23, the double just below 10^9, the
exponent is 1, not 0. -/
theorem float2freq_range_counterexample :
    (wapi_float2freq host_fp (double.finite ((10 : ℚ) ^ 15 - 1))
        = some { m := 99999900, e := 7 }
      ∧ (10 : ℚ) ^ 9 ≤ (10 : ℚ) ^ 15 - 1
      ∧ Int.log 10 ((10 : ℚ) ^ 15 - 1) = 14)
    ∧ (wapi_float2freq host_fp (double.finite ((10 : ℚ) ^ 9 - 1 / 2 ^ 23))
        = some { m := 99999900, e := 1 }
      ∧ (1 : ℚ) ≤ (10 : ℚ) ^ 9 - 1 / 2 ^ 23
      ∧ (10 : ℚ) ^ 9 - 1 / 2 ^ 23 < (10 : ℚ) ^ 9) :=
  ⟨⟨host_float2freq_below_1e15, by norm_num,
      int_log_eq 10 (by norm_num) _ (by norm_num) 14 (by norm_num) (by norm_num)⟩,
    ⟨host_float2freq_below_1e9, by norm_num, by norm_num⟩⟩

/-- C15, amended (range of the encoded frequency, in double arithmetic).  Let
v >= 1 be a double, let `E` be the value that `floor(log10(v))` comes out as,
where `10^E * (1 - 10^-10) <= v < 10^(E+1)` (so `E` is the decimal exponent of
v, or one more just below a power of ten) and `E` fits a signed 16 bit
integer, and for `E > 8` let the quotient `v / pow(10, E - 6)` come out within
a relative 10^-10 of its exact value.  Then `wapi_float2freq` produces an
exponent >= 0 and a mantissa with 0 < mantissa <= 10^9, which lies in the
range of a signed 32 bit integer.  When `E > 8`, which is so when v >= 10^9,
the mantissa is a multiple of 100 in [99999900, 10^9] and the exponent is
`E - 8`; when `E <= 8`, which is so when v < 10^9 * (1 - 10^-10), the exponent
is 0 and the mantissa is the integer part of v. -/
theorem float2freq_range (fp : fp_ops) (v : ℚ) (E : Int) (h1 : 1 ≤ v)
    (hL : fp.floor_log10 (double.finite v) = double.finite ((E : Int) : ℚ))
    (hlo : (10 : ℚ) ^ E * (1 - 1 / 10000000000) ≤ v)
    (hhi : v < (10 : ℚ) ^ (E + 1))
    (hfit : E ≤ 32767)
    (hdiv : 8 < E → ∃ q : ℚ,
      fp.div (double.finite v) (fp.pow10 (E - 6)) = double.finite q
        ∧ |q - v / (10 : ℚ) ^ (E - 6)| ≤ v / (10 : ℚ) ^ (E - 6) / 10000000000) :
    ∃ f : iw_freq, wapi_float2freq fp (double.finite v) = some f
      ∧ 0 ≤ f.e ∧ 0 < f.m ∧ f.m ≤ 1000000000
      ∧ (-2147483648 ≤ f.m ∧ f.m ≤ 2147483647)
      ∧ (Int.log 10 v ≤ E ∧ E ≤ Int.log 10 v + 1)
      ∧ ((10 : ℚ) ^ 9 ≤ v → 8 < E)
      ∧ (v < (10 : ℚ) ^ 9 * (1 - 1 / 10000000000) → E ≤ 8)
      ∧ (8 < E →
          (100 : Int) ∣ f.m ∧ 99999900 ≤ f.m ∧ f.m ≤ 1000000000 ∧ f.e = E - 8)
      ∧ (E ≤ 8 → f.e = 0 ∧ f.m = ⌊v⌋) := by
  have hv : 0 < v := lt_of_lt_of_le zero_lt_one h1
  have hl0 : ((0 : Nat) : Int) ≤ Int.log 10 v :=
    le_log10_of_pow_le v hv 0 (by simpa using h1)
  have hlE : Int.log 10 v < E + 1 :=
    (Int.lt_zpow_iff_log_lt (by norm_num) hv).mp (by exact_mod_cast hhi)
  have hEl : E - 1 ≤ Int.log 10 v := by
    apply (Int.zpow_le_iff_le_log (by norm_num) hv).mp
    have e : (10 : ℚ) ^ E = (10 : ℚ) ^ (E - 1) * 10 := by
      have e1 : E = (E - 1) + (1 : Int) := by ring
      conv_lhs => rw [e1, zpow_add₀ (by norm_num : (10 : ℚ) ≠ 0)]
      norm_num
    have hP : 0 < (10 : ℚ) ^ (E - 1) := by positivity
    rw [e] at hlo
    push_cast
    nlinarith
  have hE0 : 0 ≤ E := by omega
  have hrange : Int.log 10 v ≤ E ∧ E ≤ Int.log 10 v + 1 := ⟨by omega, by omega⟩
  have hbig : (10 : ℚ) ^ 9 ≤ v → 8 < E := by
    intro h9
    have h := le_log10_of_pow_le v hv 9 h9
    omega
  have hsmall : v < (10 : ℚ) ^ 9 * (1 - 1 / 10000000000) → E ≤ 8 := by
    intro h9
    by_contra hc
    have hE9 : (9 : Int) ≤ E := by omega
    have hpow : (10 : ℚ) ^ (9 : Int) ≤ (10 : ℚ) ^ E :=
      zpow_le_zpow_right₀ (by norm_num) hE9
    have e9 : (10 : ℚ) ^ (9 : Int) = (10 : ℚ) ^ 9 := by norm_num
    rw [e9] at hpow
    nlinarith
  by_cases h8 : E ≤ 8
  · have hpow : (10 : ℚ) ^ (E + 1) ≤ (10 : ℚ) ^ (9 : Int) :=
      zpow_le_zpow_right₀ (by norm_num) (by omega)
    have e9 : (10 : ℚ) ^ (9 : Int) = 1000000000 := by norm_num
    rw [e9] at hpow
    have hv9 : v < 1000000000 := lt_of_lt_of_le hhi hpow
    have hm0 : (0 : Int) < ⌊v⌋ := Int.floor_pos.mpr h1
    have hm9 : ⌊v⌋ < (1000000000 : Int) := by
      apply Int.floor_lt.mpr
      push_cast
      exact hv9
    refine ⟨{ m := ⌊v⌋, e := 0 },
      float2freq_low fp v E hL (by omega) h8 (le_of_lt hv) (by linarith),
      le_refl _, hm0, ?_, ⟨?_, ?_⟩, hrange, hbig, hsmall, ?_, ?_⟩
    · show ⌊v⌋ ≤ (1000000000 : Int)
      omega
    · show (-2147483648 : Int) ≤ ⌊v⌋
      omega
    · show ⌊v⌋ ≤ (2147483647 : Int)
      omega
    · intro h
      omega
    · intro _
      exact ⟨rfl, rfl⟩
  · have hE8 : 8 < E := by omega
    obtain ⟨q, hq, hacc⟩ := hdiv hE8
    have hP : 0 < (10 : ℚ) ^ (E - 6) := by positivity
    have e6 : (10 : ℚ) ^ E = (10 : ℚ) ^ (E - 6) * 1000000 := by
      have e1 : E = (E - 6) + (6 : Int) := by ring
      conv_lhs => rw [e1, zpow_add₀ (by norm_num : (10 : ℚ) ≠ 0)]
      norm_num
    have e7 : (10 : ℚ) ^ (E + 1) = (10 : ℚ) ^ (E - 6) * 10000000 := by
      have e1 : E + 1 = (E - 6) + (7 : Int) := by ring
      rw [e1, zpow_add₀ (by norm_num : (10 : ℚ) ≠ 0)]
      norm_num
    have hx_lo : (1000000 : ℚ) * (1 - 1 / 10000000000) ≤ v / (10 : ℚ) ^ (E - 6) := by
      rw [le_div_iff₀ hP]
      rw [e6] at hlo
      linarith
    have hx_hi : v / (10 : ℚ) ^ (E - 6) < 10000000 := by
      rw [div_lt_iff₀ hP]
      rw [e7] at hhi
      linarith
    obtain ⟨ha1, ha2⟩ := abs_le.mp hacc
    have hq_lo : (999999 : ℚ) ≤ q := by linarith
    have hq_hi : q < 10000001 := by linarith
    have hf_lo : (999999 : Int) ≤ ⌊q⌋ := by
      apply Int.le_floor.mpr
      push_cast
      exact hq_lo
    have hf_hi : ⌊q⌋ < (10000001 : Int) := by
      apply Int.floor_lt.mpr
      push_cast
      exact hq_hi
    refine ⟨{ m := ⌊q⌋ * 100, e := E - 8 },
      float2freq_high fp v q E hL hE8 hfit hq (by linarith) (by linarith),
      ?_, ?_, ?_, ⟨?_, ?_⟩, hrange, hbig, hsmall, ?_, ?_⟩
    · show (0 : Int) ≤ E - 8
      omega
    · show (0 : Int) < ⌊q⌋ * 100
      omega
    · show ⌊q⌋ * 100 ≤ (1000000000 : Int)
      omega
    · show (-2147483648 : Int) ≤ ⌊q⌋ * 100
      omega
    · show ⌊q⌋ * 100 ≤ (2147483647 : Int)
      omega
    · intro _
      refine ⟨Dvd.intro_left _ rfl, ?_, ?_, rfl⟩
      · show (99999900 : Int) ≤ ⌊q⌋ * 100
        omega
      · show ⌊q⌋ * 100 ≤ (1000000000 : Int)
        omega
    · intro h
      exact absurd h h8

/-- Witness of the amended C15, in binary64: at 10^15 - 1, where the logarithm
comes out as 15, and at 2.412 GHz, where it comes out as 9. -/
theorem float2freq_range_witness :
    (∃ f : iw_freq, wapi_float2freq host_fp (double.finite ((10 : ℚ) ^ 15 - 1)) = some f
      ∧ 0 ≤ f.e ∧ 0 < f.m ∧ f.m ≤ 1000000000
      ∧ (100 : Int) ∣ f.m ∧ 99999900 ≤ f.m ∧ f.e = 15 - 8)
    ∧ (∃ f : iw_freq, wapi_float2freq host_fp (double.finite 2412000000) = some f
      ∧ 0 ≤ f.e ∧ 0 < f.m ∧ f.m ≤ 1000000000
      ∧ (100 : Int) ∣ f.m ∧ 99999900 ≤ f.m ∧ f.e = 9 - 8) := by
  constructor
  · obtain ⟨f, hf, he, hm0, hm9, _, _, _, _, hbig, _⟩ :=
      float2freq_range host_fp ((10 : ℚ) ^ 15 - 1) 15 (by norm_num) host_log10_below_1e15
        (by norm_num) (by norm_num) (by norm_num)
        (fun _ => ⟨_, host_div_below_1e15, abs_le.mpr ⟨by norm_num, by norm_num⟩⟩)
    obtain ⟨hd, hm8, _, hexp⟩ := hbig (by norm_num)
    exact ⟨f, hf, he, hm0, hm9, hd, hm8, hexp⟩
  · obtain ⟨f, hf, he, hm0, hm9, _, _, _, _, hbig, _⟩ :=
      float2freq_range host_fp 2412000000 9 (by norm_num) rounded_log10_channel_1
        (by norm_num) (by norm_num) (by norm_num)
        (fun h => binary64_quotient rounded_floor_log10 2412000000 9 h (by norm_num)
          (by norm_num) (by norm_num))
    obtain ⟨hd, hm8, _, hexp⟩ := hbig (by norm_num)
    exact ⟨f, hf, he, hm0, hm9, hd, hm8, hexp⟩

/-! ## Event stream cursor safety -/

theorem read_bytes_congr (data data2 : List Nat) (e start n : Nat)
    (h : data2.take e = data.take e) (hb : start + n ≤ e) :
    read_bytes data2 start n = read_bytes data start n := by
  have key : ∀ l : List Nat, read_bytes (l.take e) start n = read_bytes l start n := by
    intro l
    simp only [read_bytes]
    rw [List.drop_take, List.take_take]
    congr 1
    omega
  rw [← key data2, ← key data, h]

/-- Every offset that a step of the decoder reads lies between the current offset
and the end offset. -/
theorem traced_reads_in_bounds (layout : Int → event_layout) (data : List Nat)
    (stream : iw_event_stream_s) (iwe : iw_event) (v : Int) :
    ∀ i ∈ (iw_extract_event_stream_traced layout data stream iwe v).reads,
      stream.current ≤ i ∧ i < stream.end_ := by
  intro i hi
  unfold iw_extract_event_stream_traced at hi
  by_cases h1 : stream.current ≥ stream.end_
  · simp [if_pos h1, traced.ret] at hi
  · by_cases h2 : stream.end_ - stream.current < (layout v).header_size
    · simp [if_neg h1, if_pos h2, traced.ret] at hi
    · by_cases h3 : (layout v).declared_length
          (read_bytes data stream.current (layout v).header_size)
            > stream.end_ - stream.current
      · simp only [if_neg h1, if_neg h2, traced.and_then, load, if_pos h3, traced.ret,
          List.append_nil, List.mem_range'_1] at hi
        omega
      · simp only [if_neg h1, if_neg h2, traced.and_then, load, if_neg h3, traced.ret,
          List.append_nil, List.mem_append, List.mem_range'_1] at hi
        omega

/-- A step of the decoder does not depend on the bytes at or beyond the end
offset. -/
theorem traced_congr (layout : Int → event_layout) (data data2 : List Nat)
    (stream : iw_event_stream_s) (iwe : iw_event) (v : Int)
    (h : data2.take stream.end_ = data.take stream.end_) :
    iw_extract_event_stream_traced layout data2 stream iwe v
      = iw_extract_event_stream_traced layout data stream iwe v := by
  unfold iw_extract_event_stream_traced
  by_cases h1 : stream.current ≥ stream.end_
  · simp only [if_pos h1]
  · by_cases h2 : stream.end_ - stream.current < (layout v).header_size
    · simp only [if_neg h1, if_pos h2]
    · have hh : read_bytes data2 stream.current (layout v).header_size
          = read_bytes data stream.current (layout v).header_size :=
        read_bytes_congr data data2 stream.end_ _ _ h (by omega)
      simp only [if_neg h1, if_neg h2, traced.and_then, load, hh]
      by_cases h3 : (layout v).declared_length
          (read_bytes data stream.current (layout v).header_size)
            > stream.end_ - stream.current
      · simp only [if_pos h3]
      · have hb : read_bytes data2 stream.current
            ((layout v).declared_length (read_bytes data stream.current (layout v).header_size))
            = read_bytes data stream.current
              ((layout v).declared_length
                (read_bytes data stream.current (layout v).header_size)) :=
          read_bytes_congr data data2 stream.end_ _ _ h (by omega)
        simp only [if_neg h3, hb]

/-- C11 (event-stream cursor safety, for the decoder of the specification).  Over
a cursor whose end offset is `len`, as `iw_event_stream_init(data, len)`
creates it, with a next event to decode (at least one byte remains): when
fewer bytes remain than an event header, or when the length that the header
declares exceeds the bytes remaining, `iw_event_stream_pop` fails (returns -1,
`MalformedStream`) and leaves the cursor and the event where they were; every
offset that it reads is below `len`, and its result is the same for every
buffer with the same first `len` bytes, whatever lies at and beyond offset
`len`.  The decoding loop of `wapi_scan_coll` ends in that turn with -1 and
the list as it was. -/
theorem cursor_safety (env : scan_env) (layout : Int → event_layout) (data : List Nat)
    (len : Nat) (stream : iw_event_stream_s) (iwe : iw_event) (v : Int)
    (h_end : stream.end_ = len)
    (h_more : stream.current < stream.end_)
    (h_bad : stream.end_ - stream.current < (layout v).header_size
      ∨ (layout v).declared_length (read_bytes data stream.current (layout v).header_size)
          > stream.end_ - stream.current) :
    iw_event_stream_pop (spec_decoder_env env layout) data stream iwe v = (-1, stream, iwe)
      ∧ (∀ i ∈ (iw_extract_event_stream_traced layout data stream iwe v).reads, i < len)
      ∧ (∀ data2 : List Nat, data2.take len = data.take len →
          iw_event_stream_pop (spec_decoder_env env layout) data2 stream iwe v
              = (-1, stream, iwe)
            ∧ ∀ i ∈ (iw_extract_event_stream_traced layout data2 stream iwe v).reads,
                i < len)
      ∧ (∀ (fuel : Nat) (s : coll_state), s.stream = stream → s.iwe = iwe →
          scan_loop (spec_decoder_env env layout) data v (fuel + 1) s
            = Exec.val { s with ret := -1 }) := by
  have h1 : ¬ stream.current ≥ stream.end_ := not_le.mpr h_more
  have hret : (iw_extract_event_stream_traced layout data stream iwe v).value
      = (-1, stream, iwe) := by
    unfold iw_extract_event_stream_traced
    by_cases h2 : stream.end_ - stream.current < (layout v).header_size
    · simp only [if_neg h1, if_pos h2, traced.ret]
    · have h3 : (layout v).declared_length
          (read_bytes data stream.current (layout v).header_size)
            > stream.end_ - stream.current := by
        rcases h_bad with hb | hb
        · exact absurd hb h2
        · exact hb
      simp only [if_neg h1, if_neg h2, traced.and_then, load, if_pos h3, traced.ret]
  have hin : ∀ d : List Nat,
      ∀ i ∈ (iw_extract_event_stream_traced layout d stream iwe v).reads, i < len := by
    intro d i hi
    have hb := traced_reads_in_bounds layout d stream iwe v i hi
    omega
  refine ⟨hret, hin data, ?_, ?_⟩
  · intro data2 hd
    have hc := traced_congr layout data data2 stream iwe v (by rw [h_end]; exact hd)
    refine ⟨?_, hin data2⟩
    show (iw_extract_event_stream_traced layout data2 stream iwe v).value = (-1, stream, iwe)
    rw [hc]
    exact hret
  · intro fuel s hs hi
    have hp : iw_event_stream_pop (spec_decoder_env env layout) data s.stream s.iwe v
        = (-1, s.stream, s.iwe) := by
      rw [hs, hi]
      exact hret
    have hneg : (iw_event_stream_pop (spec_decoder_env env layout) data s.stream s.iwe v).1 < 0 := by
      rw [hp]
      show (-1 : Int) < 0
      decide
    rw [scan_loop_pop_fails (spec_decoder_env env layout) data v fuel s hneg, hp]

/-- Witness of C11: a buffer of 6 bytes whose header declares 9 bytes, followed by
a sentinel byte 255 beyond the reported length; and a buffer of 3 bytes, fewer
than a header. -/
theorem cursor_safety_witness :
    iw_event_stream_pop (spec_decoder_env (scripted_env 6 []) (fun _ => example_layout))
        [9, 0, 1, 139, 7, 7, 255] (iw_event_stream_init 6) (ev_other 0) 22
        = (-1, iw_event_stream_init 6, ev_other 0)
      ∧ (∀ i ∈ (iw_extract_event_stream_traced (fun _ => example_layout)
            [9, 0, 1, 139, 7, 7, 255] (iw_event_stream_init 6) (ev_other 0) 22).reads, i < 6)
      ∧ iw_event_stream_pop (spec_decoder_env (scripted_env 6 []) (fun _ => example_layout))
          [9, 0, 1, 139, 7, 7] (iw_event_stream_init 6) (ev_other 0) 22
          = (-1, iw_event_stream_init 6, ev_other 0)
      ∧ iw_event_stream_pop (spec_decoder_env (scripted_env 3 []) (fun _ => example_layout))
          [9, 0, 1, 255] (iw_event_stream_init 3) (ev_other 0) 22
          = (-1, iw_event_stream_init 3, ev_other 0) :=
  have h6 := cursor_safety (scripted_env 6 []) (fun _ => example_layout)
    [9, 0, 1, 139, 7, 7, 255] 6 (iw_event_stream_init 6) (ev_other 0) 22 rfl (by decide)
    (Or.inr (by decide))
  have h3 := cursor_safety (scripted_env 3 []) (fun _ => example_layout)
    [9, 0, 1, 255] 3 (iw_event_stream_init 3) (ev_other 0) 22 rfl (by decide)
    (Or.inl (by decide))
  ⟨h6.1, h6.2.1, (h6.2.2.1 [9, 0, 1, 139, 7, 7] rfl).1, h3.1⟩

end Wapi
